import Mathlib

/-!
# gh-saved-issues: query rendering and reconciliation

A shallow embedding of `pkg/savedsearches/config.go` (`RenderQuery` and its
helpers) and `pkg/savedsearches/syncer.go` (`Syncer.Sync`).

Go strings are `String`; the text-processing helpers work on `List Char`.
Go maps are association lists, `none` standing for the nil map.
-/

namespace SavedSearches

/-! ## Data model (`config.go`) -/

/-- A scalar decoded from YAML into Go's `any`: `nil`, a string, an integer or a
boolean (floating-point numbers and timestamps are left out). -/
inductive Scalar where
  | null
  | str (s : String)
  | int (n : Int)
  | bool (b : Bool)
  deriving DecidableEq, Repr

/-- A value of a `vars` entry (Go `any`): a scalar or a list of scalars (`[]any`);
nested lists and maps are left out. -/
inductive Value where
  | scalar (x : Scalar)
  | list (xs : List Scalar)
  deriving DecidableEq, Repr

/-- A Go map with string keys: `none` is the nil map, `some es` holds the entries,
whose keys are distinct in a Go map. -/
abbrev GoMap (α : Type) := Option (List (String × α))

/-- Map lookup `m[key]` with the comma-ok result; a nil map has no keys. -/
def GoMap.get? {α : Type} (m : GoMap α) (key : String) : Option α :=
  match m with
  | none => none
  | some es => es.lookup key

/-- The entries visited by `for key, val := range m`; none for a nil map. -/
def GoMap.entries {α : Type} (m : GoMap α) : List (String × α) :=
  match m with
  | none => []
  | some es => es

/-- TemplateDefinition: a reusable template for queries. -/
structure TemplateDefinition where
  Query : String
  deriving DecidableEq, Repr

/-- SearchDefinition: a single saved search definition. -/
structure SearchDefinition where
  ID : String := ""
  Name : String := ""
  Query : String := ""
  Section : String := ""
  Template : String := ""
  Vars : GoMap Value := none
  Remove : Bool := false
  deriving DecidableEq, Repr

/-- Config: the YAML configuration file. -/
structure Config where
  Searches : List SearchDefinition
  Templates : GoMap TemplateDefinition
  deriving DecidableEq, Repr

/-- Go `isSectionHeader`. -/
def isSectionHeader (d : SearchDefinition) : Bool :=
  d.Section != "" && d.Template == "" && d.Query == ""

/-! ## Regular expressions (Go `regexp`, leftmost-first semantics)

The four patterns of `config.go` only repeat single-character classes, so the
expression type has character classes, greedy and lazy repetition of a class,
concatenation and capture groups.  Matching is a backtracking search, which is
the match Go's `regexp` package specifies.
-/

/-- Regular expressions over character classes. -/
inductive Re where
  | chr (p : Char → Bool)
  | rep (p : Char → Bool) (greedy : Bool)
  | cat (a b : Re)
  | cap (a : Re)

/-- Repetition `p*` (greedy) or `p*?` (lazy) followed by the continuation `k`. -/
def repRun {α : Type} (p : Char → Bool) (greedy : Bool) (k : List Char → Option α) :
    List Char → Option α
  | [] => k []
  | c :: s =>
    if p c then
      if greedy then
        match repRun p greedy k s with
        | some r => some r
        | none => k (c :: s)
      else
        match k (c :: s) with
        | some r => some r
        | none => repRun p greedy k s
    else k (c :: s)

/-- Backtracking match of `r` at the start of the input; `k` receives the rest of the
input and the captured groups. -/
def Re.run {α : Type} : Re → List Char → List (List Char) →
    (List Char → List (List Char) → Option α) → Option α
  | .chr p, s, caps, k =>
    match s with
    | c :: s' => if p c then k s' caps else none
    | [] => none
  | .rep p g, s, caps, k => repRun p g (fun s' => k s' caps) s
  | .cat a b, s, caps, k => a.run s caps (fun s' caps' => b.run s' caps' k)
  | .cap a, s, caps, k =>
    a.run s caps (fun s' caps' => k s' (caps' ++ [s.take (s.length - s'.length)]))

/-- A match anchored at the start of `s`: the unmatched rest and the groups. -/
def matchAt (r : Re) (s : List Char) : Option (List Char × List (List Char)) :=
  r.run s [] (fun rest caps => some (rest, caps))

/-- A piece of a scanned text: an unmatched character or a match with its groups. -/
inductive Piece where
  | skip (c : Char)
  | hit (m : List Char) (caps : List (List Char))
  deriving DecidableEq, Repr

/-- Leftmost non-overlapping matches, left to right; the counter is the number of
characters of the current match still to pass over.  (None of the patterns below
matches the empty string.) -/
def scan (r : Re) : Nat → List Char → List Piece
  | _, [] => []
  | n + 1, _ :: s => scan r n s
  | 0, c :: s =>
    match matchAt r (c :: s) with
    | some (rest, caps) =>
      let len := (c :: s).length - rest.length
      if len = 0 then .hit [] caps :: .skip c :: scan r 0 s
      else .hit ((c :: s).take len) caps :: scan r (len - 1) s
    | none => .skip c :: scan r 0 s

/-- A match with its groups, as `FindAllStringSubmatch` reports it. -/
def Piece.submatch : Piece → Option (List (List Char))
  | .skip _ => none
  | .hit m caps => some (m :: caps)

/-- The text of a piece once matches are replaced through `repl`. -/
def Piece.expand (repl : List Char → List Char) : Piece → List Char
  | .skip c => [c]
  | .hit m _ => repl m

/-- Go `(*Regexp).FindAllStringSubmatch(s, -1)`: each match followed by its groups. -/
def FindAllStringSubmatch (r : Re) (s : List Char) : List (List (List Char)) :=
  (scan r 0 s).filterMap Piece.submatch

/-- Go `(*Regexp).FindAllString(s, -1)`. -/
def FindAllString (r : Re) (s : List Char) : List (List Char) :=
  (FindAllStringSubmatch r s).map fun m => m.headD []

/-- Go `(*Regexp).FindStringSubmatch`: the leftmost match and its groups, `[]` for nil. -/
def FindStringSubmatch (r : Re) (s : List Char) : List (List Char) :=
  (FindAllStringSubmatch r s).headD []

/-- Go `(*Regexp).ReplaceAllStringFunc`. -/
def ReplaceAllStringFunc (r : Re) (s : List Char) (repl : List Char → List Char) : List Char :=
  (scan r 0 s).flatMap (Piece.expand repl)

/-- A literal character. -/
def Re.lit (c : Char) : Re := .chr (fun x => x == c)

/-- A literal string. -/
def Re.str : List Char → Re → Re
  | [], r => r
  | c :: cs, r => .cat (.lit c) (Re.str cs r)

/-- The class `\s` of Go's regexp syntax: `[\t\n\f\r ]`. -/
def reSpace (c : Char) : Bool :=
  c == '\t' || c == '\n' || c == Char.ofNat 12 || c == '\r' || c == ' '

/-- Zero or more `\s`, greedy. -/
def Re.ws : Re := .rep reSpace true

/-- The tail shared by both call patterns:
`\(\s*([^,]+?)\s*,\s*"(.*?)"\s*\)\s*\}\}`. -/
def callTail : Re :=
  .cat (.lit '(') <| .cat .ws <|
  .cat (.cap (.cat (.chr (fun c => c != ',')) (.rep (fun c => c != ',') false))) <|
  .cat .ws <| .cat (.lit ',') <| .cat .ws <| .cat (.lit '"') <|
  .cat (.cap (.rep (fun c => c != '\n') false)) <|
  .cat (.lit '"') <| .cat .ws <| .cat (.lit ')') <| .cat .ws <|
  .cat (.lit '}') (.lit '}')

/-- Both call patterns: `\{\{\s*<fn>\(\s*([^,]+?)\s*,\s*"(.*?)"\s*\)\s*\}\}`. -/
def callPattern (fn : List Char) : Re :=
  .cat (.lit '{') <| .cat (.lit '{') <| .cat .ws <| Re.str fn callTail

/-- Go `defaultCallPattern`:
`\{\{\s*default\(\s*([^,]+?)\s*,\s*"(.*?)"\s*\)\s*\}\}`. -/
def defaultCallPattern : Re := callPattern "default".toList

/-- Go `joinCallPattern`: `\{\{\s*join\(\s*([^,]+?)\s*,\s*"(.*?)"\s*\)\s*\}\}`. -/
def joinCallPattern : Re := callPattern "join".toList

/-- Go `actionPattern`: `\{\{[^}]+\}\}`. -/
def actionPattern : Re :=
  .cat (.lit '{') <| .cat (.lit '{') <| .cat (.chr (fun c => c != '}')) <|
  .cat (.rep (fun c => c != '}') true) <| .cat (.lit '}') (.lit '}')

/-- Go `identifierPattern`.  The source is the raw string
``([a-zA-Z_][\\w]*)``: inside the brackets `\\` is an escaped backslash and `w` a
plain letter, so the second class holds the two characters backslash and `w`. -/
def identifierPattern : Re :=
  .cap (.cat (.chr (fun c => ('a' ≤ c && c ≤ 'z') || ('A' ≤ c && c ≤ 'Z') || c == '_'))
    (.rep (fun c => c == '\\' || c == 'w') true))

/-! ## String helpers (Go `strings`, `fmt`) -/

/-- Go `unicode.IsSpace`, the set that `strings.TrimSpace` removes. -/
def isUnicodeSpace (c : Char) : Bool :=
  let n := c.toNat
  (9 ≤ n && n ≤ 13) || n == 32 || n == 0x85 || n == 0xA0 || n == 0x1680 ||
    (0x2000 ≤ n && n ≤ 0x200A) || n == 0x2028 || n == 0x2029 || n == 0x202F ||
    n == 0x205F || n == 0x3000

/-- Go `strings.TrimSpace`. -/
def TrimSpace (s : List Char) : List Char :=
  ((s.dropWhile isUnicodeSpace).reverse.dropWhile isUnicodeSpace).reverse

/-- Go `strings.Join`. -/
def stringsJoin : List String → String → String
  | [], _ => ""
  | [e], _ => e
  | e :: es, sep => e ++ sep ++ stringsJoin es sep

/-- Go `fmt.Sprint` of one scalar held in an `any`. -/
def sprintScalar : Scalar → String
  | .null => "<nil>"
  | .str s => s
  | .int n => toString n
  | .bool b => if b then "true" else "false"

/-- Go `fmt.Sprint` of a value held in an `any`; a `[]any` prints as `[a b c]`. -/
def sprintValue : Value → String
  | .scalar x => sprintScalar x
  | .list xs => "[" ++ stringsJoin (xs.map sprintScalar) " " ++ "]"

/-! ## Template syntax normalisation (`config.go`) -/

/-- Go `ensureDot`. -/
def ensureDot (expr : List Char) : List Char :=
  if expr.head? = some '.' ∨ expr.head? = some '$' then expr
  else if expr.any (fun c => c == ' ' || c == '(' || c == ')') then expr
  else '.' :: expr

/-- The replacement closure of `normalizeTemplateSyntax`:
`fmt.Sprintf("{{ <fn> %s \"%s\" }}", ensureDot(strings.TrimSpace(parts[1])), parts[2])`
with `parts := pattern.FindStringSubmatch(m)`.  `m` is itself a match of the
pattern, so `parts` has its three entries. -/
def rewriteCall (pattern : Re) (fn : List Char) (m : List Char) : List Char :=
  let parts := FindStringSubmatch pattern m
  "\x7b\x7b ".toList ++ fn ++ " ".toList ++ ensureDot (TrimSpace (parts.getD 1 [])) ++
    " \"".toList ++ parts.getD 2 [] ++ "\" \x7d\x7d".toList

/-- Go `normalizeTemplateSyntax`. -/
def normalizeTemplateSyntax (input : List Char) : List Char :=
  let out := ReplaceAllStringFunc defaultCallPattern input
    (rewriteCall defaultCallPattern "default".toList)
  ReplaceAllStringFunc joinCallPattern out (rewriteCall joinCallPattern "join".toList)

/-- The names skipped by the `switch` in `referencedIdentifiers`. -/
def controlKeywords : List (List Char) :=
  ["default", "join", "range", "end", "if", "else", "with"].map String.toList

/-- Go `referencedIdentifiers`.  The `seen` set holds exactly the names already
appended to `ids`. -/
def referencedIdentifiers (input : List Char) : List (List Char) :=
  let names := (FindAllString actionPattern input).flatMap fun action =>
    (FindAllStringSubmatch identifierPattern action).map fun m => m.getD 1 []
  let ids := names.foldl (fun ids name =>
    if controlKeywords.contains name then ids
    else if ids.contains name then ids
    else ids ++ [name]) []
  let firsts := (FindAllStringSubmatch defaultCallPattern input).map fun m =>
    TrimSpace (m.getD 1 [])
  firsts.foldl (fun ids name =>
    if name.isEmpty || ids.contains name then ids else ids ++ [name]) ids

/-! ## A fragment of Go's `text/template`

`RenderQuery` hands the normalised text to `text/template`.  The fragment
modelled here has plain text and actions `{{ ... }}` holding one command whose
operands are function names, fields `.name` and double-quoted strings without
escapes, separated by blanks, over ASCII.  Whatever lies outside the fragment
(pipes, variables, numbers, keywords, parentheses, chained fields, escapes, trim
markers, comments, line breaks in actions, built-in functions, characters beyond
ASCII in actions) is reported as `unsupported`, never guessed.
-/

/-- Why lexing or parsing stopped: a Go error, or text outside the fragment. -/
inductive Fail where
  | error
  | unsupported
  deriving DecidableEq, Repr

/-- Tokens inside an action (`itemSpace`, `itemIdentifier`, `itemField`, `itemString`). -/
inductive Tok where
  | space
  | ident (name : List Char)
  | field (name : List Char)
  | str (body : List Char)
  deriving DecidableEq, Repr

/-- Lexed template: text runs and the token lists of the actions. -/
inductive Item where
  | text (s : List Char)
  | action (toks : List Tok)
  deriving DecidableEq, Repr

/-- ASCII letters. -/
def isLetter (c : Char) : Bool :=
  ('a' ≤ c && c ≤ 'z') || ('A' ≤ c && c ≤ 'Z')

/-- ASCII part of the lexer's `isAlphaNumeric`: underscore, letter or digit. -/
def isAlphaNumeric (c : Char) : Bool :=
  c == '_' || isLetter c || ('0' ≤ c && c ≤ '9')

/-- The words the lexer does not emit as `itemIdentifier`: keywords and constants. -/
def lexKeywords : List (List Char) :=
  ["block", "break", "continue", "define", "else", "end", "if", "range", "nil",
    "template", "with", "true", "false"].map String.toList

/-- States of the lexer (`lexText`, `lexInsideAction`, `lexSpace`,
`lexIdentifier`, `lexField`, `lexQuote`, and the two halves of a delimiter). -/
inductive LexState where
  | text (items : List Item) (acc : List Char)
  | brace (items : List Item) (acc : List Char)
  | inside (items : List Item) (toks : List Tok)
  | spaces (items : List Item) (toks : List Tok)
  | ident (items : List Item) (toks : List Tok) (acc : List Char)
  | dot (items : List Item) (toks : List Tok)
  | field (items : List Item) (toks : List Tok) (acc : List Char)
  | quote (items : List Item) (toks : List Tok) (acc : List Char)
  | closing (items : List Item) (toks : List Tok)
  | stop (f : Fail)
  deriving DecidableEq, Repr

/-- Go `lexInsideAction` on the first character of a token. -/
def lexStart (items : List Item) (toks : List Tok) (c : Char) : LexState :=
  if c == '}' then .closing items toks
  else if c == ' ' || c == '\t' then .spaces items toks
  else if c == '"' then .quote items toks []
  else if c == '.' then .dot items toks
  else if c == '_' || isLetter c then .ident items toks [c]
  else .stop .unsupported

/-- Go `atTerminator` on the character that follows an identifier or a field. -/
def lexTerm (items : List Item) (toks : List Tok) (c : Char) : LexState :=
  if c == '}' then .closing items toks
  else if c == ' ' || c == '\t' then .spaces items toks
  else if c == '.' || c == ',' || c == '|' || c == ':' || c == ')' || c == '(' ||
      c == '\r' || c == '\n' || c.toNat ≥ 128 then .stop .unsupported
  else .stop .error

/-- One character of lexing. -/
def lexStep : LexState → Char → LexState
  | .text items acc, c => if c == '{' then .brace items acc else .text items (acc ++ [c])
  | .brace items acc, c =>
    if c == '{' then .inside (items ++ [.text acc]) [] else .text items (acc ++ ['{', c])
  | .inside items toks, c => lexStart items toks c
  | .spaces items toks, c =>
    if c == ' ' || c == '\t' then .spaces items toks else lexStart items (toks ++ [.space]) c
  | .ident items toks acc, c =>
    if isAlphaNumeric c then .ident items toks (acc ++ [c])
    else if lexKeywords.contains acc then .stop .unsupported
    else lexTerm items (toks ++ [.ident acc]) c
  | .dot items toks, c =>
    if c == '_' || isLetter c then .field items toks [c] else .stop .unsupported
  | .field items toks acc, c =>
    if isAlphaNumeric c then .field items toks (acc ++ [c])
    else lexTerm items (toks ++ [.field acc]) c
  | .quote items toks acc, c =>
    if c == '"' then .inside items (toks ++ [.str acc])
    else if c == '\\' then .stop .unsupported
    else if c == '\n' then .stop .error
    else .quote items toks (acc ++ [c])
  | .closing items toks, c =>
    if c == '}' then .text (items ++ [.action toks]) [] else .stop .error
  | .stop f, _ => .stop f

/-- End of input: only text may be open. -/
def lexEnd : LexState → Except Fail (List Item)
  | .text items acc => .ok (items ++ [.text acc])
  | .brace items acc => .ok (items ++ [.text (acc ++ ['{'])])
  | .stop f => .error f
  | _ => .error .error

/-- The lexer. -/
def lex (s : List Char) : Except Fail (List Item) :=
  lexEnd (s.foldl lexStep (.text [] []))

/-- Operands of a command. -/
inductive Operand where
  | ident (name : List Char)
  | field (name : List Char)
  | str (body : List Char)
  deriving DecidableEq, Repr

/-- Parsed template. -/
inductive Node where
  | text (s : List Char)
  | action (cmd : List Operand)
  deriving DecidableEq, Repr

/-- The functions `RenderQuery` registers: `default`, `join`, one closure per
variable, one nil closure per referenced identifier. -/
inductive Func where
  | default
  | join
  | var (v : Value)
  | missing
  deriving DecidableEq, Repr

/-- Go `template.FuncMap`, latest assignment first. -/
abbrev FuncMap := List (String × Func)

/-- Names of `text/template`'s built-in functions. -/
def builtinFuncs : List String :=
  ["and", "call", "html", "index", "slice", "js", "len", "not", "or", "print", "printf",
    "println", "urlquery", "eq", "ge", "gt", "le", "lt", "ne"]

/-- The parser's operands of one command (`Tree.command`, `Tree.operand`, `Tree.term`);
`after` says that an operand has just been read. -/
def parseCommand (funcs : FuncMap) : Bool → List Tok → Except Fail (List Operand)
  | _, [] => .ok []
  | _, .space :: ts => parseCommand funcs false ts
  | true, .field _ :: _ => .error .unsupported
  | true, _ :: _ => .error .error
  | false, .ident n :: ts =>
    if (funcs.lookup (String.mk n)).isSome then
      (parseCommand funcs true ts).map (Operand.ident n :: ·)
    else if builtinFuncs.contains (String.mk n) then .error .unsupported
    else .error .error
  | false, .field n :: ts => (parseCommand funcs true ts).map (Operand.field n :: ·)
  | false, .str b :: ts => (parseCommand funcs true ts).map (Operand.str b :: ·)

/-- Parse the lexed items; an action without operand is the error
"missing value for command". -/
def parseItems (funcs : FuncMap) : List Item → Except Fail (List Node)
  | [] => .ok []
  | .text s :: is => (parseItems funcs is).map (Node.text s :: ·)
  | .action toks :: is =>
    match parseCommand funcs false toks with
    | .error f => .error f
    | .ok [] => .error .error
    | .ok cmd => (parseItems funcs is).map (Node.action cmd :: ·)

/-- Go `(*Template).Parse` on the fragment. -/
def parseTemplate (funcs : FuncMap) (s : List Char) : Except Fail (List Node) :=
  match lex s with
  | .error f => .error f
  | .ok items => parseItems funcs items

/-- The `default` closure of `RenderQuery`. -/
def defaultFunc (value : Value) (fallback : String) : String :=
  match value with
  | .scalar (.str v) => if v != "" then v else fallback
  | _ => fallback

/-- The `join` closure of `RenderQuery`; its `[]string` case is not reached, the YAML
decoder yields `[]any`. -/
def joinFunc (value : Value) (sep : String) : String :=
  match value with
  | .list v => stringsJoin (v.map sprintScalar) (" " ++ sep ++ " ")
  | v => sprintValue v

/-- The field `.name` of the data `def.Vars` under `missingkey=zero`: the entry, or
the zero `any` (nil) when the key is absent. -/
def evalField (vars : GoMap Value) (name : List Char) : Value :=
  (vars.get? (String.mk name)).getD (.scalar .null)

/-- Go `evalCall` with no argument: only the closures without parameter accept it. -/
def callNoArgs (funcs : FuncMap) (name : List Char) : Option Value :=
  match funcs.lookup (String.mk name) with
  | some (.var v) => some v
  | some .missing => some (.scalar .null)
  | _ => none

/-- Go `evalArg` for a parameter of type `any`. -/
def evalArgAny (funcs : FuncMap) (vars : GoMap Value) : Operand → Option Value
  | .field n => some (evalField vars n)
  | .ident n => callNoArgs funcs n
  | .str b => some (.scalar (.str (String.mk b)))

/-- Go `evalArg` for a parameter of type `string`: the value must hold a string. -/
def evalArgString (funcs : FuncMap) (vars : GoMap Value) (arg : Operand) : Option String :=
  match evalArgAny funcs vars arg with
  | some (.scalar (.str s)) => some s
  | _ => none

/-- Go `evalCommand`: the value of a command, `none` for an execution error. -/
def evalCommand (funcs : FuncMap) (vars : GoMap Value) : List Operand → Option Value
  | [] => none
  | .field n :: args => if args.isEmpty then some (evalField vars n) else none
  | .str b :: args => if args.isEmpty then some (.scalar (.str (String.mk b))) else none
  | .ident n :: args =>
    match funcs.lookup (String.mk n) with
    | some .default =>
      match args with
      | [a, b] =>
        match evalArgAny funcs vars a, evalArgString funcs vars b with
        | some x, some y => some (.scalar (.str (defaultFunc x y)))
        | _, _ => none
      | _ => none
    | some .join =>
      match args with
      | [a, b] =>
        match evalArgAny funcs vars a, evalArgString funcs vars b with
        | some x, some y => some (.scalar (.str (joinFunc x y)))
        | _, _ => none
      | _ => none
    | some (.var v) => if args.isEmpty then some v else none
    | some .missing => if args.isEmpty then some (.scalar .null) else none
    | none => none

/-- Go `printValue`: a nil `any` prints as `<no value>`, the rest as `fmt.Fprint`. -/
def printValue : Value → String
  | .scalar .null => "<no value>"
  | v => sprintValue v

/-- Go `(*Template).Execute` with data `def.Vars`: `none` for an execution error. -/
def execute (funcs : FuncMap) (vars : GoMap Value) : List Node → Option String
  | [] => some ""
  | .text s :: ns => (execute funcs vars ns).map (String.mk s ++ ·)
  | .action cmd :: ns =>
    match evalCommand funcs vars cmd with
    | none => none
    | some v => (execute funcs vars ns).map (printValue v ++ ·)

/-- Go `goodName` of `text/template` on ASCII: a letter or underscore followed by
letters, digits and underscores. -/
def goodName (name : List Char) : Bool :=
  match name with
  | [] => false
  | c :: cs => (c == '_' || isLetter c) && cs.all isAlphaNumeric

/-! ## `RenderQuery` (`config.go`) -/

/-- The errors `RenderQuery` returns. -/
inductive RenderError where
  | missingQueryOrTemplate
  | templateNotFound (ref : String)
  | parse (ref : String)
  | execute (ref : String)
  deriving DecidableEq, Repr

/-- The message of the two errors `RenderQuery` builds itself; `quote` is Go's `%q`.
The causes wrapped by the other two come from `text/template`. -/
def RenderError.message (quote : String → String) : RenderError → String
  | .missingQueryOrTemplate => "search must have either query or template"
  | .templateNotFound ref => "template " ++ quote ref ++ " not found"
  | .parse ref => "parse template " ++ quote ref ++ ": "
  | .execute ref => "execute template " ++ quote ref ++ ": "

/-- What a call of `RenderQuery` does: return a query, return an error, panic
(in `Funcs`, on a function name that is not an identifier), or leave the
modelled fragment of `text/template`. -/
inductive RenderResult where
  | ok (query : String)
  | error (e : RenderError)
  | panic
  | unsupported
  deriving DecidableEq, Repr

/-- The function map built by `RenderQuery`: `default` and `join`, then one entry
per variable, then one nil entry per referenced identifier not yet present. -/
def buildFuncs (vars : GoMap Value) (ids : List (List Char)) : FuncMap :=
  let base : FuncMap := [("default", .default), ("join", .join)]
  let withVars := vars.entries.foldl (fun m kv => (kv.1, Func.var kv.2) :: m) base
  ids.foldl (fun m name =>
    if (m.lookup (String.mk name)).isSome then m else (String.mk name, Func.missing) :: m)
    withVars

/-- Go `RenderQuery`. -/
def RenderQuery (d : SearchDefinition) (templates : GoMap TemplateDefinition) : RenderResult :=
  if d.Query != "" then .ok d.Query
  else if isSectionHeader d then .ok ""
  else if d.Template == "" then .error .missingQueryOrTemplate
  else
    match templates.get? d.Template with
    | none => .error (.templateNotFound d.Template)
    | some tpl =>
      let normalized := normalizeTemplateSyntax tpl.Query.toList
      let funcs := buildFuncs d.Vars (referencedIdentifiers normalized)
      if funcs.any (fun kv => kv.1.toList.any (fun c => c.toNat ≥ 128)) then .unsupported
      else if !funcs.all (fun kv => goodName kv.1.toList) then .panic
      else
        match parseTemplate funcs normalized with
        | .error .unsupported => .unsupported
        | .error .error => .error (.parse d.Template)
        | .ok nodes =>
          match execute funcs d.Vars nodes with
          | none => .error (.execute d.Template)
          | some out => .ok out

/-! ## Reconciliation (`syncer.go`) -/

/-- SavedSearchInput: the information sent to GitHub (`client.go`). -/
structure SavedSearchInput where
  Name : String
  Query : String
  Description : String := ""
  deriving DecidableEq, Repr

/-- The `Client` interface of `client.go`.  An implementation has a state `σ`
(the remote service); each call returns its result and the next state. -/
structure Client (σ : Type) where
  CreateSavedSearch : σ → SavedSearchInput → Except String String × σ
  UpdateSavedSearch : σ → String → SavedSearchInput → Except String Unit × σ
  DeleteSavedSearch : σ → String → Except String Unit × σ

/-- Syncer: applies configuration to GitHub. -/
structure Syncer (σ : Type) where
  client : Client σ
  recreate : Bool
  reset : Bool

/-- The effects of `Sync`, in the order they happen. -/
inductive Event where
  | println (line : String)
  | create (input : SavedSearchInput)
  | update (id : String) (input : SavedSearchInput)
  | delete (id : String)
  | sleep
  | save (path : String) (cfg : Config)
  deriving DecidableEq, Repr

/-- The errors `Sync` returns. -/
inductive SyncError where
  | load (cause : String)
  | render (name : String) (e : RenderError)
  | missingName
  | remote (op : String) (name : String) (cause : String)
  | save (cause : String)
  deriving DecidableEq, Repr

/-- How the loop body ends: go on with the next definition, return an error, or
one of the two ends `RenderQuery` passes on. -/
inductive Flow where
  | next
  | abort (e : SyncError)
  | panic
  | unsupported
  deriving DecidableEq, Repr

/-- The loop body's result: the definition as mutated in place, whether `updated`
was set, the effects, the client's state and how the body ended. -/
structure Step (σ : Type) where
  search : SearchDefinition
  updated : Bool
  events : List Event
  client : σ
  flow : Flow

/-- The name sent to GitHub (`syncer.go` lines 41-44). -/
def effectiveName (search : SearchDefinition) : String :=
  if search.Name == "" && search.Section != "" then "== " ++ search.Section ++ " =="
  else search.Name

/-- Lines 85-98 of `syncer.go`: create when no identifier is held, else update; then sleep. -/
def createOrUpdate {σ : Type} (s : Syncer σ) (input : SavedSearchInput)
    (search : SearchDefinition) (updated : Bool) (events : List Event) (st : σ) : Step σ :=
  if search.ID == "" then
    match s.client.CreateSavedSearch st input with
    | (.error err, st') =>
      ⟨search, updated, events ++ [.create input], st', .abort (.remote "create" search.Name err)⟩
    | (.ok id, st') =>
      ⟨{ search with ID := id }, true, events ++ [.create input, .sleep], st', .next⟩
  else
    match s.client.UpdateSavedSearch st search.ID input with
    | (.error err, st') =>
      ⟨search, updated, events ++ [.update search.ID input], st',
        .abort (.remote "update" search.Name err)⟩
    | (.ok _, st') =>
      ⟨search, updated, events ++ [.update search.ID input, .sleep], st', .next⟩

/-- Lines 32-34 of `syncer.go`: the progress line of a named definition. -/
def greeting (search : SearchDefinition) : List Event :=
  if search.Name != "" then [.println ("Processing: " ++ search.Name)] else []

/-- The body of the loop of `Sync` (lines 30-98) for one definition. -/
def syncSearch {σ : Type} (s : Syncer σ) (templates : GoMap TemplateDefinition)
    (search : SearchDefinition) (st : σ) : Step σ :=
  let greet : List Event := greeting search
  match RenderQuery search templates with
  | .panic => ⟨search, false, greet, st, .panic⟩
  | .unsupported => ⟨search, false, greet, st, .unsupported⟩
  | .error e => ⟨search, false, greet, st, .abort (.render search.Name e)⟩
  | .ok query =>
    let name := effectiveName search
    if name == "" then ⟨search, false, greet, st, .abort .missingName⟩
    else
      let input : SavedSearchInput := { Name := name, Query := query }
      if search.Remove then
        if search.ID != "" then
          match s.client.DeleteSavedSearch st search.ID with
          | (.error err, st') =>
            ⟨search, false, greet ++ [.delete search.ID], st',
              .abort (.remote "delete" search.Name err)⟩
          | (.ok _, st') =>
            ⟨{ search with ID := "", Remove := false }, true, greet ++ [.delete search.ID],
              st', .next⟩
        else ⟨search, false, greet, st, .next⟩
      else if s.reset then
        if search.ID != "" then
          match s.client.DeleteSavedSearch st search.ID with
          | (.error err, st') =>
            ⟨search, false, greet ++ [.delete search.ID], st',
              .abort (.remote "reset delete" search.Name err)⟩
          | (.ok _, st') =>
            ⟨{ search with ID := "" }, true, greet ++ [.delete search.ID], st', .next⟩
        else ⟨search, false, greet, st, .next⟩
      else if s.recreate && search.ID != "" then
        match s.client.DeleteSavedSearch st search.ID with
        | (.error err, st') =>
          ⟨search, false, greet ++ [.delete search.ID], st',
            .abort (.remote "force delete" search.Name err)⟩
        | (.ok _, st') =>
          createOrUpdate s input { search with ID := "" } true
            (greet ++ [.delete search.ID]) st'
      else createOrUpdate s input search false greet st

/-- The loop of `Sync` over `cfg.Searches`: the list as mutated, the `updated`
flag, the effects, the client's state and how the loop ended. -/
structure Loop (σ : Type) where
  searches : List SearchDefinition
  updated : Bool
  events : List Event
  client : σ
  flow : Flow

/-- Lines 28-99 of `syncer.go`. -/
def syncLoop {σ : Type} (s : Syncer σ) (templates : GoMap TemplateDefinition) :
    List SearchDefinition → σ → Loop σ
  | [], st => ⟨[], false, [], st, .next⟩
  | d :: ds, st =>
    let r := syncSearch s templates d st
    match r.flow with
    | .next =>
      let l := syncLoop s templates ds r.client
      ⟨r.search :: l.searches, r.updated || l.updated, r.events ++ l.events, l.client, l.flow⟩
    | f => ⟨r.search :: ds, r.updated, r.events, r.client, f⟩

/-- The persistence functions of `config.go` that `Sync` calls, as seen by it. -/
structure Persistence where
  LoadConfig : String → Except String Config
  SaveConfig : String → Config → Except String Unit

/-- What a call of `Sync` did: its effects, the client's state, and its end
(`.next` stands for the nil error). -/
structure SyncResult (σ : Type) where
  events : List Event
  client : σ
  flow : Flow

/-- Go `(*Syncer).Sync`. -/
def Sync {σ : Type} (s : Syncer σ) (fs : Persistence) (configPath : String) (st : σ) :
    SyncResult σ :=
  match fs.LoadConfig configPath with
  | .error err => ⟨[], st, .abort (.load err)⟩
  | .ok cfg =>
    let l := syncLoop s cfg.Templates cfg.Searches st
    match l.flow with
    | .next =>
      if l.updated then
        let out : Config := { cfg with Searches := l.searches }
        match fs.SaveConfig configPath out with
        | .error err => ⟨l.events ++ [.save configPath out], l.client, .abort (.save err)⟩
        | .ok _ => ⟨l.events ++ [.save configPath out], l.client, .next⟩
      else ⟨l.events, l.client, .next⟩
    | f => ⟨l.events, l.client, f⟩

/-- The remote operations among the effects. -/
def remoteCalls (events : List Event) : List Event :=
  events.filter fun
    | .create _ => true
    | .update _ _ => true
    | .delete _ => true
    | _ => false

/-- The client of the tests (`stubClient` in `syncer_test.go`): it records nothing
here, fails every call when `err` is set, and answers a create with `nextID`,
or `SSC_stub` when that is empty. -/
def stubClient (nextID : String) (err : Option String) : Client Unit where
  CreateSavedSearch := fun st _ =>
    match err with
    | some e => (.error e, st)
    | none => (.ok (if nextID != "" then nextID else "SSC_stub"), st)
  UpdateSavedSearch := fun st _ _ =>
    match err with
    | some e => (.error e, st)
    | none => (.ok (), st)
  DeleteSavedSearch := fun st _ =>
    match err with
    | some e => (.error e, st)
    | none => (.ok (), st)

/-- The file of the tests, written to the temporary directory before `Sync` runs:
`LoadConfig` reads `cfg` and `SaveConfig` succeeds. -/
def fileWith (cfg : Config) : Persistence where
  LoadConfig := fun _ => .ok cfg
  SaveConfig := fun _ _ => .ok ()

/-- The calls of the persistence save among the effects. -/
def saveCalls (events : List Event) : List Event :=
  events.filter fun
    | .save _ _ => true
    | _ => false

/-- Reads the effects from left to right; `owed` tells whether the effect just read
was a create or an update, which `time.Sleep` has to follow.  The answer is `none`
when something other than the delay follows a create or an update, or when a delay
follows anything else; otherwise it is the `owed` of the end of the list. -/
def pace : Bool → List Event → Option Bool
  | owed, [] => some owed
  | true, .sleep :: rest => pace false rest
  | true, _ :: _ => none
  | false, .sleep :: _ => none
  | false, .create _ :: rest => pace true rest
  | false, .update _ _ :: rest => pace true rest
  | false, _ :: rest => pace false rest

/-! ## Template shapes used in the statements -/

/-- The text `{{ fn(v, "f") }}`. -/
def callSrc (fn v f : List Char) : List Char :=
  '{' :: '{' :: ' ' :: (fn ++ '(' :: (v ++ ',' :: ' ' :: '"' :: (f ++ ['"', ')', ' ', '}', '}'])))

/-- The text `{{ fn .v "f" }}`. -/
def callNorm (fn v f : List Char) : List Char :=
  '{' :: '{' :: ' ' :: (fn ++ ' ' :: '.' :: (v ++ ' ' :: '"' :: (f ++ ['"', ' ', '}', '}'])))

/-- The value a `default` or `join` call is printed as. -/
def callOutput (x : Func) (value : Value) (arg : String) : String :=
  match x with
  | .default => defaultFunc value arg
  | _ => joinFunc value arg

/-- The template text `<pre>{{ <fn>(<v>, "<arg>") }}<suf>`. -/
def callTemplate (fn pre v arg suf : String) : String :=
  pre ++ "\x7b\x7b " ++ fn ++ "(" ++ v ++ ", \"" ++ arg ++ "\") \x7d\x7d" ++ suf

/-! ## Theorems -/

/-! ### The repository's tests, replayed on the embedding -/

/-- `TestRenderQueryWithTemplate`. -/
theorem test_RenderQueryWithTemplate :
    RenderQuery
      { Name := "test", Template := "recent",
        Vars := some [("user", .scalar (.str "alice")), ("time", .scalar (.str ""))] }
      (some [("recent",
        ⟨"assignee:\x7b\x7b user \x7d\x7d updated:>@today-\x7b\x7b default(time, \"7d\") \x7d\x7d"⟩)]) =
      .ok "assignee:alice updated:>@today-7d" := by
  decide

/-- The example of the specification, written without blanks. -/
theorem test_specDefaultExample :
    RenderQuery
      { Name := "test", Template := "recent",
        Vars := some [("user", .scalar (.str "alice")), ("time", .scalar (.str ""))] }
      (some [("recent",
        ⟨"assignee:\x7b\x7bdefault(user,\"none\")\x7d\x7d updated:>@today-\x7b\x7bdefault(time,\"7d\")\x7d\x7d"⟩)]) =
      .ok "assignee:alice updated:>@today-7d" := by
  decide

/-- `TestRenderQueryWithJoin`. -/
theorem test_RenderQueryWithJoin :
    RenderQuery
      { Name := "test", Template := "repos",
        Vars := some [("repos", .list [.str "repo:a", .str "repo:b", .str "repo:c"])] }
      (some [("repos", ⟨"is:pr (\x7b\x7b join(repos, \"OR\") \x7d\x7d)"⟩)]) =
      .ok "is:pr (repo:a OR repo:b OR repo:c)" := by
  decide

/-- `TestSyncerCreatesAndUpdatesConfig`: the remote calls and the saved list. -/
theorem test_SyncerCreatesAndUpdatesConfig :
    let cfg : Config :=
      { Templates := none,
        Searches := [
          { Section := "Team", ID := "SSC_team" },
          { Name := "Create", Query := "state:open" },
          { Name := "Update", ID := "SSC_existing", Query := "state:closed" },
          { Section := "Other" },
          { Name := "Remove", ID := "SSC_remove", Query := "state:open", Remove := true }] }
    let run := Sync ⟨stubClient "SSC_new" none, false, false⟩
      ⟨fun _ => .ok cfg, fun _ _ => .ok ()⟩ "config.yaml" ()
    remoteCalls run.events =
      [.update "SSC_team" { Name := "== Team ==", Query := "" },
       .create { Name := "Create", Query := "state:open" },
       .update "SSC_existing" { Name := "Update", Query := "state:closed" },
       .create { Name := "== Other ==", Query := "" },
       .delete "SSC_remove"] ∧
    run.events.getLast? = some (.save "config.yaml"
      { Templates := none,
        Searches := [
          { Section := "Team", ID := "SSC_team" },
          { Name := "Create", Query := "state:open", ID := "SSC_new" },
          { Name := "Update", ID := "SSC_existing", Query := "state:closed" },
          { Section := "Other", ID := "SSC_new" },
          { Name := "Remove", ID := "", Query := "state:open", Remove := false }] }) ∧
    run.flow = .next := by
  decide

/-! ### Literal queries, headers and missing templates -/

theorem RenderQuery_literal (d : SearchDefinition) (templates : GoMap TemplateDefinition)
    (h : d.Query ≠ "") : RenderQuery d templates = .ok d.Query := by
  simp [RenderQuery, h]

theorem RenderQuery_header (d : SearchDefinition) (templates : GoMap TemplateDefinition)
    (h : isSectionHeader d = true) : RenderQuery d templates = .ok "" := by
  have hq : d.Query = "" := by
    simp [isSectionHeader] at h
    exact h.2
  simp [RenderQuery, h, hq]

/-- RenderQuery reads only the query, section, template and variables of a definition. -/
theorem RenderQuery_congr (d e : SearchDefinition) (templates : GoMap TemplateDefinition)
    (hq : d.Query = e.Query) (hs : d.Section = e.Section) (ht : d.Template = e.Template)
    (hv : d.Vars = e.Vars) : RenderQuery d templates = RenderQuery e templates := by
  unfold RenderQuery isSectionHeader
  rw [hq, hs, ht, hv]

/-- C1: for a definition with a non-empty literal query, or a section header, and
for every template catalog (the nil one too), RenderQuery returns the definition's
literal query, which is empty for a header; replacing the variables changes
nothing. -/
theorem C1_literal_or_header (d : SearchDefinition) (h : d.Query ≠ "" ∨ isSectionHeader d = true) :
    (∀ templates : GoMap TemplateDefinition, RenderQuery d templates = .ok d.Query) ∧
    (isSectionHeader d = true → d.Query = "") ∧
    (∀ (templates : GoMap TemplateDefinition) (vars : GoMap Value),
      RenderQuery { d with Vars := vars } templates = .ok d.Query) := by
  have key : ∀ (e : SearchDefinition), e.Query = d.Query → e.Section = d.Section →
      e.Template = d.Template → ∀ templates, RenderQuery e templates = .ok d.Query := by
    intro e hq hs ht templates
    rcases h with h | h
    · rw [← hq]; exact RenderQuery_literal e templates (by rw [hq]; exact h)
    · have hq0 : d.Query = "" := by
        simp [isSectionHeader] at h
        exact h.2
      rw [hq0]
      apply RenderQuery_header
      simpa [isSectionHeader, hq, hs, ht] using h
  refine ⟨fun t => key d rfl rfl rfl t, ?_, fun t vars => key { d with Vars := vars } rfl rfl rfl t⟩
  intro hh
  simp [isSectionHeader] at hh
  exact hh.2

/-- C1 at the definition of `TestRenderQuerySectionHeader`. -/
theorem C1_witness :
    ((⟨"", "== Demo ==", "", "Demo", "", none, false⟩ : SearchDefinition).Query ≠ "" ∨
      isSectionHeader ⟨"", "== Demo ==", "", "Demo", "", none, false⟩ = true) ∧
    RenderQuery ⟨"", "== Demo ==", "", "Demo", "", none, false⟩ none = .ok "" :=
  ⟨Or.inr (by decide), (C1_literal_or_header _ (Or.inr (by decide))).1 none⟩

/-- C2: for a definition with an empty query that is no section header, RenderQuery
returns the error "search must have either query or template" when the template
reference is empty, and, when the reference is not a key of the catalog (nil
catalog included), the error whose message is `template <quoted reference> not
found`. -/
theorem C2_missing_template (d : SearchDefinition) (templates : GoMap TemplateDefinition)
    (hq : d.Query = "") (hh : isSectionHeader d = false) :
    (d.Template = "" → RenderQuery d templates = .error .missingQueryOrTemplate) ∧
    (d.Template ≠ "" → templates.get? d.Template = none →
      RenderQuery d templates = .error (.templateNotFound d.Template) ∧
      ∀ quote : String → String,
        (RenderError.templateNotFound d.Template).message quote =
          "template " ++ quote d.Template ++ " not found") := by
  constructor
  · intro ht
    simp [RenderQuery, hq, hh, ht]
  · intro ht hm
    refine ⟨?_, fun _ => rfl⟩
    simp [RenderQuery, hq, hh, ht, hm]

/-- C2 at the definition of `TestRenderQueryMissingTemplate`. -/
theorem C2_witness :
    RenderQuery { Template := "missing" } none = .error (.templateNotFound "missing") :=
  ((C2_missing_template { Template := "missing" } none rfl (by decide)).2 (by decide) rfl).1

/-! ### The loop body of `Sync` -/

theorem remoteCalls_append (a b : List Event) :
    remoteCalls (a ++ b) = remoteCalls a ++ remoteCalls b := by
  simp [remoteCalls]

theorem remoteCalls_greeting (d : SearchDefinition) : remoteCalls (greeting d) = [] := by
  unfold greeting
  split <;> simp [remoteCalls]

/-- The loop body once the query is resolved and the name exists, branch by branch. -/
theorem syncSearch_resolved {σ : Type} (s : Syncer σ) (templates : GoMap TemplateDefinition)
    (d : SearchDefinition) (st : σ) (q : String)
    (hq : RenderQuery d templates = .ok q) (hname : effectiveName d ≠ "") :
    syncSearch s templates d st =
      let input : SavedSearchInput := { Name := effectiveName d, Query := q }
      if d.Remove then
        if d.ID != "" then
          match s.client.DeleteSavedSearch st d.ID with
          | (.error err, st') =>
            ⟨d, false, greeting d ++ [.delete d.ID], st', .abort (.remote "delete" d.Name err)⟩
          | (.ok _, st') =>
            ⟨{ d with ID := "", Remove := false }, true, greeting d ++ [.delete d.ID], st',
              .next⟩
        else ⟨d, false, greeting d, st, .next⟩
      else if s.reset then
        if d.ID != "" then
          match s.client.DeleteSavedSearch st d.ID with
          | (.error err, st') =>
            ⟨d, false, greeting d ++ [.delete d.ID], st',
              .abort (.remote "reset delete" d.Name err)⟩
          | (.ok _, st') =>
            ⟨{ d with ID := "" }, true, greeting d ++ [.delete d.ID], st', .next⟩
        else ⟨d, false, greeting d, st, .next⟩
      else if s.recreate && d.ID != "" then
        match s.client.DeleteSavedSearch st d.ID with
        | (.error err, st') =>
          ⟨d, false, greeting d ++ [.delete d.ID], st',
            .abort (.remote "force delete" d.Name err)⟩
        | (.ok _, st') =>
          createOrUpdate s input { d with ID := "" } true (greeting d ++ [.delete d.ID]) st'
      else createOrUpdate s input d false (greeting d) st := by
  unfold syncSearch
  simp only [hq]
  have : (effectiveName d == "") = false := by simpa using hname
  simp only [this]
  rfl

/-- The loop body when the query does not resolve or the name is missing: it stops
before any remote call and leaves the definition as it was. -/
theorem syncSearch_stopped {σ : Type} (s : Syncer σ) (templates : GoMap TemplateDefinition)
    (d : SearchDefinition) (st : σ)
    (h : (∀ q, RenderQuery d templates ≠ .ok q) ∨ effectiveName d = "") :
    (syncSearch s templates d st).events = greeting d ∧
    (syncSearch s templates d st).search = d ∧
    (syncSearch s templates d st).client = st ∧
    (syncSearch s templates d st).flow ≠ .next := by
  unfold syncSearch
  rcases hq : RenderQuery d templates with q | e | _ | _
  · rcases h with h | h
    · exact absurd hq (h q)
    · simp [h]
  · simp
  · simp
  · simp

/-- C7 fails as stated.  With a client whose create answers with the empty
identifier, the first normal-mode pass over a definition without identifier issues
the create, stores the empty identifier and saves the list as it was loaded; a
second pass over that saved list takes `search.ID == ""` again and issues a second
create, no update. -/
theorem C7_counterexample :
    (Sync
      ⟨⟨fun st _ => (.ok "", st), fun st _ _ => (.ok (), st), fun st _ => (.ok (), st)⟩,
        false, false⟩
      (fileWith { Templates := none, Searches := [{ Name := "Create", Query := "state:open" }] })
      "config.yaml" ()).events =
      [.println "Processing: Create", .create { Name := "Create", Query := "state:open" },
        .sleep,
        .save "config.yaml"
          { Templates := none, Searches := [{ Name := "Create", Query := "state:open" }] }] ∧
    remoteCalls (Sync
      ⟨⟨fun st _ => (.ok "", st), fun st _ _ => (.ok (), st), fun st _ => (.ok (), st)⟩,
        false, false⟩
      (fileWith
        { Templates := none,
          Searches := [{ ID := "", Name := "Create", Query := "state:open" }] })
      "config.yaml" ()).events =
      [.create { Name := "Create", Query := "state:open" }] := by
  decide

/-- C7, amended: in normal mode, for a definition not marked for removal whose query
resolves and whose effective name exists, the loop body of Sync issues exactly one
remote call.  Without identifier it is the create with the effective name and the
resolved query, and the identifier the create returns is stored; when that
identifier is non-empty, a second pass over the resulting definition issues one
update carrying it, no second create.  With an identifier it is the update carrying
that identifier, the effective name and the resolved query, and the definition
stays as it was. -/
theorem C7_normal_create_then_update {σ : Type} (s : Syncer σ)
    (templates : GoMap TemplateDefinition) (d : SearchDefinition) (st : σ) (q : String)
    (hrecreate : s.recreate = false) (hreset : s.reset = false) (hrm : d.Remove = false)
    (hq : RenderQuery d templates = .ok q) (hname : effectiveName d ≠ "") :
    (d.ID = "" →
      remoteCalls (syncSearch s templates d st).events =
        [.create { Name := effectiveName d, Query := q }] ∧
      ∀ id st', s.client.CreateSavedSearch st { Name := effectiveName d, Query := q } =
          (.ok id, st') →
        (syncSearch s templates d st).search = { d with ID := id } ∧
        (syncSearch s templates d st).flow = .next ∧
        (id ≠ "" → ∀ st2 : σ,
          remoteCalls (syncSearch s templates (syncSearch s templates d st).search st2).events =
            [.update id { Name := effectiveName d, Query := q }])) ∧
    (d.ID ≠ "" →
      remoteCalls (syncSearch s templates d st).events =
        [.update d.ID { Name := effectiveName d, Query := q }] ∧
      (syncSearch s templates d st).search = d) := by
  have hupd : ∀ (e : SearchDefinition) (st2 : σ), e.Remove = false → e.ID ≠ "" →
      RenderQuery e templates = .ok q → effectiveName e ≠ "" →
      remoteCalls (syncSearch s templates e st2).events =
        [.update e.ID { Name := effectiveName e, Query := q }] ∧
      (syncSearch s templates e st2).search = e := by
    intro e st2 hr hid hqe hne
    rw [syncSearch_resolved s templates e st2 q hqe hne]
    simp only [hr, hreset, hrecreate, createOrUpdate, hid]
    rcases hu : s.client.UpdateSavedSearch st2 e.ID { Name := effectiveName e, Query := q }
      with ⟨r, st'⟩
    cases r <;>
      simp [hid, hu, remoteCalls_append, remoteCalls_greeting] <;> simp [remoteCalls]
  refine ⟨fun hid => ?_, fun hid => hupd d st hrm hid hq hname⟩
  have hstep := syncSearch_resolved s templates d st q hq hname
  simp only [hrm, hreset, hrecreate, createOrUpdate, hid] at hstep
  rcases hc : s.client.CreateSavedSearch st { Name := effectiveName d, Query := q }
    with ⟨r, st'⟩
  rw [hc] at hstep
  cases r with
  | error err =>
    simp at hstep
    rw [hstep]
    refine ⟨by simp [remoteCalls_append, remoteCalls_greeting]; simp [remoteCalls], ?_⟩
    intro id st'' h
    simp at h
  | ok id0 =>
    simp at hstep
    rw [hstep]
    refine ⟨by simp [remoteCalls_append, remoteCalls_greeting]; simp [remoteCalls], ?_⟩
    intro id st'' h
    simp at h
    obtain ⟨rfl, rfl⟩ := h
    refine ⟨by simp [hrm], rfl, ?_⟩
    intro hne st2
    have hq' : RenderQuery { d with ID := id0 } templates = .ok q := by
      rw [← hq]; exact RenderQuery_congr _ _ templates rfl rfl rfl rfl
    have := hupd { d with ID := id0 } st2 hrm hne hq' hname
    simp only [hrm] at this
    exact this.1

/-- C7 at the `Create` entry of `TestSyncerCreatesAndUpdatesConfig`. -/
theorem C7_witness :
    remoteCalls (syncSearch ⟨stubClient "SSC_new" none, false, false⟩ none
      { Name := "Create", Query := "state:open" } ()).events =
      [.create { Name := "Create", Query := "state:open" }] :=
  ((C7_normal_create_then_update ⟨stubClient "SSC_new" none, false, false⟩ none
    { Name := "Create", Query := "state:open" } () "state:open" rfl rfl rfl (by decide)
    (by decide)).1 rfl).1


/-- Without an identifier a definition marked for removal, or any definition in reset
mode, is passed over: no remote call, no change. -/
theorem syncSearch_skip {σ : Type} (s : Syncer σ) (templates : GoMap TemplateDefinition)
    (d : SearchDefinition) (st : σ) (hid : d.ID = "")
    (h : d.Remove = true ∨ s.reset = true) :
    remoteCalls (syncSearch s templates d st).events = [] ∧
    (syncSearch s templates d st).search = d := by
  by_cases hs : (∀ q, RenderQuery d templates ≠ .ok q) ∨ effectiveName d = ""
  · obtain ⟨h1, h2, -, -⟩ := syncSearch_stopped s templates d st hs
    rw [h1, h2]
    exact ⟨remoteCalls_greeting d, rfl⟩
  · simp only [not_or, not_forall, not_not] at hs
    obtain ⟨⟨q, hq⟩, hname⟩ := hs
    rw [syncSearch_resolved s templates d st q hq hname]
    rcases h with h | h
    · simp [h, hid, remoteCalls_greeting]
    · by_cases hr : d.Remove = true <;> simp [hr, h, hid, remoteCalls_greeting]

/-- In reset mode the loop body issues neither a create nor an update. -/
theorem syncSearch_reset_events {σ : Type} (s : Syncer σ)
    (templates : GoMap TemplateDefinition) (d : SearchDefinition) (st : σ)
    (hreset : s.reset = true) :
    ∀ e ∈ (syncSearch s templates d st).events,
      (∃ line, e = .println line) ∨ (∃ id, e = .delete id) := by
  have hg : ∀ e ∈ greeting d, (∃ line, e = .println line) ∨ (∃ id, e = Event.delete id) := by
    intro e he
    unfold greeting at he
    split at he
    · simp at he; exact Or.inl ⟨_, he⟩
    · simp at he
  have hgd : ∀ e ∈ greeting d ++ [Event.delete d.ID],
      (∃ line, e = .println line) ∨ (∃ id, e = Event.delete id) := by
    intro e he
    rcases List.mem_append.1 he with he | he
    · exact hg e he
    · simp at he; exact Or.inr ⟨_, he⟩
  by_cases hs : (∀ q, RenderQuery d templates ≠ .ok q) ∨ effectiveName d = ""
  · obtain ⟨h1, -, -, -⟩ := syncSearch_stopped s templates d st hs
    rw [h1]
    exact hg
  · simp only [not_or, not_forall, not_not] at hs
    obtain ⟨⟨q, hq⟩, hname⟩ := hs
    rw [syncSearch_resolved s templates d st q hq hname]
    rcases hd : s.client.DeleteSavedSearch st d.ID with ⟨r, st'⟩
    by_cases hid : d.ID = ""
    · have hb : (d.ID != "") = false := by simp [hid]
      by_cases hr : d.Remove = true
      · simp only [hr, hb, if_true]; exact hg
      · simp only [hr, hreset, hb, if_true]; exact hg
    · have hb : (d.ID != "") = true := by simpa using hid
      by_cases hr : d.Remove = true <;> cases r <;>
        simp only [hr, hreset, hb, if_true] <;> exact hgd

/-- In reset mode the whole loop issues neither a create nor an update. -/
theorem syncLoop_reset_events {σ : Type} (s : Syncer σ)
    (templates : GoMap TemplateDefinition) (hreset : s.reset = true) :
    ∀ (ds : List SearchDefinition) (st : σ), ∀ e ∈ (syncLoop s templates ds st).events,
      (∃ line, e = .println line) ∨ (∃ id, e = .delete id) := by
  intro ds
  induction ds with
  | nil => intro st e he; simp [syncLoop] at he
  | cons d ds ih =>
    intro st e he
    unfold syncLoop at he
    simp only at he
    split at he
    · rcases List.mem_append.1 he with he | he
      · exact syncSearch_reset_events s templates d st hreset e he
      · exact ih _ e he
    · exact syncSearch_reset_events s templates d st hreset e he

/-- What `Sync` does beyond its loop is at most one save. -/
theorem Sync_events {σ : Type} (s : Syncer σ) (fs : Persistence) (configPath : String)
    (st : σ) :
    ∀ e ∈ (Sync s fs configPath st).events,
      (∃ cfg, fs.LoadConfig configPath = .ok cfg ∧
        e ∈ (syncLoop s cfg.Templates cfg.Searches st).events) ∨
      ∃ path cfg, e = .save path cfg := by
  intro e he
  unfold Sync at he
  split at he
  · simp at he
  · rename_i cfg hcfg
    simp only at he
    split at he
    · split at he
      · split at he <;>
        · rcases List.mem_append.1 he with h | h
          · exact Or.inl ⟨cfg, hcfg, h⟩
          · simp at h
            exact Or.inr ⟨_, _, h⟩
      · exact Or.inl ⟨cfg, hcfg, he⟩
    · exact Or.inl ⟨cfg, hcfg, he⟩

/-- C8 fails as stated.  A definition that holds `X` and refers to a template the
catalog lacks stops the pass at `RenderQuery`: nothing is deleted or created.  And
with the client of the tests answering every create with `X`, the identifier stored
after the recreate is `X` again. -/
theorem C8_counterexample :
    remoteCalls (syncSearch ⟨stubClient "SSC_new" none, true, false⟩ none
      { ID := "X", Name := "Existing", Template := "gone" } ()).events = [] ∧
    (syncSearch ⟨stubClient "SSC_new" none, true, false⟩ none
      { ID := "X", Name := "Existing", Template := "gone" } ()).flow =
        .abort (.render "Existing" (.templateNotFound "gone")) ∧
    (syncSearch ⟨stubClient "X" none, true, false⟩ none
      { ID := "X", Name := "Existing", Query := "state:open" } ()).search.ID = "X" := by
  decide

/-- C8, amended: under recreate mode (reset off), for a definition not marked for
removal that holds identifier `X`, whose query resolves and whose effective name
exists, the loop body of Sync issues delete(`X`) and, when that delete succeeds,
then exactly the create with the effective name and the resolved query, and no
update; the identifier stored afterwards is the one that create returns.  When the
delete fails, delete(`X`) is the only remote call. -/
theorem C8_recreate_delete_then_create {σ : Type} (s : Syncer σ)
    (templates : GoMap TemplateDefinition) (d : SearchDefinition) (st : σ) (q : String)
    (hrecreate : s.recreate = true) (hreset : s.reset = false) (hrm : d.Remove = false)
    (hid : d.ID ≠ "") (hq : RenderQuery d templates = .ok q) (hname : effectiveName d ≠ "") :
    (∀ err st1, s.client.DeleteSavedSearch st d.ID = (.error err, st1) →
      remoteCalls (syncSearch s templates d st).events = [.delete d.ID]) ∧
    (∀ st1, s.client.DeleteSavedSearch st d.ID = (.ok (), st1) →
      remoteCalls (syncSearch s templates d st).events =
        [.delete d.ID, .create { Name := effectiveName d, Query := q }] ∧
      ∀ id st2, s.client.CreateSavedSearch st1 { Name := effectiveName d, Query := q } =
          (.ok id, st2) →
        (syncSearch s templates d st).search = { d with ID := id } ∧
        (syncSearch s templates d st).flow = .next) := by
  have hstep := syncSearch_resolved s templates d st q hq hname
  constructor
  · intro err st1 hdel
    simp [hrm, hreset, hrecreate, hdel, hid] at hstep
    rw [hstep]
    simp [remoteCalls_append, remoteCalls_greeting]
    simp [remoteCalls]
  · intro st1 hdel
    simp [hrm, hreset, hrecreate, hdel, createOrUpdate, hid] at hstep
    rcases hc : s.client.CreateSavedSearch st1 { Name := effectiveName d, Query := q }
      with ⟨r, st'⟩
    rw [hc] at hstep
    cases r with
    | error err =>
      simp at hstep
      rw [hstep]
      refine ⟨by simp [remoteCalls_append, remoteCalls_greeting]; simp [remoteCalls], ?_⟩
      intro id st'' h
      simp at h
    | ok id0 =>
      simp at hstep
      rw [hstep]
      refine ⟨by simp [remoteCalls_append, remoteCalls_greeting]; simp [remoteCalls], ?_⟩
      intro id st'' h
      simp at h
      obtain ⟨rfl, rfl⟩ := h
      exact ⟨by simp [hrm], rfl⟩

/-- C8 at the entry of `TestSyncerForceRecreates`. -/
theorem C8_witness :
    remoteCalls (syncSearch ⟨stubClient "SSC_new" none, true, false⟩ none
      { ID := "SSC_keep", Name := "Existing", Query := "state:open" } ()).events =
      [.delete "SSC_keep", .create { Name := "Existing", Query := "state:open" }] :=
  ((C8_recreate_delete_then_create ⟨stubClient "SSC_new" none, true, false⟩ none
    { ID := "SSC_keep", Name := "Existing", Query := "state:open" } () "state:open" rfl rfl
    rfl (by decide) (by decide) (by decide)).2 () rfl).1

/-- C9 fails as stated: in reset mode a definition that holds `X` and refers to a
template the catalog lacks stops the pass at `RenderQuery`; `X` is not deleted. -/
theorem C9_counterexample :
    remoteCalls (syncSearch ⟨stubClient "" none, false, true⟩ none
      { ID := "X", Name := "Existing", Template := "gone" } ()).events = [] ∧
    (syncSearch ⟨stubClient "" none, false, true⟩ none
      { ID := "X", Name := "Existing", Template := "gone" } ()).flow =
        .abort (.render "Existing" (.templateNotFound "gone")) := by
  decide

/-- C9, amended: under reset mode (recreate set or not), for a definition that holds
identifier `X`, whose query resolves and whose effective name exists, the loop body
of Sync issues exactly delete(`X`), and after a successful delete the identifier is
empty; for a definition without identifier it issues no remote call; and no effect
of a whole call of Sync is a create or an update. -/
theorem C9_reset_deletes_only {σ : Type} (s : Syncer σ)
    (templates : GoMap TemplateDefinition) (hreset : s.reset = true) :
    (∀ (d : SearchDefinition) (st : σ) (q : String), d.ID ≠ "" →
      RenderQuery d templates = .ok q → effectiveName d ≠ "" →
      remoteCalls (syncSearch s templates d st).events = [.delete d.ID] ∧
      ∀ st1, s.client.DeleteSavedSearch st d.ID = (.ok (), st1) →
        (syncSearch s templates d st).search.ID = "" ∧
        (syncSearch s templates d st).flow = .next) ∧
    (∀ (d : SearchDefinition) (st : σ), d.ID = "" →
      remoteCalls (syncSearch s templates d st).events = []) ∧
    (∀ (fs : Persistence) (configPath : String) (st : σ),
      ∀ e ∈ (Sync s fs configPath st).events,
        (∀ input, e ≠ .create input) ∧ (∀ id input, e ≠ .update id input)) := by
  refine ⟨?_, fun d st hid => (syncSearch_skip s templates d st hid (Or.inr hreset)).1, ?_⟩
  · intro d st q hid hq hname
    have hstep := syncSearch_resolved s templates d st q hq hname
    simp only [hreset, hid] at hstep
    rcases hd : s.client.DeleteSavedSearch st d.ID with ⟨r, st'⟩
    rw [hd] at hstep
    by_cases hr : d.Remove = true <;> cases r <;> simp [hr, hid] at hstep <;> rw [hstep] <;>
      refine ⟨by simp [remoteCalls_append, remoteCalls_greeting]; simp [remoteCalls], ?_⟩ <;>
      intro st1 h <;> simp at h <;> exact ⟨rfl, rfl⟩
  · intro fs configPath st e he
    rcases Sync_events s fs configPath st e he with ⟨cfg, -, h⟩ | ⟨p, c, rfl⟩
    · rcases syncLoop_reset_events s cfg.Templates hreset cfg.Searches st e h with
        ⟨l, rfl⟩ | ⟨i, rfl⟩
      · exact ⟨fun _ h => Event.noConfusion h, fun _ _ h => Event.noConfusion h⟩
      · exact ⟨fun _ h => Event.noConfusion h, fun _ _ h => Event.noConfusion h⟩
    · exact ⟨fun _ h => Event.noConfusion h, fun _ _ h => Event.noConfusion h⟩

/-- C9 at the first entry of `TestSyncerResetDeletesOnly`. -/
theorem C9_witness :
    remoteCalls (syncSearch ⟨stubClient "" none, false, true⟩ none
      { ID := "SSC_keep", Name := "Existing", Query := "state:open" } ()).events =
      [.delete "SSC_keep"] :=
  ((C9_reset_deletes_only ⟨stubClient "" none, false, true⟩ none rfl).1
    { ID := "SSC_keep", Name := "Existing", Query := "state:open" } () "state:open"
    (by decide) (by decide) (by decide)).1

/-- C10 fails as stated: a definition marked for removal that holds `Y` and refers
to a template the catalog lacks stops the pass at `RenderQuery`; `Y` is not
deleted. -/
theorem C10_counterexample :
    remoteCalls (syncSearch ⟨stubClient "" none, false, false⟩ none
      { ID := "Y", Name := "Remove", Template := "gone", Remove := true } ()).events = [] ∧
    (syncSearch ⟨stubClient "" none, false, false⟩ none
      { ID := "Y", Name := "Remove", Template := "gone", Remove := true } ()).flow =
        .abort (.render "Remove" (.templateNotFound "gone")) := by
  decide

/-- C10, amended: in every mode, for a definition marked for removal that holds
identifier `Y`, whose query resolves and whose effective name exists, the loop body
of Sync issues exactly delete(`Y`), and after a successful delete the identifier is
empty and the removal flag cleared; a definition marked for removal without
identifier produces no remote call and is left unchanged. -/
theorem C10_removal_deletes_and_clears {σ : Type} (s : Syncer σ)
    (templates : GoMap TemplateDefinition) (d : SearchDefinition) (st : σ)
    (hrm : d.Remove = true) :
    (∀ q : String, d.ID ≠ "" → RenderQuery d templates = .ok q → effectiveName d ≠ "" →
      remoteCalls (syncSearch s templates d st).events = [.delete d.ID] ∧
      ∀ st1, s.client.DeleteSavedSearch st d.ID = (.ok (), st1) →
        (syncSearch s templates d st).search = { d with ID := "", Remove := false } ∧
        (syncSearch s templates d st).flow = .next) ∧
    (d.ID = "" →
      remoteCalls (syncSearch s templates d st).events = [] ∧
      (syncSearch s templates d st).search = d) := by
  refine ⟨?_, fun hid => syncSearch_skip s templates d st hid (Or.inl hrm)⟩
  intro q hid hq hname
  have hstep := syncSearch_resolved s templates d st q hq hname
  simp only [hrm, hid] at hstep
  rcases hd : s.client.DeleteSavedSearch st d.ID with ⟨r, st'⟩
  rw [hd] at hstep
  cases r <;> simp [hid] at hstep <;> rw [hstep] <;>
    refine ⟨by simp [remoteCalls_append, remoteCalls_greeting]; simp [remoteCalls], ?_⟩ <;>
    intro st1 h <;> simp at h
  exact ⟨rfl, rfl⟩

/-- C10 at the `Remove` entry of `TestSyncerCreatesAndUpdatesConfig`. -/
theorem C10_witness :
    (syncSearch ⟨stubClient "SSC_new" none, false, false⟩ none
      { ID := "SSC_remove", Name := "Remove", Query := "state:open", Remove := true } ()).search =
      { ID := "", Name := "Remove", Query := "state:open", Remove := false } :=
  (((C10_removal_deletes_and_clears ⟨stubClient "SSC_new" none, false, false⟩ none
    { ID := "SSC_remove", Name := "Remove", Query := "state:open", Remove := true } () rfl).1
    "state:open" (by decide) (by decide) (by decide)).2 () rfl).1

/-! ### The whole pass of `Sync` -/

theorem saveCalls_append (a b : List Event) :
    saveCalls (a ++ b) = saveCalls a ++ saveCalls b := by
  simp [saveCalls]

theorem saveCalls_greeting (d : SearchDefinition) : saveCalls (greeting d) = [] := by
  unfold greeting
  split <;> simp [saveCalls]

theorem pace_append (a b : List Event) : ∀ owed : Bool,
    pace owed (a ++ b) = (pace owed a).bind fun o => pace o b := by
  induction a with
  | nil => intro owed; simp [pace]
  | cons e a ih =>
    intro owed
    cases owed <;> cases e <;> simp [pace, ih]

theorem pace_greeting (d : SearchDefinition) : pace false (greeting d) = some false := by
  unfold greeting
  split <;> simp [pace]

/-- The outcomes of the loop body, one per path through lines 54-98. -/
theorem syncSearch_cases {σ : Type} (s : Syncer σ) (templates : GoMap TemplateDefinition)
    (d : SearchDefinition) (st : σ) :
    (∃ f, f ≠ .next ∧ (∀ op n c, f ≠ .abort (.remote op n c)) ∧
      syncSearch s templates d st = ⟨d, false, greeting d, st, f⟩) ∨
    syncSearch s templates d st = ⟨d, false, greeting d, st, .next⟩ ∨
    (∃ op err st1, d.ID ≠ "" ∧
      syncSearch s templates d st =
        ⟨d, false, greeting d ++ [.delete d.ID], st1, .abort (.remote op d.Name err)⟩) ∨
    (∃ rm st1, d.ID ≠ "" ∧
      syncSearch s templates d st =
        ⟨{ d with ID := "", Remove := rm }, true, greeting d ++ [.delete d.ID], st1, .next⟩) ∨
    (∃ input err st1, d.ID ≠ "" ∧
      syncSearch s templates d st =
        ⟨{ d with ID := "" }, true, greeting d ++ [.delete d.ID, .create input], st1,
          .abort (.remote "create" d.Name err)⟩) ∨
    (∃ input id st0 st1, d.ID ≠ "" ∧ s.client.CreateSavedSearch st0 input = (.ok id, st1) ∧
      syncSearch s templates d st =
        ⟨{ d with ID := id }, true, greeting d ++ [.delete d.ID, .create input, .sleep], st1,
          .next⟩) ∨
    (∃ input err st1, d.ID = "" ∧
      syncSearch s templates d st =
        ⟨d, false, greeting d ++ [.create input], st1, .abort (.remote "create" d.Name err)⟩) ∨
    (∃ input id st1, d.ID = "" ∧ s.client.CreateSavedSearch st input = (.ok id, st1) ∧
      syncSearch s templates d st =
        ⟨{ d with ID := id }, true, greeting d ++ [.create input, .sleep], st1, .next⟩) ∨
    (∃ input err st1,
      syncSearch s templates d st =
        ⟨d, false, greeting d ++ [.update d.ID input], st1,
          .abort (.remote "update" d.Name err)⟩) ∨
    (∃ input st1,
      syncSearch s templates d st =
        ⟨d, false, greeting d ++ [.update d.ID input, .sleep], st1, .next⟩) := by
  rcases hq : RenderQuery d templates with q | e | _ | _
  case error =>
    left
    exact ⟨.abort (.render d.Name e), by simp, by simp, by simp [syncSearch, hq]⟩
  case panic =>
    left
    exact ⟨.panic, by simp, by simp, by simp [syncSearch, hq]⟩
  case unsupported =>
    left
    exact ⟨.unsupported, by simp, by simp, by simp [syncSearch, hq]⟩
  by_cases hn : effectiveName d = ""
  · left
    exact ⟨.abort .missingName, by simp, by simp, by simp [syncSearch, hq, hn]⟩
  right
  rw [syncSearch_resolved s templates d st q hq hn]
  rcases hd : s.client.DeleteSavedSearch st d.ID with ⟨rd, st1⟩
  rcases hc : s.client.CreateSavedSearch st { Name := effectiveName d, Query := q }
    with ⟨rc, st2⟩
  rcases hc1 : s.client.CreateSavedSearch st1 { Name := effectiveName d, Query := q }
    with ⟨rc1, st3⟩
  rcases hu : s.client.UpdateSavedSearch st d.ID { Name := effectiveName d, Query := q }
    with ⟨ru, st4⟩
  by_cases hid : d.ID = ""
  · by_cases hr : d.Remove = true
    · left; simp [hr, hid]
    by_cases hreset : s.reset = true
    · left; simp [hr, hreset, hid]
    right; right; right; right; right
    cases rc with
    | error err =>
      left
      exact ⟨{ Name := effectiveName d, Query := q }, err, st2, hid,
        by simp [hr, hreset, hid, createOrUpdate, hc]⟩
    | ok id =>
      right; left
      exact ⟨{ Name := effectiveName d, Query := q }, id, st2, hid, hc,
        by simp [hr, hreset, hid, createOrUpdate, hc]⟩
  right
  have hb : (d.ID != "") = true := by simpa using hid
  by_cases hr : d.Remove = true
  · cases rd with
    | error err => left; exact ⟨"delete", err, st1, hid, by simp [hr, hid, hd]⟩
    | ok u => right; left; exact ⟨false, st1, hid, by simp [hr, hid, hd]⟩
  by_cases hreset : s.reset = true
  · cases rd with
    | error err => left; exact ⟨"reset delete", err, st1, hid, by simp [hr, hreset, hid, hd]⟩
    | ok u => right; left; exact ⟨d.Remove, st1, hid, by simp [hr, hreset, hid, hd]⟩
  by_cases hrec : s.recreate = true
  · cases rd with
    | error err =>
      left; exact ⟨"force delete", err, st1, hid, by simp [hr, hreset, hrec, hid, hd]⟩
    | ok u =>
      right; right
      cases rc1 with
      | error err =>
        left
        exact ⟨{ Name := effectiveName d, Query := q }, err, st3, hid,
          by simp [hr, hreset, hrec, hid, hd, createOrUpdate, hc1]⟩
      | ok id =>
        right; left
        exact ⟨{ Name := effectiveName d, Query := q }, id, st1, st3, hid, hc1,
          by simp [hr, hreset, hrec, hid, hd, createOrUpdate, hc1]⟩
  right; right; right; right; right; right
  cases ru with
  | error err =>
    left
    exact ⟨{ Name := effectiveName d, Query := q }, err, st4,
      by simp [hr, hreset, hrec, hid, createOrUpdate, hu]⟩
  | ok u =>
    right
    exact ⟨{ Name := effectiveName d, Query := q }, st4,
      by simp [hr, hreset, hrec, hid, createOrUpdate, hu]⟩

theorem syncLoop_cons_next {σ : Type} (s : Syncer σ) (templates : GoMap TemplateDefinition)
    (d : SearchDefinition) (ds : List SearchDefinition) (st : σ)
    (h : (syncSearch s templates d st).flow = .next) :
    syncLoop s templates (d :: ds) st =
      ⟨(syncSearch s templates d st).search ::
          (syncLoop s templates ds (syncSearch s templates d st).client).searches,
        (syncSearch s templates d st).updated ||
          (syncLoop s templates ds (syncSearch s templates d st).client).updated,
        (syncSearch s templates d st).events ++
          (syncLoop s templates ds (syncSearch s templates d st).client).events,
        (syncLoop s templates ds (syncSearch s templates d st).client).client,
        (syncLoop s templates ds (syncSearch s templates d st).client).flow⟩ := by
  rw [syncLoop]
  simp only [h]

theorem syncLoop_cons_stop {σ : Type} (s : Syncer σ) (templates : GoMap TemplateDefinition)
    (d : SearchDefinition) (ds : List SearchDefinition) (st : σ)
    (h : (syncSearch s templates d st).flow ≠ .next) :
    syncLoop s templates (d :: ds) st =
      ⟨(syncSearch s templates d st).search :: ds, (syncSearch s templates d st).updated,
        (syncSearch s templates d st).events, (syncSearch s templates d st).client,
        (syncSearch s templates d st).flow⟩ := by
  rw [syncLoop]
  split
  · rename_i h1; exact absurd h1 h
  · rfl

/-- The loop over a list whose first part is processed without stop. -/
theorem syncLoop_append {σ : Type} (s : Syncer σ) (templates : GoMap TemplateDefinition)
    (b : List SearchDefinition) : ∀ (a : List SearchDefinition) (st : σ),
    (syncLoop s templates a st).flow = .next →
    syncLoop s templates (a ++ b) st =
      ⟨(syncLoop s templates a st).searches ++
          (syncLoop s templates b (syncLoop s templates a st).client).searches,
        (syncLoop s templates a st).updated ||
          (syncLoop s templates b (syncLoop s templates a st).client).updated,
        (syncLoop s templates a st).events ++
          (syncLoop s templates b (syncLoop s templates a st).client).events,
        (syncLoop s templates b (syncLoop s templates a st).client).client,
        (syncLoop s templates b (syncLoop s templates a st).client).flow⟩ := by
  intro a
  induction a with
  | nil => intro st _; simp [syncLoop]
  | cons d a ih =>
    intro st h
    by_cases hd : (syncSearch s templates d st).flow = .next
    · rw [syncLoop_cons_next s templates d a st hd] at h ⊢
      simp only at h
      rw [List.cons_append, syncLoop_cons_next s templates d (a ++ b) st hd, ih _ h]
      simp [Bool.or_assoc]
    · rw [syncLoop_cons_stop s templates d a st hd] at h
      exact absurd h hd

theorem syncSearch_frame {σ : Type} (s : Syncer σ) (templates : GoMap TemplateDefinition)
    (d : SearchDefinition) (st : σ) :
    ∃ id rm, (syncSearch s templates d st).search = { d with ID := id, Remove := rm } := by
  rcases syncSearch_cases s templates d st with
    ⟨f, hf, hf2, h⟩ | h | ⟨op, err, st1, hid, h⟩ | ⟨rm, st1, hid, h⟩ | ⟨input, err, st1, hid, h⟩ |
    ⟨input, id, st0, st1, hid, hc, h⟩ | ⟨input, err, st1, hid, h⟩ |
    ⟨input, id, st1, hid, hc, h⟩ | ⟨input, err, st1, h⟩ | ⟨input, st1, h⟩ <;>
  rw [h] <;> exact ⟨_, _, rfl⟩

theorem syncSearch_saveCalls {σ : Type} (s : Syncer σ) (templates : GoMap TemplateDefinition)
    (d : SearchDefinition) (st : σ) : saveCalls (syncSearch s templates d st).events = [] := by
  rcases syncSearch_cases s templates d st with
    ⟨f, hf, hf2, h⟩ | h | ⟨op, err, st1, hid, h⟩ | ⟨rm, st1, hid, h⟩ | ⟨input, err, st1, hid, h⟩ |
    ⟨input, id, st0, st1, hid, hc, h⟩ | ⟨input, err, st1, hid, h⟩ |
    ⟨input, id, st1, hid, hc, h⟩ | ⟨input, err, st1, h⟩ | ⟨input, st1, h⟩ <;>
  rw [h] <;> simp [saveCalls_append, saveCalls_greeting] <;> simp [saveCalls]

theorem syncSearch_unchanged {σ : Type} (s : Syncer σ) (templates : GoMap TemplateDefinition)
    (d : SearchDefinition) (st : σ) (hu : (syncSearch s templates d st).updated = false) :
    (syncSearch s templates d st).search = d := by
  rcases syncSearch_cases s templates d st with
    ⟨f, hf, hf2, h⟩ | h | ⟨op, err, st1, hid, h⟩ | ⟨rm, st1, hid, h⟩ | ⟨input, err, st1, hid, h⟩ |
    ⟨input, id, st0, st1, hid, hc, h⟩ | ⟨input, err, st1, hid, h⟩ |
    ⟨input, id, st1, hid, hc, h⟩ | ⟨input, err, st1, h⟩ | ⟨input, st1, h⟩ <;>
  rw [h] at hu ⊢ <;> simp at hu ⊢

/-- In a loop body that goes on, `updated` is set exactly when a delete or a create
was issued. -/
theorem syncSearch_updated {σ : Type} (s : Syncer σ) (templates : GoMap TemplateDefinition)
    (d : SearchDefinition) (st : σ) (hf : (syncSearch s templates d st).flow = .next) :
    (syncSearch s templates d st).updated = true ↔
      ∃ e ∈ (syncSearch s templates d st).events,
        (∃ id, e = .delete id) ∨ (∃ input, e = .create input) := by
  have hg : ∀ e ∈ greeting d,
      (∀ x, ¬e = Event.delete x) ∧ ∀ x, ¬e = Event.create x := by
    intro e he
    unfold greeting at he
    split at he
    · simp at he; subst he; simp
    · simp at he
  rcases syncSearch_cases s templates d st with
    ⟨f, hf1, hf2, h⟩ | h | ⟨op, err, st1, hid, h⟩ | ⟨rm, st1, hid, h⟩ | ⟨input, err, st1, hid, h⟩ |
    ⟨input, id, st0, st1, hid, hc, h⟩ | ⟨input, err, st1, hid, h⟩ |
    ⟨input, id, st1, hid, hc, h⟩ | ⟨input, err, st1, h⟩ | ⟨input, st1, h⟩ <;>
  rw [h] at hf ⊢ <;> simp at hf ⊢ <;>
  first
  | exact absurd hf hf1
  | exact ⟨.create input, by simp, by simp⟩
  | exact ⟨.delete d.ID, by simp, by simp⟩
  | exact hg
  | (intro e he
     rcases he with he | he | he
     · exact hg e he
     · subst he; simp
     · subst he; simp)

/-- When a create never answers with the empty identifier nor with the one the
definition holds, a loop body that goes on and sets `updated` changes the
identifier. -/
theorem syncSearch_changed {σ : Type} (s : Syncer σ) (templates : GoMap TemplateDefinition)
    (d : SearchDefinition) (st : σ)
    (hfresh : ∀ st0 input id st1, s.client.CreateSavedSearch st0 input = (.ok id, st1) →
      id ≠ "" ∧ id ≠ d.ID)
    (hf : (syncSearch s templates d st).flow = .next)
    (hu : (syncSearch s templates d st).updated = true) :
    (syncSearch s templates d st).search.ID ≠ d.ID := by
  rcases syncSearch_cases s templates d st with
    ⟨f, hf1, hf2, h⟩ | h | ⟨op, err, st1, hid, h⟩ | ⟨rm, st1, hid, h⟩ | ⟨input, err, st1, hid, h⟩ |
    ⟨input, id, st0, st1, hid, hc, h⟩ | ⟨input, err, st1, hid, h⟩ |
    ⟨input, id, st1, hid, hc, h⟩ | ⟨input, err, st1, h⟩ | ⟨input, st1, h⟩ <;>
  rw [h] at hf hu ⊢ <;> simp at hf hu ⊢
  · exact fun h => hid h.symm
  · exact (hfresh _ _ _ _ hc).2
  · exact (hfresh _ _ _ _ hc).2
  
/-- The delay follows every create and update of a loop body that goes on, and
nothing else; a loop body that stops may end on the call that failed. -/
theorem syncSearch_pace {σ : Type} (s : Syncer σ) (templates : GoMap TemplateDefinition)
    (d : SearchDefinition) (st : σ) :
    ∃ b, pace false (syncSearch s templates d st).events = some b ∧
      ((syncSearch s templates d st).flow = .next → b = false) ∧
      (b = true → ∃ op n c, (syncSearch s templates d st).flow = .abort (.remote op n c)) := by
  rcases syncSearch_cases s templates d st with
    ⟨f, hf1, hf2, h⟩ | h | ⟨op, err, st1, hid, h⟩ | ⟨rm, st1, hid, h⟩ | ⟨input, err, st1, hid, h⟩ |
    ⟨input, id, st0, st1, hid, hc, h⟩ | ⟨input, err, st1, hid, h⟩ |
    ⟨input, id, st1, hid, hc, h⟩ | ⟨input, err, st1, h⟩ | ⟨input, st1, h⟩ <;>
  rw [h] <;> simp [pace_append, pace_greeting, pace]

theorem syncLoop_saveCalls {σ : Type} (s : Syncer σ) (templates : GoMap TemplateDefinition) :
    ∀ (ds : List SearchDefinition) (st : σ), saveCalls (syncLoop s templates ds st).events = [] := by
  intro ds
  induction ds with
  | nil => intro st; simp [syncLoop, saveCalls]
  | cons d ds ih =>
    intro st
    by_cases hd : (syncSearch s templates d st).flow = .next
    · rw [syncLoop_cons_next s templates d ds st hd]
      simp [saveCalls_append, syncSearch_saveCalls, ih]
    · rw [syncLoop_cons_stop s templates d ds st hd]
      simp [syncSearch_saveCalls]

/-- The loop keeps the list's length and order and touches identifiers and removal
flags only. -/
theorem syncLoop_frame {σ : Type} (s : Syncer σ) (templates : GoMap TemplateDefinition) :
    ∀ (ds : List SearchDefinition) (st : σ),
      (syncLoop s templates ds st).searches.length = ds.length ∧
      ∀ (i : Nat) (d : SearchDefinition), ds[i]? = some d →
        ∃ id rm, (syncLoop s templates ds st).searches[i]? =
          some { d with ID := id, Remove := rm } := by
  intro ds
  induction ds with
  | nil => intro st; simp [syncLoop]
  | cons d ds ih =>
    intro st
    obtain ⟨id0, rm0, h0⟩ := syncSearch_frame s templates d st
    by_cases hd : (syncSearch s templates d st).flow = .next
    · rw [syncLoop_cons_next s templates d ds st hd]
      refine ⟨by simp [(ih _).1], ?_⟩
      intro i e he
      cases i with
      | zero =>
        simp at he
        subst he
        exact ⟨id0, rm0, by simp [h0]⟩
      | succ i =>
        simp at he
        obtain ⟨id, rm, h⟩ := (ih (syncSearch s templates d st).client).2 i e he
        exact ⟨id, rm, by simpa using h⟩
    · rw [syncLoop_cons_stop s templates d ds st hd]
      refine ⟨by simp, ?_⟩
      intro i e he
      cases i with
      | zero =>
        simp at he
        subst he
        exact ⟨id0, rm0, by simp [h0]⟩
      | succ i =>
        simp at he
        exact ⟨e.ID, e.Remove, by simpa using he⟩

theorem syncLoop_unchanged {σ : Type} (s : Syncer σ) (templates : GoMap TemplateDefinition) :
    ∀ (ds : List SearchDefinition) (st : σ), (syncLoop s templates ds st).updated = false →
      (syncLoop s templates ds st).searches = ds := by
  intro ds
  induction ds with
  | nil => intro st _; simp [syncLoop]
  | cons d ds ih =>
    intro st hu
    by_cases hd : (syncSearch s templates d st).flow = .next
    · rw [syncLoop_cons_next s templates d ds st hd] at hu ⊢
      simp at hu
      simp [syncSearch_unchanged s templates d st hu.1, ih _ hu.2]
    · rw [syncLoop_cons_stop s templates d ds st hd] at hu ⊢
      simp at hu
      simp [syncSearch_unchanged s templates d st hu]

theorem syncLoop_updated {σ : Type} (s : Syncer σ) (templates : GoMap TemplateDefinition) :
    ∀ (ds : List SearchDefinition) (st : σ), (syncLoop s templates ds st).flow = .next →
      ((syncLoop s templates ds st).updated = true ↔
        ∃ e ∈ (syncLoop s templates ds st).events,
          (∃ id, e = .delete id) ∨ (∃ input, e = .create input)) := by
  intro ds
  induction ds with
  | nil => intro st _; simp [syncLoop]
  | cons d ds ih =>
    intro st hf
    by_cases hd : (syncSearch s templates d st).flow = .next
    · rw [syncLoop_cons_next s templates d ds st hd] at hf ⊢
      simp only at hf
      simp only [Bool.or_eq_true, List.mem_append, syncSearch_updated s templates d st hd,
        ih _ hf]
      constructor
      · rintro (⟨e, he, h⟩ | ⟨e, he, h⟩)
        · exact ⟨e, Or.inl he, h⟩
        · exact ⟨e, Or.inr he, h⟩
      · rintro ⟨e, he | he, h⟩
        · exact Or.inl ⟨e, he, h⟩
        · exact Or.inr ⟨e, he, h⟩
    · rw [syncLoop_cons_stop s templates d ds st hd] at hf
      exact absurd hf hd

/-- When a create never answers with the empty identifier nor with one a listed
definition holds, a loop that ends without stop and sets `updated` changes an
identifier. -/
theorem syncLoop_changed {σ : Type} (s : Syncer σ) (templates : GoMap TemplateDefinition) :
    ∀ (ds : List SearchDefinition) (st : σ),
      (∀ st0 input id st1, s.client.CreateSavedSearch st0 input = (.ok id, st1) →
        id ≠ "" ∧ ∀ d ∈ ds, d.ID ≠ id) →
      (syncLoop s templates ds st).flow = .next →
      (syncLoop s templates ds st).updated = true →
      ∃ (i : Nat) (a b : SearchDefinition),
        ds[i]? = some a ∧ (syncLoop s templates ds st).searches[i]? = some b ∧
        a.ID ≠ b.ID := by
  intro ds
  induction ds with
  | nil => intro st _ _ hu; simp [syncLoop] at hu
  | cons d ds ih =>
    intro st hfresh hf hu
    by_cases hd : (syncSearch s templates d st).flow = .next
    · rw [syncLoop_cons_next s templates d ds st hd] at hf hu ⊢
      simp only at hf
      simp only [Bool.or_eq_true] at hu
      by_cases h1 : (syncSearch s templates d st).updated = true
      · refine ⟨0, d, (syncSearch s templates d st).search, by simp, by simp, ?_⟩
        have := syncSearch_changed s templates d st
          (fun st0 input id st1 hc =>
            ⟨(hfresh st0 input id st1 hc).1,
              fun h => (hfresh st0 input id st1 hc).2 d (by simp) h.symm⟩) hd h1
        exact fun h => this h.symm
      · have h2 := hu.resolve_left h1
        obtain ⟨i, a, b, ha, hb, hab⟩ := ih (syncSearch s templates d st).client
          (fun st0 input id st1 hc =>
            ⟨(hfresh st0 input id st1 hc).1,
              fun e he => (hfresh st0 input id st1 hc).2 e (by simp [he])⟩) hf h2
        exact ⟨i + 1, a, b, by simpa using ha, by simpa using hb, hab⟩
    · rw [syncLoop_cons_stop s templates d ds st hd] at hf
      exact absurd hf hd

theorem syncLoop_pace {σ : Type} (s : Syncer σ) (templates : GoMap TemplateDefinition) :
    ∀ (ds : List SearchDefinition) (st : σ),
      ∃ b, pace false (syncLoop s templates ds st).events = some b ∧
        ((syncLoop s templates ds st).flow = .next → b = false) ∧
        (b = true → ∃ op n c, (syncLoop s templates ds st).flow = .abort (.remote op n c)) := by
  intro ds
  induction ds with
  | nil => intro st; exact ⟨false, by simp [syncLoop, pace]⟩
  | cons d ds ih =>
    intro st
    obtain ⟨b0, hb0, hn0, ha0⟩ := syncSearch_pace s templates d st
    by_cases hd : (syncSearch s templates d st).flow = .next
    · rw [syncLoop_cons_next s templates d ds st hd]
      obtain ⟨b, hb, hn, ha⟩ := ih (syncSearch s templates d st).client
      have := hn0 hd
      subst this
      exact ⟨b, by simp [pace_append, hb0, hb], hn, ha⟩
    · rw [syncLoop_cons_stop s templates d ds st hd]
      exact ⟨b0, hb0, hn0, ha0⟩

theorem mem_saveCalls (e : Event) (events : List Event) (path : String) (cfg : Config)
    (he : e ∈ events) (h : e = .save path cfg) : e ∈ saveCalls events := by
  subst h
  simp [saveCalls, he]

/-- `Sync` after a successful load: the effects of the loop, followed by one save
of the mutated list when the loop ended without stop and set `updated`. -/
theorem Sync_loaded {σ : Type} (s : Syncer σ) (fs : Persistence) (configPath : String)
    (st : σ) (cfg : Config) (hload : fs.LoadConfig configPath = .ok cfg) :
    (Sync s fs configPath st).events =
      (syncLoop s cfg.Templates cfg.Searches st).events ++
        (if (syncLoop s cfg.Templates cfg.Searches st).flow = .next ∧
            (syncLoop s cfg.Templates cfg.Searches st).updated = true then
          [.save configPath
            { cfg with Searches := (syncLoop s cfg.Templates cfg.Searches st).searches }]
        else []) ∧
    (Sync s fs configPath st).client = (syncLoop s cfg.Templates cfg.Searches st).client ∧
    ((syncLoop s cfg.Templates cfg.Searches st).flow ≠ .next →
      (Sync s fs configPath st).flow = (syncLoop s cfg.Templates cfg.Searches st).flow) := by
  unfold Sync
  simp only [hload]
  rcases hf : (syncLoop s cfg.Templates cfg.Searches st).flow with _ | e | _ | _
  · by_cases hu : (syncLoop s cfg.Templates cfg.Searches st).updated = true
    · simp only [hu, if_true]
      split <;> simp
    · simp [hu]
  · simp
  · simp
  · simp

/-- A loop body that stops ends `Sync`: its flow is the result, nothing happens
after its effects, and nothing is saved. -/
theorem Sync_stops_at {σ : Type} (s : Syncer σ) (fs : Persistence) (configPath : String)
    (st : σ) (cfg : Config) (before after : List SearchDefinition) (d : SearchDefinition)
    (hload : fs.LoadConfig configPath = .ok cfg)
    (hlist : cfg.Searches = before ++ d :: after)
    (hbefore : (syncLoop s cfg.Templates before st).flow = .next)
    (hstop : (syncSearch s cfg.Templates d (syncLoop s cfg.Templates before st).client).flow ≠
      .next) :
    (Sync s fs configPath st).flow =
      (syncSearch s cfg.Templates d (syncLoop s cfg.Templates before st).client).flow ∧
    (Sync s fs configPath st).events =
      (syncLoop s cfg.Templates before st).events ++
        (syncSearch s cfg.Templates d (syncLoop s cfg.Templates before st).client).events ∧
    saveCalls (Sync s fs configPath st).events = [] := by
  have hl := syncLoop_append s cfg.Templates (d :: after) before st hbefore
  rw [← hlist] at hl
  rw [syncLoop_cons_stop s cfg.Templates d after _ hstop] at hl
  obtain ⟨hev, -, hfl⟩ := Sync_loaded s fs configPath st cfg hload
  rw [hl] at hev hfl
  simp only at hev hfl
  have hc : ¬ ((syncSearch s cfg.Templates d (syncLoop s cfg.Templates before st).client).flow =
      .next ∧ ((syncLoop s cfg.Templates before st).updated ||
        (syncSearch s cfg.Templates d (syncLoop s cfg.Templates before st).client).updated) =
          true) := fun h => hstop h.1
  rw [if_neg hc, List.append_nil] at hev
  refine ⟨hfl hstop, hev, ?_⟩
  rw [hev, saveCalls_append, syncLoop_saveCalls, syncSearch_saveCalls]
  rfl

theorem pace_owed_cons (x : Event) (l : List Event) (b : Bool)
    (h : pace true (x :: l) = some b) : x = .sleep ∧ pace false l = some b := by
  cases x <;> simp [pace] at h
  exact ⟨rfl, h⟩

/-- What `pace` checks, said with positions: a create or an update is followed at
once by the delay or ends the list, and a delay follows a create or an update at
once. -/
theorem pace_sound : ∀ (l : List Event) (owed b : Bool), pace owed l = some b →
    (∀ pre e post, l = pre ++ e :: post →
      ((∃ i, e = Event.create i) ∨ (∃ id i, e = Event.update id i)) →
      (∃ post', post = Event.sleep :: post') ∨ (post = [] ∧ b = true)) ∧
    (∀ pre post, l = pre ++ Event.sleep :: post →
      (pre = [] ∧ owed = true) ∨
      ∃ pre' e, pre = pre' ++ [e] ∧
        ((∃ i, e = Event.create i) ∨ (∃ id i, e = Event.update id i))) := by
  intro l
  induction l with
  | nil =>
    intro owed b _
    exact ⟨fun pre e post h => by simp at h, fun pre post h => by simp at h⟩
  | cons x l ih =>
    intro owed b h
    -- what the head is, and what is owed after it
    have hx : ∃ owed', pace owed' l = some b ∧
        (owed = true → x = .sleep) ∧ (owed = false → x ≠ .sleep) ∧
        (owed' = true ↔ ((∃ i, x = Event.create i) ∨ (∃ id i, x = Event.update id i))) := by
      cases owed
      · cases x <;> simp [pace] at h
        · exact ⟨false, h, by simp, by simp, by simp⟩
        · exact ⟨true, h, by simp, by simp, by simp⟩
        · exact ⟨true, h, by simp, by simp, by simp⟩
        · exact ⟨false, h, by simp, by simp, by simp⟩
        · exact ⟨false, h, by simp, by simp, by simp⟩
      · obtain ⟨rfl, h⟩ := pace_owed_cons x l b h
        exact ⟨false, h, by simp, by simp, by simp⟩
    obtain ⟨owed', hp, ht, hf, hcu⟩ := hx
    obtain ⟨ih1, ih2⟩ := ih owed' b hp
    constructor
    · intro pre e post hl he
      cases pre with
      | nil =>
        simp at hl
        obtain ⟨rfl, rfl⟩ := hl
        have ho : owed' = true := hcu.2 he
        subst ho
        cases l with
        | nil => right; simp [pace] at hp; exact ⟨rfl, hp⟩
        | cons y l' =>
          left
          obtain ⟨rfl, -⟩ := pace_owed_cons y l' b hp
          exact ⟨l', rfl⟩
      | cons y pre' =>
        simp at hl
        exact ih1 pre' e post hl.2 he
    · intro pre post hl
      cases pre with
      | nil =>
        simp at hl
        left
        refine ⟨rfl, ?_⟩
        cases owed
        · exact absurd hl.1 (hf rfl)
        · rfl
      | cons y pre' =>
        simp at hl
        obtain ⟨rfl, hl⟩ := hl
        right
        rcases ih2 pre' post hl with ⟨rfl, ho⟩ | ⟨pre'', e, rfl, he⟩
        · exact ⟨[], x, rfl, hcu.1 ho⟩
        · exact ⟨x :: pre'', e, rfl, he⟩

theorem Sync_pace {σ : Type} (s : Syncer σ) (fs : Persistence) (configPath : String) (st : σ) :
    ∃ b, pace false (Sync s fs configPath st).events = some b ∧
      (b = true → ∃ op n c, (Sync s fs configPath st).flow = .abort (.remote op n c)) := by
  rcases hload : fs.LoadConfig configPath with err | cfg
  · exact ⟨false, by simp [Sync, hload, pace], by simp⟩
  · obtain ⟨hev, -, hfl⟩ := Sync_loaded s fs configPath st cfg hload
    obtain ⟨b, hb, hn, ha⟩ := syncLoop_pace s cfg.Templates cfg.Searches st
    rw [hev, pace_append, hb]
    by_cases hf : (syncLoop s cfg.Templates cfg.Searches st).flow = .next
    · have := hn hf
      subst this
      refine ⟨false, ?_, by simp⟩
      split <;> simp [pace]
    · have hc : ¬ ((syncLoop s cfg.Templates cfg.Searches st).flow = .next ∧
          (syncLoop s cfg.Templates cfg.Searches st).updated = true) := fun h => hf h.1
      rw [if_neg hc]
      refine ⟨b, by simp [pace], ?_⟩
      intro hb1
      rw [hfl hf]
      exact ha hb1

/-- C11: whatever the loaded list, the mode and the client, a configuration that Sync
hands to SaveConfig goes to the path it was loaded from and has the loaded template
catalog; its definition list has the length of the loaded list and holds, at every
index, the loaded entry with at most the identifier and the removal flag replaced:
name, query, section, template reference and variables are unchanged. -/
theorem C11_saved_list_frame {σ : Type} (s : Syncer σ) (fs : Persistence) (configPath : String)
    (st : σ) (path : String) (out : Config)
    (h : Event.save path out ∈ (Sync s fs configPath st).events) :
    ∃ cfg, fs.LoadConfig configPath = .ok cfg ∧ path = configPath ∧
      out.Templates = cfg.Templates ∧
      out.Searches.length = cfg.Searches.length ∧
      ∀ (i : Nat) (d : SearchDefinition), cfg.Searches[i]? = some d →
        ∃ id rm, out.Searches[i]? = some { d with ID := id, Remove := rm } := by
  rcases hload : fs.LoadConfig configPath with err | cfg
  · simp [Sync, hload] at h
  · refine ⟨cfg, rfl, ?_⟩
    rw [(Sync_loaded s fs configPath st cfg hload).1] at h
    rcases List.mem_append.1 h with h | h
    · have := mem_saveCalls _ _ path out h rfl
      rw [syncLoop_saveCalls] at this
      simp at this
    · split at h
      · simp at h
        obtain ⟨rfl, rfl⟩ := h
        exact ⟨rfl, rfl, syncLoop_frame s cfg.Templates cfg.Searches st⟩
      · simp at h

/-- C11 at a list of two: `Create` receives the identifier `SSC_new`, `Remove` loses
`SSC_remove` and its flag. -/
theorem C11_witness :
    ∃ cfg, (fileWith
        { Templates := none,
          Searches := [
            { Name := "Create", Query := "state:open" },
            { Name := "Remove", ID := "SSC_remove", Query := "state:open", Remove := true }] }
        ).LoadConfig "config.yaml" = .ok cfg ∧
      "config.yaml" = "config.yaml" ∧
      (⟨[{ Name := "Create", Query := "state:open", ID := "SSC_new" },
          { Name := "Remove", Query := "state:open" }], none⟩ : Config).Templates =
        cfg.Templates ∧
      (⟨[{ Name := "Create", Query := "state:open", ID := "SSC_new" },
          { Name := "Remove", Query := "state:open" }], none⟩ : Config).Searches.length =
        cfg.Searches.length ∧
      ∀ (i : Nat) (d : SearchDefinition), cfg.Searches[i]? = some d →
        ∃ id rm,
          (⟨[{ Name := "Create", Query := "state:open", ID := "SSC_new" },
              { Name := "Remove", Query := "state:open" }], none⟩ : Config).Searches[i]? =
            some { d with ID := id, Remove := rm } :=
  C11_saved_list_frame ⟨stubClient "SSC_new" none, false, false⟩
    (fileWith
      { Templates := none,
        Searches := [
          { Name := "Create", Query := "state:open" },
          { Name := "Remove", ID := "SSC_remove", Query := "state:open", Remove := true }] })
    "config.yaml" () "config.yaml"
    ⟨[{ Name := "Create", Query := "state:open", ID := "SSC_new" },
      { Name := "Remove", Query := "state:open" }], none⟩
    (by decide)

/-- C12 fails as stated.  In recreate mode, with the client of the tests answering
every create with `X`, a definition that holds `X` is deleted and created again:
`updated` is set and SaveConfig is called, with a list in which no identifier and
no removal flag differs from the loaded one. -/
theorem C12_counterexample :
    (Sync ⟨stubClient "X" none, true, false⟩
      (fileWith
        { Templates := none,
          Searches := [{ ID := "X", Name := "Existing", Query := "state:open" }] })
      "config.yaml" ()).events =
      [.println "Processing: Existing", .delete "X",
        .create { Name := "Existing", Query := "state:open" }, .sleep,
        .save "config.yaml"
          { Templates := none,
            Searches := [{ ID := "X", Name := "Existing", Query := "state:open" }] }] ∧
    (Sync ⟨stubClient "X" none, true, false⟩
      (fileWith
        { Templates := none,
          Searches := [{ ID := "X", Name := "Existing", Query := "state:open" }] })
      "config.yaml" ()).flow = .next := by
  decide

/-- C12, amended: in a pass that processes all definitions without error, SaveConfig
is called at most once, as the last effect and with the full mutated list; it is
called if and only if the pass issued a delete or a create, and so whenever some
definition's identifier or removal flag differs from its value in the loaded list;
when every identifier a create returns is non-empty and held by no loaded
definition, it is called if and only if some identifier or removal flag differs.  A
pass that issues no delete and no create makes zero calls to SaveConfig. -/
theorem C12_save_iff_changed {σ : Type} (s : Syncer σ) (fs : Persistence) (configPath : String)
    (st : σ) (cfg : Config) (hload : fs.LoadConfig configPath = .ok cfg)
    (hflow : (syncLoop s cfg.Templates cfg.Searches st).flow = .next) :
    let L := syncLoop s cfg.Templates cfg.Searches st
    let R := Sync s fs configPath st
    let saved : Event := .save configPath { cfg with Searches := L.searches }
    (saveCalls R.events = [] ∧ R.events = L.events ∨
      saveCalls R.events = [saved] ∧ R.events = L.events ++ [saved]) ∧
    (saveCalls R.events = [saved] ↔
      ∃ e ∈ R.events, (∃ id, e = .delete id) ∨ (∃ input, e = .create input)) ∧
    ((∃ (i : Nat) (a b : SearchDefinition),
        cfg.Searches[i]? = some a ∧ L.searches[i]? = some b ∧
        (a.ID ≠ b.ID ∨ a.Remove ≠ b.Remove)) → saveCalls R.events = [saved]) ∧
    ((∀ st0 input id st1, s.client.CreateSavedSearch st0 input = (.ok id, st1) →
        id ≠ "" ∧ ∀ d ∈ cfg.Searches, d.ID ≠ id) →
      (saveCalls R.events = [saved] ↔
        ∃ (i : Nat) (a b : SearchDefinition),
          cfg.Searches[i]? = some a ∧ L.searches[i]? = some b ∧
          (a.ID ≠ b.ID ∨ a.Remove ≠ b.Remove))) := by
  intro L R saved
  have hev := (Sync_loaded s fs configPath st cfg hload).1
  have hns : saveCalls L.events = [] := syncLoop_saveCalls s cfg.Templates cfg.Searches st
  have hsaved : saveCalls [saved] = [saved] := by simp [saveCalls, saved]
  -- the save is there exactly when `updated` is set
  have hiff : saveCalls R.events = [saved] ↔ L.updated = true := by
    show saveCalls (Sync s fs configPath st).events = [saved] ↔ _
    rw [hev]
    by_cases hu : L.updated = true
    · have hc : (syncLoop s cfg.Templates cfg.Searches st).flow = .next ∧
          (syncLoop s cfg.Templates cfg.Searches st).updated = true := ⟨hflow, hu⟩
      rw [if_pos hc, saveCalls_append, hns]
      simp [hu, hsaved]
    · have hc : ¬ ((syncLoop s cfg.Templates cfg.Searches st).flow = .next ∧
          (syncLoop s cfg.Templates cfg.Searches st).updated = true) := fun h => hu h.2
      rw [if_neg hc]
      simp [hu, hns]
  have hdiff : (∃ (i : Nat) (a b : SearchDefinition),
        cfg.Searches[i]? = some a ∧ L.searches[i]? = some b ∧
        (a.ID ≠ b.ID ∨ a.Remove ≠ b.Remove)) → L.updated = true := by
    rintro ⟨i, a, b, ha, hb, hab⟩
    by_contra hu
    have hu : L.updated = false := by simpa using hu
    have := syncLoop_unchanged s cfg.Templates cfg.Searches st hu
    rw [show L.searches = cfg.Searches from this, ha] at hb
    cases hb
    rcases hab with h | h <;> exact h rfl
  refine ⟨?_, ?_, fun h => hiff.2 (hdiff h), fun hfresh => ⟨fun h => ?_, fun h => hiff.2 (hdiff h)⟩⟩
  · show (saveCalls (Sync s fs configPath st).events = [] ∧ (Sync s fs configPath st).events = _) ∨
      (saveCalls (Sync s fs configPath st).events = _ ∧ (Sync s fs configPath st).events = _)
    rw [hev]
    by_cases hu : L.updated = true
    · right
      have hc : (syncLoop s cfg.Templates cfg.Searches st).flow = .next ∧
          (syncLoop s cfg.Templates cfg.Searches st).updated = true := ⟨hflow, hu⟩
      rw [if_pos hc, saveCalls_append, hns]
      exact ⟨by simpa using hsaved, rfl⟩
    · left
      have hc : ¬ ((syncLoop s cfg.Templates cfg.Searches st).flow = .next ∧
          (syncLoop s cfg.Templates cfg.Searches st).updated = true) := fun h => hu h.2
      rw [if_neg hc]
      simp [hns]
  · rw [hiff, syncLoop_updated s cfg.Templates cfg.Searches st hflow]
    show _ ↔ ∃ e ∈ (Sync s fs configPath st).events, _
    rw [hev]
    constructor
    · rintro ⟨e, he, h⟩
      exact ⟨e, List.mem_append_left _ he, h⟩
    · rintro ⟨e, he, h⟩
      rcases List.mem_append.1 he with he | he
      · exact ⟨e, he, h⟩
      · split at he
        · simp at he
          subst he
          rcases h with ⟨_, h⟩ | ⟨_, h⟩ <;> exact Event.noConfusion h
        · simp at he
  · obtain ⟨i, a, b, ha, hb, hab⟩ :=
      syncLoop_changed s cfg.Templates cfg.Searches st hfresh hflow (hiff.1 h)
    exact ⟨i, a, b, ha, hb, Or.inl hab⟩

/-- C12 at the `Create` entry of `TestSyncerCreatesAndUpdatesConfig`: the identifier
differs after the pass, so the list is saved. -/
theorem C12_witness :
    saveCalls (Sync ⟨stubClient "SSC_new" none, false, false⟩
      (fileWith { Templates := none, Searches := [{ Name := "Create", Query := "state:open" }] })
      "config.yaml" ()).events =
      [.save "config.yaml"
        { Templates := none,
          Searches := [{ ID := "SSC_new", Name := "Create", Query := "state:open" }] }] :=
  (C12_save_iff_changed ⟨stubClient "SSC_new" none, false, false⟩
    (fileWith { Templates := none, Searches := [{ Name := "Create", Query := "state:open" }] })
    "config.yaml" ()
    { Templates := none, Searches := [{ Name := "Create", Query := "state:open" }] }
    rfl (by decide)).2.2.1
    ⟨0, { Name := "Create", Query := "state:open" },
      { ID := "SSC_new", Name := "Create", Query := "state:open" }, by decide, by decide,
      Or.inl (by decide)⟩

/-- C13: Sync is fail-fast and never persists a failed run.  Let the definitions
before index i be processed without stop.  When RenderQuery returns an error for
definition i, or its effective name is missing, Sync returns that error and the
effects of the pass end with the progress line of definition i: no remote call for
it.  When a delete, create or update for definition i returns an error, Sync
returns it and the failed call is the last effect.  In every case no effect follows
for a later definition and SaveConfig is not called, whatever the earlier
definitions changed; the same holds for any other way the loop body stops. -/
theorem C13_fail_fast {σ : Type} (s : Syncer σ) (fs : Persistence) (configPath : String)
    (st : σ) (cfg : Config) (before after : List SearchDefinition) (d : SearchDefinition)
    (hload : fs.LoadConfig configPath = .ok cfg)
    (hlist : cfg.Searches = before ++ d :: after)
    (hbefore : (syncLoop s cfg.Templates before st).flow = .next) :
    let L := syncLoop s cfg.Templates before st
    let R := Sync s fs configPath st
    (∀ e, RenderQuery d cfg.Templates = .error e →
      R.flow = .abort (.render d.Name e) ∧ R.events = L.events ++ greeting d ∧
      saveCalls R.events = []) ∧
    (∀ q, RenderQuery d cfg.Templates = .ok q → effectiveName d = "" →
      R.flow = .abort .missingName ∧ R.events = L.events ++ greeting d ∧
      saveCalls R.events = []) ∧
    (∀ q, RenderQuery d cfg.Templates = .ok q → effectiveName d ≠ "" →
      (∀ err st1, d.ID ≠ "" → (d.Remove = true ∨ s.reset = true ∨ s.recreate = true) →
        s.client.DeleteSavedSearch L.client d.ID = (.error err, st1) →
        (∃ op, R.flow = .abort (.remote op d.Name err)) ∧
        R.events = L.events ++ greeting d ++ [.delete d.ID] ∧ saveCalls R.events = []) ∧
      (∀ err st1 st2, d.ID ≠ "" → d.Remove = false → s.reset = false → s.recreate = true →
        s.client.DeleteSavedSearch L.client d.ID = (.ok (), st1) →
        s.client.CreateSavedSearch st1 { Name := effectiveName d, Query := q } =
          (.error err, st2) →
        R.flow = .abort (.remote "create" d.Name err) ∧
        R.events = L.events ++ greeting d ++
          [.delete d.ID, .create { Name := effectiveName d, Query := q }] ∧
        saveCalls R.events = []) ∧
      (∀ err st1, d.ID = "" → d.Remove = false → s.reset = false →
        s.client.CreateSavedSearch L.client { Name := effectiveName d, Query := q } =
          (.error err, st1) →
        R.flow = .abort (.remote "create" d.Name err) ∧
        R.events = L.events ++ greeting d ++
          [.create { Name := effectiveName d, Query := q }] ∧
        saveCalls R.events = []) ∧
      (∀ err st1, d.ID ≠ "" → d.Remove = false → s.reset = false → s.recreate = false →
        s.client.UpdateSavedSearch L.client d.ID { Name := effectiveName d, Query := q } =
          (.error err, st1) →
        R.flow = .abort (.remote "update" d.Name err) ∧
        R.events = L.events ++ greeting d ++
          [.update d.ID { Name := effectiveName d, Query := q }] ∧
        saveCalls R.events = [])) ∧
    ((syncSearch s cfg.Templates d L.client).flow ≠ .next →
      R.flow = (syncSearch s cfg.Templates d L.client).flow ∧
      R.events = L.events ++ (syncSearch s cfg.Templates d L.client).events ∧
      saveCalls R.events = []) := by
  intro L R
  have key : ∀ r : Step σ, syncSearch s cfg.Templates d L.client = r → r.flow ≠ .next →
      R.flow = r.flow ∧ R.events = L.events ++ r.events ∧ saveCalls R.events = [] := by
    intro r hr hf
    subst hr
    exact Sync_stops_at s fs configPath st cfg before after d hload hlist hbefore hf
  refine ⟨?_, ?_, ?_, fun h => key _ rfl h⟩
  · intro e he
    exact key ⟨d, false, greeting d, L.client, .abort (.render d.Name e)⟩
      (by simp [syncSearch, he]) (by simp)
  · intro q hq hn
    exact key ⟨d, false, greeting d, L.client, .abort .missingName⟩
      (by simp [syncSearch, hq, hn]) (by simp)
  · intro q hq hn
    have hstep := syncSearch_resolved s cfg.Templates d L.client q hq hn
    refine ⟨?_, ?_, ?_, ?_⟩
    · intro err st1 hid hmode hdel
      simp only [hdel, hid] at hstep
      by_cases hr : d.Remove = true
      · simp [hr, hid] at hstep
        have := key _ hstep (by simp)
        exact ⟨⟨_, this.1⟩, by simpa using this.2.1, this.2.2⟩
      by_cases hreset : s.reset = true
      · simp [hr, hreset, hid] at hstep
        have := key _ hstep (by simp)
        exact ⟨⟨_, this.1⟩, by simpa using this.2.1, this.2.2⟩
      have hrec : s.recreate = true := by
        rcases hmode with h | h | h
        · exact absurd h hr
        · exact absurd h hreset
        · exact h
      simp [hr, hreset, hrec, hid] at hstep
      have := key _ hstep (by simp)
      exact ⟨⟨_, this.1⟩, by simpa using this.2.1, this.2.2⟩
    · intro err st1 st2 hid hr hreset hrec hdel hc
      simp [hr, hreset, hrec, hid, hdel, createOrUpdate, hc] at hstep
      have := key _ hstep (by simp)
      exact ⟨this.1, by simpa using this.2.1, this.2.2⟩
    · intro err st1 hid hr hreset hc
      simp [hr, hreset, hid, createOrUpdate, hc] at hstep
      have := key _ hstep (by simp)
      exact ⟨this.1, by simpa using this.2.1, this.2.2⟩
    · intro err st1 hid hr hreset hrec hu
      simp [hr, hreset, hrec, hid, createOrUpdate, hu] at hstep
      have := key _ hstep (by simp)
      exact ⟨this.1, by simpa using this.2.1, this.2.2⟩

/-- C13 at a list of three: `Create` receives an identifier, `Broken` refers to a
template the catalog lacks, `Later` is never reached and nothing is saved. -/
theorem C13_witness :
    (Sync ⟨stubClient "SSC_new" none, false, false⟩
      (fileWith
        { Templates := none,
          Searches := [
            { Name := "Create", Query := "state:open" },
            { Name := "Broken", Template := "gone" },
            { Name := "Later", Query := "state:closed" }] })
      "config.yaml" ()).flow = .abort (.render "Broken" (.templateNotFound "gone")) ∧
    (Sync ⟨stubClient "SSC_new" none, false, false⟩
      (fileWith
        { Templates := none,
          Searches := [
            { Name := "Create", Query := "state:open" },
            { Name := "Broken", Template := "gone" },
            { Name := "Later", Query := "state:closed" }] })
      "config.yaml" ()).events =
      (syncLoop ⟨stubClient "SSC_new" none, false, false⟩ none
        [{ Name := "Create", Query := "state:open" }] ()).events ++
        greeting { Name := "Broken", Template := "gone" } ∧
    saveCalls (Sync ⟨stubClient "SSC_new" none, false, false⟩
      (fileWith
        { Templates := none,
          Searches := [
            { Name := "Create", Query := "state:open" },
            { Name := "Broken", Template := "gone" },
            { Name := "Later", Query := "state:closed" }] })
      "config.yaml" ()).events = [] :=
  (C13_fail_fast ⟨stubClient "SSC_new" none, false, false⟩
    (fileWith
      { Templates := none,
        Searches := [
          { Name := "Create", Query := "state:open" },
          { Name := "Broken", Template := "gone" },
          { Name := "Later", Query := "state:closed" }] })
    "config.yaml" ()
    { Templates := none,
      Searches := [
        { Name := "Create", Query := "state:open" },
        { Name := "Broken", Template := "gone" },
        { Name := "Later", Query := "state:closed" }] }
    [{ Name := "Create", Query := "state:open" }] [{ Name := "Later", Query := "state:closed" }]
    { Name := "Broken", Template := "gone" } rfl rfl (by decide)).1
    (.templateNotFound "gone") (by decide)

/-- Where `Sync` delays, in every mode: among the effects of one call, every create
and every update is followed at once by the delay, unless it is the last effect of
a pass that returns the error of that call; and every delay follows a create or an
update at once. -/
theorem Sync_delay_placement {σ : Type} (s : Syncer σ) (fs : Persistence)
    (configPath : String) (st : σ) :
    (∀ pre e post, (Sync s fs configPath st).events = pre ++ e :: post →
      ((∃ input, e = Event.create input) ∨ (∃ id input, e = Event.update id input)) →
      (∃ post', post = Event.sleep :: post') ∨
      (post = [] ∧ ∃ op name cause,
        (Sync s fs configPath st).flow = .abort (.remote op name cause))) ∧
    (∀ pre post, (Sync s fs configPath st).events = pre ++ Event.sleep :: post →
      ∃ pre' e, pre = pre' ++ [e] ∧
        ((∃ input, e = Event.create input) ∨ (∃ id input, e = Event.update id input))) := by
  obtain ⟨b, hb, ha⟩ := Sync_pace s fs configPath st
  obtain ⟨h1, h2⟩ := pace_sound _ false b hb
  constructor
  · intro pre e post hl he
    rcases h1 pre e post hl he with h | ⟨h, hb1⟩
    · exact Or.inl h
    · exact Or.inr ⟨h, ha hb1⟩
  · intro pre post hl
    rcases h2 pre post hl with ⟨-, h⟩ | h
    · exact absurd h (by simp)
    · exact h

/-- The `Create` entry of `TestSyncerCreatesAndUpdatesConfig`: the delay follows the
create. -/
theorem Sync_delay_placement_at_create :
    (∃ post', [Event.sleep, Event.save "config.yaml"
        { Templates := none,
          Searches := [{ ID := "SSC_new", Name := "Create", Query := "state:open" }] }] =
        Event.sleep :: post') ∨
    ([Event.sleep, Event.save "config.yaml"
        { Templates := none,
          Searches := [{ ID := "SSC_new", Name := "Create", Query := "state:open" }] }] = [] ∧
      ∃ op name cause,
        (Sync ⟨stubClient "SSC_new" none, false, false⟩
          (fileWith
            { Templates := none, Searches := [{ Name := "Create", Query := "state:open" }] })
          "config.yaml" ()).flow = .abort (.remote op name cause)) :=
  (Sync_delay_placement ⟨stubClient "SSC_new" none, false, false⟩
    (fileWith { Templates := none, Searches := [{ Name := "Create", Query := "state:open" }] })
    "config.yaml" ()).1
    [.println "Processing: Create"] (.create { Name := "Create", Query := "state:open" })
    [.sleep, .save "config.yaml"
      { Templates := none,
        Searches := [{ ID := "SSC_new", Name := "Create", Query := "state:open" }] }]
    (by decide) (Or.inl ⟨_, rfl⟩)

/-- C15: the code against the claim.  `time.Sleep` stands at the end of the loop
body, where only a create or an update arrives; the removal and reset branches
`continue` before it and the recreate delete runs on into the create.  So in
recreate mode (`TestSyncerForceRecreates`) the create follows the delete of the
same definition with no delay between them; in reset mode the second delete follows
the first with none; in normal mode the create of the next definition follows a
removal delete with none.  Creates and updates are paced as claimed, in every mode
and for every client. -/
theorem C15_deletes_not_paced :
    (Sync ⟨stubClient "SSC_new" none, true, false⟩
      (fileWith
        { Templates := none,
          Searches := [{ ID := "SSC_keep", Name := "Existing", Query := "state:open" }] })
      "config.yaml" ()).events =
      [.println "Processing: Existing", .delete "SSC_keep",
        .create { Name := "Existing", Query := "state:open" }, .sleep,
        .save "config.yaml"
          { Templates := none,
            Searches := [{ ID := "SSC_new", Name := "Existing", Query := "state:open" }] }] ∧
    (Sync ⟨stubClient "" none, false, true⟩
      (fileWith
        { Templates := none,
          Searches := [
            { ID := "SSC_a", Name := "A", Query := "state:open" },
            { ID := "SSC_b", Name := "B", Query := "state:open" }] })
      "config.yaml" ()).events =
      [.println "Processing: A", .delete "SSC_a", .println "Processing: B", .delete "SSC_b",
        .save "config.yaml"
          { Templates := none,
            Searches := [
              { Name := "A", Query := "state:open" },
              { Name := "B", Query := "state:open" }] }] ∧
    (Sync ⟨stubClient "SSC_new" none, false, false⟩
      (fileWith
        { Templates := none,
          Searches := [
            { ID := "SSC_remove", Name := "Remove", Query := "state:open", Remove := true },
            { Name := "Create", Query := "state:open" }] })
      "config.yaml" ()).events =
      [.println "Processing: Remove", .delete "SSC_remove", .println "Processing: Create",
        .create { Name := "Create", Query := "state:open" }, .sleep,
        .save "config.yaml"
          { Templates := none,
            Searches := [
              { Name := "Remove", Query := "state:open" },
              { ID := "SSC_new", Name := "Create", Query := "state:open" }] }] ∧
    (∀ (σ : Type) (s : Syncer σ) (fs : Persistence) (configPath : String) (st : σ)
        (pre : List Event) (e : Event) (post : List Event),
      (Sync s fs configPath st).events = pre ++ e :: post →
      ((∃ input, e = Event.create input) ∨ (∃ id input, e = Event.update id input)) →
      (∃ post', post = Event.sleep :: post') ∨
      (post = [] ∧ ∃ op name cause,
        (Sync s fs configPath st).flow = .abort (.remote op name cause))) :=
  ⟨by decide, by decide, by decide,
    fun _ s fs configPath st => (Sync_delay_placement s fs configPath st).1⟩

/-! ### Characters -/

theorem alnum_toNat (c : Char) (h : isAlphaNumeric c = true) : 48 ≤ c.toNat ∧ c.toNat ≤ 122 := by
  simp only [isAlphaNumeric, isLetter, Bool.or_eq_true, Bool.and_eq_true, decide_eq_true_eq,
    beq_iff_eq] at h
  have le : ∀ a b : Char, a ≤ b → a.toNat ≤ b.toNat := fun a b hab =>
    UInt32.le_def.1 (Char.le_def.1 hab)
  rcases h with (rfl | ⟨h1, h2⟩ | ⟨h1, h2⟩) | ⟨h1, h2⟩
  · decide
  · have := le _ _ h1; have := le _ _ h2
    simp at *; omega
  · have := le _ _ h1; have := le _ _ h2
    simp at *; omega
  · have := le _ _ h1; have := le _ _ h2
    simp at *; omega

theorem alnum_ne (c x : Char) (h : isAlphaNumeric c = true) (hx : isAlphaNumeric x = false) :
    c ≠ x := by
  rintro rfl
  rw [h] at hx
  cases hx

theorem alnum_reSpace (c : Char) (h : isAlphaNumeric c = true) : reSpace c = false := by
  have h1 := alnum_ne c '\t' h (by decide)
  have h2 := alnum_ne c '\n' h (by decide)
  have h3 := alnum_ne c (Char.ofNat 12) h (by decide)
  have h4 := alnum_ne c '\r' h (by decide)
  have h5 := alnum_ne c ' ' h (by decide)
  simp [reSpace, h1, h2, h3, h4, h5]

theorem alnum_unicodeSpace (c : Char) (h : isAlphaNumeric c = true) :
    isUnicodeSpace c = false := by
  have := alnum_toNat c h
  simp only [isUnicodeSpace, Bool.or_eq_false_iff, Bool.and_eq_false_iff, decide_eq_false_iff_not,
    beq_eq_false_iff_ne, ne_eq]
  omega

theorem goodName_alnum (v : List Char) (h : goodName v = true) :
    v ≠ [] ∧ ∀ c ∈ v, isAlphaNumeric c = true := by
  cases v with
  | nil => simp [goodName] at h
  | cons c cs =>
    simp only [goodName, Bool.and_eq_true, Bool.or_eq_true, beq_iff_eq, List.all_eq_true] at h
    refine ⟨by simp, ?_⟩
    intro x hx
    rcases List.mem_cons.1 hx with rfl | hx
    · rcases h.1 with h1 | h1
      · simp [isAlphaNumeric, h1]
      · simp [isAlphaNumeric, h1]
    · exact h.2 x hx

/-! ### Regular-expression engine -/

theorem repRun_greedy_stop {α : Type} (p : Char → Bool) (k : List Char → Option α)
    (ws s : List Char) (r : α) (hws : ∀ c ∈ ws, p c = true)
    (hs : ∀ c t, s = c :: t → p c = false) (hk : k s = some r) :
    repRun p true k (ws ++ s) = some r := by
  induction ws with
  | nil =>
    cases s with
    | nil => simpa [repRun] using hk
    | cons c t => simp [repRun, hs c t rfl, hk]
  | cons c ws ih =>
    have := ih (fun x hx => hws x (List.mem_cons_of_mem _ hx))
    simp [repRun, hws c (List.mem_cons_self _ _), this]

theorem repRun_lazy_skip {α : Type} (p : Char → Bool) (k : List Char → Option α)
    (a s : List Char) (ha : ∀ c ∈ a, p c = true)
    (hk : ∀ b1 b2, a = b1 ++ b2 → b2 ≠ [] → k (b2 ++ s) = none) :
    repRun p false k (a ++ s) = repRun p false k s := by
  induction a with
  | nil => rfl
  | cons c a ih =>
    have h1 : k (c :: a ++ s) = none := hk [] (c :: a) rfl (by simp)
    have h2 := ih (fun x hx => ha x (List.mem_cons_of_mem _ hx))
      (fun b1 b2 h hne => hk (c :: b1) b2 (by simp [h]) hne)
    simp only [List.cons_append] at h1 ⊢
    simp [repRun, ha c (List.mem_cons_self _ _), h1, h2]

theorem repRun_lazy_done {α : Type} (p : Char → Bool) (k : List Char → Option α)
    (s : List Char) (r : α) (hk : k s = some r) : repRun p false k s = some r := by
  cases s with
  | nil => simpa [repRun] using hk
  | cons c t => by_cases h : p c = true <;> simp [repRun, h, hk]

/-- What a successful repetition consumed. -/
theorem repRun_sound {α : Type} (p : Char → Bool) (g : Bool) (k : List Char → Option α)
    (s : List Char) (r : α) (h : repRun p g k s = some r) :
    ∃ ws t, s = ws ++ t ∧ (∀ c ∈ ws, p c = true) ∧ k t = some r := by
  induction s with
  | nil => exact ⟨[], [], rfl, by simp, by simpa [repRun] using h⟩
  | cons c s ih =>
    by_cases hp : p c = true
    · have step : repRun p g k s = some r ∨ k (c :: s) = some r := by
        cases g
        · simp only [repRun, hp, if_true] at h
          cases hk : k (c :: s) with
          | some x => rw [hk] at h; right; simpa using h
          | none => rw [hk] at h; left; simpa using h
        · simp only [repRun, hp, if_true] at h
          cases hr : repRun p true k s with
          | some x => rw [hr] at h; left; simpa using h
          | none => rw [hr] at h; right; simpa using h
      rcases step with h1 | h1
      · obtain ⟨ws, t, rfl, hws, hk⟩ := ih h1
        refine ⟨c :: ws, t, rfl, ?_, hk⟩
        intro x hx
        rcases List.mem_cons.1 hx with rfl | hx
        · exact hp
        · exact hws x hx
      · exact ⟨[], c :: s, rfl, by simp, h1⟩
    · have : k (c :: s) = some r := by simpa [repRun, hp] using h
      exact ⟨[], c :: s, rfl, by simp, this⟩

theorem run_str {α : Type} (w : List Char) (r : Re) (s : List Char) (caps : List (List Char))
    (k : List Char → List (List Char) → Option α) :
    (Re.str w r).run (w ++ s) caps k = r.run s caps k := by
  induction w with
  | nil => rfl
  | cons c w ih => simp [Re.str, Re.run, Re.lit, ih]

/-! ### Scanning -/

theorem scan_skip (r : Re) (a t : List Char) : scan r a.length (a ++ t) = scan r 0 t := by
  induction a with
  | nil => rfl
  | cons c a ih => simpa [scan] using ih

theorem scan_miss (r : Re) (c : Char) (s : List Char) (h : matchAt r (c :: s) = none) :
    scan r 0 (c :: s) = .skip c :: scan r 0 s := by
  simp [scan, h]

theorem scan_noStart (r : Re) (p t : List Char)
    (h : ∀ c ∈ p, ∀ s, matchAt r (c :: s) = none) :
    scan r 0 (p ++ t) = p.map .skip ++ scan r 0 t := by
  induction p with
  | nil => rfl
  | cons c p ih =>
    have h1 := h c (List.mem_cons_self _ _) (p ++ t)
    have h2 := ih (fun x hx => h x (List.mem_cons_of_mem _ hx))
    simp [scan, h1, h2]

theorem scan_hit (r : Re) (m rest : List Char) (caps : List (List Char)) (hm : m ≠ [])
    (h : matchAt r (m ++ rest) = some (rest, caps)) :
    scan r 0 (m ++ rest) = .hit m caps :: scan r 0 rest := by
  obtain ⟨c, m, rfl⟩ := List.exists_cons_of_ne_nil hm
  have hl : (c :: (m ++ rest)).length - rest.length = m.length + 1 := by
    simp; omega
  simp only [List.cons_append] at h ⊢
  rw [scan, h]
  simp only [hl]
  simp [scan_skip]

theorem expand_skips (repl : List Char → List Char) (l : List Char) :
    (l.map Piece.skip).flatMap (Piece.expand repl) = l := by
  induction l with
  | nil => rfl
  | cons c l ih =>
    simp only [List.map_cons, List.flatMap_cons, Piece.expand, ih]
    rfl

theorem submatch_skips (l : List Char) : (l.map Piece.skip).filterMap Piece.submatch = [] := by
  induction l with
  | nil => rfl
  | cons c l ih => simp [Piece.submatch, ih]

theorem run_ws_none {α : Type} (R : Re) (c : Char) (s : List Char) (caps : List (List Char))
    (k : List Char → List (List Char) → Option α) (hc : reSpace c = false) :
    (Re.cat .ws R).run (c :: s) caps k = R.run (c :: s) caps k := by
  simp [Re.run, Re.ws, repRun, hc]

theorem run_ws_one {α : Type} (R : Re) (c : Char) (s : List Char) (caps : List (List Char))
    (k : List Char → List (List Char) → Option α) (r : α) (hc : reSpace c = false)
    (h : R.run (c :: s) caps k = some r) :
    (Re.cat .ws R).run (' ' :: c :: s) caps k = some r := by
  have e : (Re.cat .ws R).run (' ' :: c :: s) caps k =
      repRun reSpace true (fun s' => R.run s' caps k) ([' '] ++ (c :: s)) := rfl
  rw [e]
  refine repRun_greedy_stop _ _ _ _ _ (by simp [reSpace]) ?_ h
  intro x t hx
  cases hx
  exact hc

theorem run_lit {α : Type} (R : Re) (c : Char) (s : List Char) (caps : List (List Char))
    (k : List Char → List (List Char) → Option α) :
    (Re.cat (.lit c) R).run (c :: s) caps k = R.run s caps k := by
  simp [Re.run, Re.lit]

theorem run_lit_ne {α : Type} (R : Re) (c x : Char) (s : List Char) (caps : List (List Char))
    (k : List Char → List (List Char) → Option α) (h : x ≠ c) :
    (Re.cat (.lit c) R).run (x :: s) caps k = none := by
  simp [Re.run, Re.lit, h]

theorem take_length_sub (a s : List Char) : (a ++ s).take ((a ++ s).length - s.length) = a := by
  simp

/-- A lazy `p+?` in a group: the shortest run after which the rest matches. -/
theorem run_cap_plus_lazy {α : Type} (p : Char → Bool) (R : Re) (c : Char) (a s : List Char)
    (caps : List (List Char)) (k : List Char → List (List Char) → Option α) (r : α)
    (hc : p c = true) (ha : ∀ x ∈ a, p x = true)
    (hfail : ∀ b1 b2 caps', a = b1 ++ b2 → b2 ≠ [] → R.run (b2 ++ s) caps' k = none)
    (hk : R.run s (caps ++ [c :: a]) k = some r) :
    (Re.cat (.cap (.cat (.chr p) (.rep p false))) R).run (c :: (a ++ s)) caps k = some r := by
  simp only [Re.run, hc, if_true]
  rw [repRun_lazy_skip p _ a s ha]
  · apply repRun_lazy_done
    have e : (c :: (a ++ s)).take ((c :: (a ++ s)).length - s.length) = c :: a := by
      have := take_length_sub (c :: a) s
      simpa using this
    rw [e]
    exact hk
  · intro b1 b2 h hne
    exact hfail b1 b2 _ h hne

/-- A lazy `p*?` in a group. -/
theorem run_cap_star_lazy {α : Type} (p : Char → Bool) (R : Re) (a s : List Char)
    (caps : List (List Char)) (k : List Char → List (List Char) → Option α) (r : α)
    (ha : ∀ x ∈ a, p x = true)
    (hfail : ∀ b1 b2 caps', a = b1 ++ b2 → b2 ≠ [] → R.run (b2 ++ s) caps' k = none)
    (hk : R.run s (caps ++ [a]) k = some r) :
    (Re.cat (.cap (.rep p false)) R).run (a ++ s) caps k = some r := by
  simp only [Re.run]
  rw [repRun_lazy_skip p _ a s ha]
  · apply repRun_lazy_done
    rw [take_length_sub]
    exact hk
  · intro b1 b2 h hne
    exact hfail b1 b2 _ h hne

/-- The tail of a call pattern on `(v, "f") }}`. -/
theorem run_callTail {α : Type} (v f rest : List Char) (caps : List (List Char))
    (k : List Char → List (List Char) → Option α) (r : α)
    (hv0 : v ≠ []) (hv : ∀ c ∈ v, c ≠ ',' ∧ reSpace c = false)
    (hf : ∀ c ∈ f, c ≠ '"' ∧ c ≠ '\n')
    (hk : k rest (caps ++ [v] ++ [f]) = some r) :
    callTail.run ('(' :: (v ++ ',' :: ' ' :: '"' :: (f ++ '"' :: ')' :: ' ' :: '}' :: '}' :: rest)))
      caps k = some r := by
  obtain ⟨c, v, rfl⟩ := List.exists_cons_of_ne_nil hv0
  have hc := hv c (List.mem_cons_self _ _)
  unfold callTail
  rw [run_lit, List.cons_append, run_ws_none _ _ _ _ _ hc.2]
  apply run_cap_plus_lazy
  · simpa using hc.1
  · intro x hx
    simpa using (hv x (List.mem_cons_of_mem _ hx)).1
  · intro b1 b2 caps' h hne
    obtain ⟨x, b2, rfl⟩ := List.exists_cons_of_ne_nil hne
    have hx := hv x (List.mem_cons_of_mem _ (by rw [h]; simp))
    rw [List.cons_append, run_ws_none _ _ _ _ _ hx.2, run_lit_ne _ _ _ _ _ _ hx.1]
  · rw [run_ws_none _ _ _ _ _ (by decide), run_lit]
    apply run_ws_one _ _ _ _ _ _ (by decide)
    rw [run_lit]
    apply run_cap_star_lazy
    · intro x hx
      simpa using (hf x hx).2
    · intro b1 b2 caps' h hne
      obtain ⟨x, b2, rfl⟩ := List.exists_cons_of_ne_nil hne
      have hx := hf x (by rw [h]; simp)
      rw [List.cons_append, run_lit_ne _ _ _ _ _ _ hx.1]
    · rw [run_lit, run_ws_none _ _ _ _ _ (by decide), run_lit]
      apply run_ws_one _ _ _ _ _ _ (by decide)
      simp only [Re.run, Re.lit, beq_self_eq_true, if_true]
      simpa using hk

/-- A call pattern matches the call it was written for, with groups `v` and `f`. -/
theorem matchAt_call (fn v f rest : List Char) (hfn : ∀ c ∈ fn, reSpace c = false)
    (hv0 : v ≠ []) (hv : ∀ c ∈ v, c ≠ ',' ∧ reSpace c = false)
    (hf : ∀ c ∈ f, c ≠ '"' ∧ c ≠ '\n') :
    matchAt (callPattern fn) (callSrc fn v f ++ rest) = some (rest, [v, f]) := by
  have e : callSrc fn v f ++ rest = '{' :: '{' :: ' ' :: (fn ++ '(' ::
      (v ++ ',' :: ' ' :: '"' :: (f ++ '"' :: ')' :: ' ' :: '}' :: '}' :: rest))) := by
    simp [callSrc]
  rw [e]
  unfold matchAt callPattern
  rw [run_lit, run_lit]
  have key : (Re.str fn callTail).run (fn ++ '(' ::
      (v ++ ',' :: ' ' :: '"' :: (f ++ '"' :: ')' :: ' ' :: '}' :: '}' :: rest))) []
      (fun rest caps => some (rest, caps)) = some (rest, [v, f]) := by
    rw [run_str]
    exact run_callTail v f rest [] _ _ hv0 hv hf (by simp)
  cases fn with
  | nil => exact run_ws_one _ _ _ _ _ _ (by decide) key
  | cons c fn => exact run_ws_one _ _ _ _ _ _ (hfn c (List.mem_cons_self _ _)) key

/-! ### Normalisation of one call -/

theorem TrimSpace_id (v : List Char) (h : ∀ c ∈ v, isUnicodeSpace c = false) :
    TrimSpace v = v := by
  unfold TrimSpace
  have h1 : v.dropWhile isUnicodeSpace = v := by
    cases v with
    | nil => rfl
    | cons c cs => simp [List.dropWhile, h c (List.mem_cons_self _ _)]
  rw [h1]
  have h2 : v.reverse.dropWhile isUnicodeSpace = v.reverse := by
    cases hr : v.reverse with
    | nil => rfl
    | cons c cs =>
      have : c ∈ v := by
        have : c ∈ v.reverse := by rw [hr]; simp
        simpa using this
      simp [List.dropWhile, h c this]
  rw [h2, List.reverse_reverse]

theorem ensureDot_name (v : List Char) (h : ∀ c ∈ v, isAlphaNumeric c = true) :
    ensureDot v = '.' :: v := by
  unfold ensureDot
  have h1 : ¬ (v.head? = some '.' ∨ v.head? = some '$') := by
    cases v with
    | nil => simp
    | cons c cs =>
      have hc := h c (List.mem_cons_self _ _)
      have a := alnum_ne c '.' hc (by decide)
      have b := alnum_ne c '$' hc (by decide)
      simp [a, b]
  have h2 : v.any (fun c => c == ' ' || c == '(' || c == ')') = false := by
    rw [List.any_eq_false]
    intro c hc
    have hc := h c hc
    have a := alnum_ne c ' ' hc (by decide)
    have b := alnum_ne c '(' hc (by decide)
    have d := alnum_ne c ')' hc (by decide)
    simp [a, b, d]
  simp [h1, h2]


theorem matchAt_call_ne (gn : List Char) (c : Char) (s : List Char) (h : c ≠ '{') :
    matchAt (callPattern gn) (c :: s) = none := by
  unfold matchAt callPattern
  exact run_lit_ne _ _ _ _ _ _ h

theorem matchAt_call_second (gn : List Char) (c : Char) (s : List Char) (h : c ≠ '{') :
    matchAt (callPattern gn) ('{' :: c :: s) = none := by
  unfold matchAt callPattern
  rw [run_lit]
  exact run_lit_ne _ _ _ _ _ _ h

/-- Text without an opening brace holds no match of a pattern that starts with one. -/
theorem scan_plain (r : Re) (t : List Char) (hr : ∀ c s, c ≠ '{' → matchAt r (c :: s) = none)
    (ht : ∀ c ∈ t, c ≠ '{') : scan r 0 t = t.map .skip := by
  have := scan_noStart r t [] (fun c hc s => hr c s (ht c hc))
  simpa [scan] using this

/-- An action that the pattern does not match at its start, between plain texts:
nothing is matched. -/
theorem scan_miss_action (r : Re) (pre x : List Char)
    (hr : ∀ c s, c ≠ '{' → matchAt r (c :: s) = none)
    (hr2 : ∀ c s, c ≠ '{' → matchAt r ('{' :: c :: s) = none)
    (hpre : ∀ c ∈ pre, c ≠ '{') (hx : ∀ c ∈ x, c ≠ '{')
    (hm : matchAt r ('{' :: '{' :: ' ' :: x) = none) :
    scan r 0 (pre ++ '{' :: '{' :: ' ' :: x) = (pre ++ '{' :: '{' :: ' ' :: x).map .skip := by
  rw [scan_noStart r pre _ (fun c hc s => hr c s (hpre c hc)), scan_miss r _ _ hm,
    scan_miss r _ _ (hr2 ' ' x (by decide)), scan_miss r _ _ (hr ' ' x (by decide)),
    scan_plain r x hr hx]
  simp

theorem replace_skips (r : Re) (t : List Char) (repl : List Char → List Char)
    (h : scan r 0 t = t.map .skip) : ReplaceAllStringFunc r t repl = t := by
  unfold ReplaceAllStringFunc
  rw [h, expand_skips]

theorem findAll_skips (r : Re) (t : List Char) (h : scan r 0 t = t.map .skip) :
    FindAllStringSubmatch r t = [] := by
  unfold FindAllStringSubmatch
  rw [h, submatch_skips]

/-- The closure of `normalizeTemplateSyntax` rewrites `{{ fn(v, "f") }}` to
`{{ fn .v "f" }}`. -/
theorem rewriteCall_call (fn v f : List Char) (hfn : ∀ c ∈ fn, reSpace c = false)
    (hv : goodName v = true) (hf : ∀ c ∈ f, c ≠ '"' ∧ c ≠ '\n') :
    rewriteCall (callPattern fn) fn (callSrc fn v f) = callNorm fn v f := by
  obtain ⟨hv0, hva⟩ := goodName_alnum v hv
  have hm := matchAt_call fn v f [] hfn hv0
    (fun c hc => ⟨alnum_ne c ',' (hva c hc) (by decide), alnum_reSpace c (hva c hc)⟩) hf
  have hs : scan (callPattern fn) 0 (callSrc fn v f ++ []) = [.hit (callSrc fn v f) [v, f]] := by
    rw [scan_hit _ _ _ _ (by simp [callSrc]) hm]
    simp [scan]
  rw [List.append_nil] at hs
  unfold rewriteCall FindStringSubmatch FindAllStringSubmatch
  rw [hs]
  simp only [List.filterMap_cons, List.filterMap_nil, Piece.submatch, List.headD_cons,
    List.getD_cons_succ, List.getD_cons_zero]
  rw [TrimSpace_id v (fun c hc => alnum_unicodeSpace c (hva c hc)), ensureDot_name v hva]
  simp [callNorm]

/-- One pass of `normalizeTemplateSyntax` over a text with the call it rewrites. -/
theorem replace_call (fn pre v f suf : List Char) (hfn : ∀ c ∈ fn, reSpace c = false)
    (hpre : ∀ c ∈ pre, c ≠ '{') (hsuf : ∀ c ∈ suf, c ≠ '{')
    (hv : goodName v = true) (hf : ∀ c ∈ f, c ≠ '"' ∧ c ≠ '\n') :
    ReplaceAllStringFunc (callPattern fn) (pre ++ (callSrc fn v f ++ suf))
      (rewriteCall (callPattern fn) fn) = pre ++ (callNorm fn v f ++ suf) := by
  obtain ⟨hv0, hva⟩ := goodName_alnum v hv
  have hm := matchAt_call fn v f suf hfn hv0
    (fun c hc => ⟨alnum_ne c ',' (hva c hc) (by decide), alnum_reSpace c (hva c hc)⟩) hf
  have hs : scan (callPattern fn) 0 (pre ++ (callSrc fn v f ++ suf)) =
      pre.map .skip ++ .hit (callSrc fn v f) [v, f] :: suf.map .skip := by
    rw [scan_noStart _ pre _ (fun c hc s => matchAt_call_ne fn c s (hpre c hc)),
      scan_hit _ _ _ _ (by simp [callSrc]) hm,
      scan_plain _ suf (fun c s h => matchAt_call_ne fn c s h) hsuf]
  unfold ReplaceAllStringFunc
  rw [hs]
  simp only [List.flatMap_append, List.flatMap_cons, Piece.expand]
  rw [rewriteCall_call fn v f hfn hv hf, expand_skips, expand_skips]


theorem miss_join_on_default (rest : List Char) :
    matchAt (callPattern "join".toList)
      ('{' :: '{' :: ' ' :: 'd' :: 'e' :: 'f' :: 'a' :: 'u' :: 'l' :: 't' :: rest) = none := by
  simp [matchAt, callPattern, Re.run, Re.ws, Re.str, Re.lit, repRun, reSpace]

theorem miss_default_on_join (rest : List Char) :
    matchAt (callPattern "default".toList) ('{' :: '{' :: ' ' :: 'j' :: 'o' :: 'i' :: 'n' :: rest) =
      none := by
  simp [matchAt, callPattern, Re.run, Re.ws, Re.str, Re.lit, repRun, reSpace]

theorem miss_default_on_norm (rest : List Char) :
    matchAt (callPattern "default".toList)
      ('{' :: '{' :: ' ' :: 'd' :: 'e' :: 'f' :: 'a' :: 'u' :: 'l' :: 't' :: ' ' :: rest) = none := by
  simp [matchAt, callPattern, Re.run, Re.ws, Re.str, Re.lit, repRun, reSpace, callTail]


theorem alnum_ne_lbrace (v : List Char) (h : ∀ c ∈ v, isAlphaNumeric c = true) :
    ∀ c ∈ v, c ≠ '{' :=
  fun c hc => alnum_ne c '{' (h c hc) (by decide)

/-- The normalised text of a `default` call between plain texts. -/
theorem normalize_default (pre v f suf : List Char)
    (hpre : ∀ c ∈ pre, c ≠ '{') (hsuf : ∀ c ∈ suf, c ≠ '{') (hv : goodName v = true)
    (hf : ∀ c ∈ f, c ≠ '"' ∧ c ≠ '\n' ∧ c ≠ '{') :
    normalizeTemplateSyntax (pre ++ (callSrc "default".toList v f ++ suf)) =
      pre ++ (callNorm "default".toList v f ++ suf) := by
  obtain ⟨-, hva⟩ := goodName_alnum v hv
  have hvb := alnum_ne_lbrace v hva
  unfold normalizeTemplateSyntax defaultCallPattern joinCallPattern
  rw [replace_call _ pre v f suf (by decide) hpre hsuf hv (fun c hc => ⟨(hf c hc).1, (hf c hc).2.1⟩)]
  apply replace_skips
  have e : pre ++ (callNorm "default".toList v f ++ suf) =
      pre ++ '{' :: '{' :: ' ' :: ('d' :: 'e' :: 'f' :: 'a' :: 'u' :: 'l' :: 't' :: ' ' :: '.' ::
        (v ++ ' ' :: '"' :: (f ++ '"' :: ' ' :: '}' :: '}' :: suf))) := by
    simp [callNorm]
  rw [e]
  apply scan_miss_action _ _ _ (matchAt_call_ne _) (matchAt_call_second _) hpre
  · intro c hc
    simp only [List.mem_cons, List.mem_append] at hc
    rcases hc with rfl | rfl | rfl | rfl | rfl | rfl | rfl | rfl | rfl | hc | rfl | rfl | hc | rfl |
      rfl | rfl | rfl | hc <;> first | decide | exact hvb c hc | exact (hf c hc).2.2 | exact hsuf c hc
  · exact miss_join_on_default _

/-- The normalised text of a `join` call between plain texts. -/
theorem normalize_join (pre v f suf : List Char)
    (hpre : ∀ c ∈ pre, c ≠ '{') (hsuf : ∀ c ∈ suf, c ≠ '{') (hv : goodName v = true)
    (hf : ∀ c ∈ f, c ≠ '"' ∧ c ≠ '\n' ∧ c ≠ '{') :
    normalizeTemplateSyntax (pre ++ (callSrc "join".toList v f ++ suf)) =
      pre ++ (callNorm "join".toList v f ++ suf) := by
  obtain ⟨-, hva⟩ := goodName_alnum v hv
  have hvb := alnum_ne_lbrace v hva
  unfold normalizeTemplateSyntax defaultCallPattern joinCallPattern
  have h1 : ReplaceAllStringFunc (callPattern "default".toList)
      (pre ++ (callSrc "join".toList v f ++ suf))
      (rewriteCall (callPattern "default".toList) "default".toList) =
      pre ++ (callSrc "join".toList v f ++ suf) := by
    apply replace_skips
    have e : pre ++ (callSrc "join".toList v f ++ suf) =
        pre ++ '{' :: '{' :: ' ' :: ('j' :: 'o' :: 'i' :: 'n' :: '(' ::
          (v ++ ',' :: ' ' :: '"' :: (f ++ '"' :: ')' :: ' ' :: '}' :: '}' :: suf))) := by
      simp [callSrc]
    rw [e]
    apply scan_miss_action _ _ _ (matchAt_call_ne _) (matchAt_call_second _) hpre
    · intro c hc
      simp only [List.mem_cons, List.mem_append] at hc
      rcases hc with rfl | rfl | rfl | rfl | rfl | hc | rfl | rfl | rfl | hc | rfl | rfl | rfl |
        rfl | rfl | hc <;>
        first | decide | exact hvb c hc | exact (hf c hc).2.2 | exact hsuf c hc
    · exact miss_default_on_join _
  simp only [h1]
  exact replace_call _ pre v f suf (by decide) hpre hsuf hv
    (fun c hc => ⟨(hf c hc).1, (hf c hc).2.1⟩)

/-- The normalised text of a call holds no `default(` call any more. -/
theorem noDefaultCall_norm (fn pre v f suf : List Char)
    (hfn : fn = "default".toList ∨ fn = "join".toList)
    (hpre : ∀ c ∈ pre, c ≠ '{') (hsuf : ∀ c ∈ suf, c ≠ '{') (hv : goodName v = true)
    (hf : ∀ c ∈ f, c ≠ '{') :
    FindAllStringSubmatch defaultCallPattern (pre ++ (callNorm fn v f ++ suf)) = [] := by
  obtain ⟨-, hva⟩ := goodName_alnum v hv
  have hvb := alnum_ne_lbrace v hva
  apply findAll_skips
  unfold defaultCallPattern
  rcases hfn with rfl | rfl
  · have e : pre ++ (callNorm "default".toList v f ++ suf) =
        pre ++ '{' :: '{' :: ' ' :: ('d' :: 'e' :: 'f' :: 'a' :: 'u' :: 'l' :: 't' :: ' ' :: '.' ::
          (v ++ ' ' :: '"' :: (f ++ '"' :: ' ' :: '}' :: '}' :: suf))) := by
      simp [callNorm]
    rw [e]
    apply scan_miss_action _ _ _ (matchAt_call_ne _) (matchAt_call_second _) hpre
    · intro c hc
      simp only [List.mem_cons, List.mem_append] at hc
      rcases hc with rfl | rfl | rfl | rfl | rfl | rfl | rfl | rfl | rfl | hc | rfl | rfl | hc |
        rfl | rfl | rfl | rfl | hc <;>
        first | decide | exact hvb c hc | exact hf c hc | exact hsuf c hc
    · exact miss_default_on_norm _
  · have e : pre ++ (callNorm "join".toList v f ++ suf) =
        pre ++ '{' :: '{' :: ' ' :: ('j' :: 'o' :: 'i' :: 'n' :: ' ' :: '.' ::
          (v ++ ' ' :: '"' :: (f ++ '"' :: ' ' :: '}' :: '}' :: suf))) := by
      simp [callNorm]
    rw [e]
    apply scan_miss_action _ _ _ (matchAt_call_ne _) (matchAt_call_second _) hpre
    · intro c hc
      simp only [List.mem_cons, List.mem_append] at hc
      rcases hc with rfl | rfl | rfl | rfl | rfl | rfl | hc | rfl | rfl | hc |
        rfl | rfl | rfl | rfl | hc <;>
        first | decide | exact hvb c hc | exact hf c hc | exact hsuf c hc
    · exact miss_default_on_join _

/-! ### What a match looks like -/

/-- Every match reported by `scan` is a match of the pattern at some position. -/
theorem scan_hit_sound (r : Re) (s : List Char) :
    ∀ (n : Nat) (m : List Char) (caps : List (List Char)), Piece.hit m caps ∈ scan r n s →
      ∃ p t rest, s = p ++ t ∧ matchAt r t = some (rest, caps) ∧
        m = t.take (t.length - rest.length) := by
  induction s with
  | nil => intro n m caps h; simp [scan] at h
  | cons c s ih =>
    intro n m caps h
    have tail : Piece.hit m caps ∈ scan r 0 s ∨ (∃ k, Piece.hit m caps ∈ scan r k s) →
        ∃ p t rest, c :: s = p ++ t ∧ matchAt r t = some (rest, caps) ∧
          m = t.take (t.length - rest.length) := by
      intro h'
      have : ∃ k, Piece.hit m caps ∈ scan r k s := by
        rcases h' with h' | h'
        · exact ⟨0, h'⟩
        · exact h'
      obtain ⟨k, hk⟩ := this
      obtain ⟨p, t, rest, e, hm, hmt⟩ := ih k m caps hk
      exact ⟨c :: p, t, rest, by simp [e], hm, hmt⟩
    cases n with
    | succ n => exact tail (Or.inr ⟨n, by simpa [scan] using h⟩)
    | zero =>
      rw [scan] at h
      cases hm : matchAt r (c :: s) with
      | none =>
        rw [hm] at h
        simp only [List.mem_cons] at h
        rcases h with h | h
        · cases h
        · exact tail (Or.inl h)
      | some x =>
        obtain ⟨rest, caps'⟩ := x
        rw [hm] at h
        simp only at h
        split at h
        · simp only [List.mem_cons] at h
          rcases h with h | h | h
          · cases h
            refine ⟨[], c :: s, rest, rfl, hm, ?_⟩
            rename_i h0
            rw [h0]; rfl
          · cases h
          · exact tail (Or.inl h)
        · simp only [List.mem_cons] at h
          rcases h with h | h
          · cases h
            exact ⟨[], c :: s, rest, rfl, hm, rfl⟩
          · exact tail (Or.inr ⟨_, h⟩)

/-- A match of `identifierPattern`: a letter or underscore, then backslashes and `w`s. -/
theorem matchAt_identifier_sound (t rest : List Char) (caps : List (List Char))
    (h : matchAt identifierPattern t = some (rest, caps)) :
    ∃ c ws, caps = [c :: ws] ∧ t = (c :: ws) ++ rest ∧ (c = '_' ∨ isLetter c = true) ∧
      ∀ x ∈ ws, x = '\\' ∨ x = 'w' := by
  unfold matchAt identifierPattern at h
  simp only [Re.run] at h
  cases t with
  | nil => simp at h
  | cons c t =>
    simp only at h
    split at h
    · rename_i hc
      obtain ⟨ws, s', e, hws, hk⟩ := repRun_sound _ _ _ _ _ h
      simp only [Option.some.injEq, Prod.mk.injEq] at hk
      obtain ⟨rfl, rfl⟩ := hk
      subst e
      refine ⟨c, ws, ?_, rfl, ?_, ?_⟩
      · have := take_length_sub (c :: ws) s'
        simp only [List.cons_append] at this
        rw [List.nil_append, this]
      · simp only [Bool.or_eq_true, Bool.and_eq_true, decide_eq_true_eq, beq_iff_eq] at hc
        rcases hc with hc | hc
        · right; simpa [isLetter] using hc
        · left; exact hc
      · intro x hx
        have := hws x hx
        simpa using this
    · cases h

theorem run_chr_sound {α : Type} (p : Char → Bool) (s : List Char) (caps : List (List Char))
    (k : List Char → List (List Char) → Option α) (r : α)
    (h : (Re.chr p).run s caps k = some r) :
    ∃ c s', s = c :: s' ∧ p c = true ∧ k s' caps = some r := by
  cases s with
  | nil => simp [Re.run] at h
  | cons c s =>
    simp only [Re.run] at h
    split at h
    · rename_i hc
      exact ⟨c, s, rfl, hc, h⟩
    · cases h

theorem run_lit_sound {α : Type} (x : Char) (s : List Char) (caps : List (List Char))
    (k : List Char → List (List Char) → Option α) (r : α)
    (h : (Re.lit x).run s caps k = some r) :
    ∃ s', s = x :: s' ∧ k s' caps = some r := by
  obtain ⟨c, s', rfl, hc, hk⟩ := run_chr_sound _ _ _ _ _ h
  have : c = x := by simpa using hc
  subst this
  exact ⟨s', rfl, hk⟩

theorem run_cat {α : Type} (a b : Re) (s : List Char) (caps : List (List Char))
    (k : List Char → List (List Char) → Option α) :
    (Re.cat a b).run s caps k = a.run s caps (fun s' caps' => b.run s' caps' k) := rfl

theorem run_rep {α : Type} (p : Char → Bool) (g : Bool) (s : List Char)
    (caps : List (List Char)) (k : List Char → List (List Char) → Option α) :
    (Re.rep p g).run s caps k = repRun p g (fun s' => k s' caps) s := rfl

/-- A match of `actionPattern`: `{{`, a body without closing brace, `}}`. -/
theorem matchAt_action_sound (t rest : List Char) (caps : List (List Char))
    (h : matchAt actionPattern t = some (rest, caps)) :
    ∃ body, t = '{' :: '{' :: (body ++ '}' :: '}' :: rest) ∧ ∀ c ∈ body, c ≠ '}' := by
  unfold matchAt actionPattern at h
  rw [run_cat] at h
  obtain ⟨s1, rfl, h1⟩ := run_lit_sound _ _ _ _ _ h
  rw [run_cat] at h1
  obtain ⟨s2, rfl, h2⟩ := run_lit_sound _ _ _ _ _ h1
  rw [run_cat] at h2
  obtain ⟨c, s3, rfl, hc, h3⟩ := run_chr_sound _ _ _ _ _ h2
  rw [run_cat, run_rep] at h3
  obtain ⟨ws, s4, rfl, hws, h4⟩ := repRun_sound _ _ _ _ _ h3
  rw [run_cat] at h4
  obtain ⟨s5, rfl, h5⟩ := run_lit_sound _ _ _ _ _ h4
  obtain ⟨s6, rfl, h6⟩ := run_lit_sound _ _ _ _ _ h5
  simp only [Option.some.injEq, Prod.mk.injEq] at h6
  obtain ⟨rfl, -⟩ := h6
  refine ⟨c :: ws, by simp, ?_⟩
  intro x hx
  rcases List.mem_cons.1 hx with rfl | hx
  · simpa using hc
  · simpa using hws x hx


/-! ### The identifiers of a normalised call -/

theorem double_brace_unique (p pre u w : List Char)
    (h : p ++ '{' :: '{' :: u = pre ++ '{' :: '{' :: w)
    (hpre : ∀ c ∈ pre, c ≠ '{') (hw : ∀ c ∈ w, c ≠ '{') : p = pre ∧ u = w := by
  rcases List.append_eq_append_iff.1 h with ⟨a, rfl, ha⟩ | ⟨a, rfl, ha⟩
  · cases a with
    | nil => simp at ha; exact ⟨by simp, ha⟩
    | cons x a =>
      simp at ha
      exact absurd ha.1.symm (hpre x (by simp))
  · cases a with
    | nil => simp at ha; exact ⟨by simp, ha.symm⟩
    | cons x a =>
      cases a with
      | nil =>
        simp at ha
        obtain ⟨-, h2⟩ := ha
        cases w with
        | nil => simp at h2
        | cons y w =>
          simp at h2
          exact absurd h2.1 (hw y (by simp))
      | cons y a =>
        simp at ha
        obtain ⟨-, -, h3⟩ := ha
        have : '{' ∈ w := by rw [h3]; simp
        exact absurd rfl (hw _ this)

theorem prefix_of_no_rbrace (body x r1 r2 : List Char)
    (h : body ++ '}' :: r1 = x ++ '}' :: r2) (hb : ∀ c ∈ body, c ≠ '}') :
    ∀ c ∈ body, c ∈ x := by
  rcases List.append_eq_append_iff.1 h with ⟨a, rfl, -⟩ | ⟨a, rfl, ha⟩
  · intro c hc; exact List.mem_append_left _ hc
  · cases a with
    | nil => intro c hc; simpa using hc
    | cons y a =>
      simp at ha
      exact absurd ha.1.symm (hb y (by simp))

/-- In the text of a normalised call between plain texts, whatever `actionPattern`
matches is made of characters of the call. -/
theorem action_hits_in_call (fn pre v f suf : List Char)
    (hfn : ∀ c ∈ fn, c ≠ '{') (hpre : ∀ c ∈ pre, c ≠ '{') (hsuf : ∀ c ∈ suf, c ≠ '{')
    (hv : ∀ c ∈ v, c ≠ '{') (hf : ∀ c ∈ f, c ≠ '{')
    (n : Nat) (m : List Char) (caps : List (List Char))
    (h : Piece.hit m caps ∈ scan actionPattern n (pre ++ (callNorm fn v f ++ suf))) :
    ∀ c ∈ m, c ∈ callNorm fn v f := by
  obtain ⟨p, t, rest, e, hm, hmt⟩ := scan_hit_sound _ _ n m caps h
  obtain ⟨body, rfl, hb⟩ := matchAt_action_sound t rest caps hm
  have ex : callNorm fn v f ++ suf = '{' :: '{' ::
      ((' ' :: (fn ++ ' ' :: '.' :: (v ++ ' ' :: '"' :: (f ++ ['"', ' ']))))
        ++ '}' :: '}' :: suf) := by
    simp [callNorm]
  rw [ex] at e
  obtain ⟨-, e2⟩ := double_brace_unique _ _ _ _ e.symm hpre (by
    intro c hc
    simp only [List.mem_cons, List.mem_append, List.cons_append, List.not_mem_nil,
      or_false] at hc
    casesm* _ ∨ _ <;>
      first
      | exact hfn c (by assumption) | exact hv c (by assumption) | exact hf c (by assumption)
      | exact hsuf c (by assumption) | (subst_vars; decide))
  have hbx := prefix_of_no_rbrace _ _ _ _ e2 hb
  have hm2 : m = '{' :: '{' :: (body ++ ['}', '}']) := by
    rw [hmt]
    have := take_length_sub ('{' :: '{' :: (body ++ ['}', '}'])) rest
    simpa using this
  intro c hc
  rw [hm2] at hc
  simp only [List.mem_cons, List.mem_append, List.not_mem_nil, or_false] at hc
  have hcall : callNorm fn v f = '{' :: '{' ::
      ((' ' :: (fn ++ ' ' :: '.' :: (v ++ ' ' :: '"' :: (f ++ ['"', ' ']))))
        ++ ['}', '}']) := by
    simp [callNorm]
  rw [hcall]
  rcases hc with rfl | rfl | hc | rfl | rfl
  · simp
  · simp
  · have := hbx c hc
    simp only [List.mem_cons, List.mem_append]
    right; right; left
    simpa using this
  · simp
  · simp


theorem mem_findAll (r : Re) (t : List Char) (sub : List (List Char))
    (h : sub ∈ FindAllStringSubmatch r t) :
    ∃ m caps, sub = m :: caps ∧ Piece.hit m caps ∈ scan r 0 t := by
  unfold FindAllStringSubmatch at h
  obtain ⟨piece, hp, hs⟩ := List.mem_filterMap.1 h
  cases piece with
  | skip c => simp [Piece.submatch] at hs
  | hit m caps =>
    simp only [Piece.submatch, Option.some.injEq] at hs
    exact ⟨m, caps, hs.symm, hp⟩

/-- The names `identifierPattern` finds in a text without backslash are identifiers. -/
theorem identifier_names_good (m : List Char) (hm : ∀ c ∈ m, c ≠ '\\') :
    ∀ sub ∈ FindAllStringSubmatch identifierPattern m, goodName (sub.getD 1 []) = true := by
  intro sub hsub
  obtain ⟨m', caps, rfl, hhit⟩ := mem_findAll _ _ _ hsub
  obtain ⟨p, t, rest, e, hmt, -⟩ := scan_hit_sound _ _ 0 m' caps hhit
  obtain ⟨c, ws, rfl, rfl, hc, hws⟩ := matchAt_identifier_sound t rest caps hmt
  simp only [List.getD_cons_succ, List.getD_cons_zero, goodName, Bool.and_eq_true,
    Bool.or_eq_true, beq_iff_eq, List.all_eq_true]
  refine ⟨hc, ?_⟩
  intro x hx
  rcases hws x hx with h | h
  · exact absurd h (hm x (by rw [e]; simp [hx]))
  · rw [h]; decide

theorem foldl_mem {α β : Type} (g : List α → β → List α) (val : β → α)
    (hg : ∀ ids b x, x ∈ g ids b → x ∈ ids ∨ x = val b) :
    ∀ (l : List β) (init : List α) (x : α), x ∈ l.foldl g init → x ∈ init ∨ ∃ b ∈ l, x = val b := by
  intro l
  induction l with
  | nil => intro init x h; exact Or.inl h
  | cons b l ih =>
    intro init x h
    rcases ih (g init b) x h with h1 | ⟨b', hb', rfl⟩
    · rcases hg init b x h1 with h2 | h2
      · exact Or.inl h2
      · exact Or.inr ⟨b, by simp, h2⟩
    · exact Or.inr ⟨b', by simp [hb'], rfl⟩

/-- Where the names returned by `referencedIdentifiers` come from. -/
theorem referencedIdentifiers_mem (t name : List Char) (h : name ∈ referencedIdentifiers t) :
    (∃ action ∈ FindAllString actionPattern t,
      ∃ sub ∈ FindAllStringSubmatch identifierPattern action, name = sub.getD 1 []) ∨
    (∃ sub ∈ FindAllStringSubmatch defaultCallPattern t, name = TrimSpace (sub.getD 1 [])) := by
  unfold referencedIdentifiers at h
  simp only at h
  rcases foldl_mem _ id (by
      intro ids b x hx
      split at hx
      · exact Or.inl hx
      · rcases List.mem_append.1 hx with hx | hx
        · exact Or.inl hx
        · right; simpa using hx) _ _ _ h with h1 | ⟨b, hb, rfl⟩
  · rcases foldl_mem _ id (by
        intro ids b x hx
        split at hx
        · exact Or.inl hx
        · split at hx
          · exact Or.inl hx
          · rcases List.mem_append.1 hx with hx | hx
            · exact Or.inl hx
            · right; simpa using hx) _ _ _ h1 with h2 | ⟨b, hb, rfl⟩
    · simp at h2
    · left
      obtain ⟨action, ha, hb⟩ := List.mem_flatMap.1 hb
      obtain ⟨sub, hs, rfl⟩ := List.mem_map.1 hb
      exact ⟨action, ha, sub, hs, rfl⟩
  · right
    obtain ⟨sub, hs, rfl⟩ := List.mem_map.1 hb
    exact ⟨sub, hs, rfl⟩

/-- Every name `referencedIdentifiers` returns for a normalised call is an identifier. -/
theorem referencedIdentifiers_call (fn pre v f suf : List Char)
    (hfn : fn = "default".toList ∨ fn = "join".toList)
    (hpre : ∀ c ∈ pre, c ≠ '{') (hsuf : ∀ c ∈ suf, c ≠ '{') (hv : goodName v = true)
    (hf : ∀ c ∈ f, c ≠ '\\' ∧ c ≠ '{') :
    ∀ name ∈ referencedIdentifiers (pre ++ (callNorm fn v f ++ suf)), goodName name = true := by
  obtain ⟨-, hva⟩ := goodName_alnum v hv
  intro name hname
  rcases referencedIdentifiers_mem _ _ hname with ⟨action, ha, sub, hs, rfl⟩ | ⟨sub, hs, -⟩
  · apply identifier_names_good action _ sub hs
    unfold FindAllString at ha
    obtain ⟨sub', hs', rfl⟩ := List.mem_map.1 ha
    obtain ⟨m, caps, rfl, hhit⟩ := mem_findAll _ _ _ hs'
    have hin := action_hits_in_call fn pre v f suf
      (by rcases hfn with rfl | rfl <;> decide) hpre hsuf (alnum_ne_lbrace v hva)
      (fun c hc => (hf c hc).2) 0 m caps hhit
    intro c hc
    have hc' := hin c (by simpa using hc)
    simp only [callNorm, List.mem_cons, List.mem_append, List.not_mem_nil, or_false] at hc'
    have hfnb : ∀ x ∈ fn, x ≠ '\\' := by rcases hfn with rfl | rfl <;> decide
    casesm* _ ∨ _ <;>
      first
      | exact hfnb c (by assumption)
      | exact alnum_ne c '\\' (hva c (by assumption)) (by decide)
      | exact (hf c (by assumption)).1
      | (subst_vars; decide)
  · rw [noDefaultCall_norm fn pre v f suf hfn hpre hsuf hv (fun c hc => (hf c hc).2)] at hs
    simp at hs

/-! ### Lexing a normalised call -/

theorem lex_text_run (items : List Item) (acc p : List Char) (h : ∀ c ∈ p, c ≠ '{') :
    p.foldl lexStep (.text items acc) = .text items (acc ++ p) := by
  induction p generalizing acc with
  | nil => simp
  | cons c p ih =>
    have hc : c ≠ '{' := h c (List.mem_cons_self _ _)
    simp only [List.foldl_cons, lexStep, beq_iff_eq, hc, if_false]
    rw [ih _ (fun x hx => h x (List.mem_cons_of_mem _ hx))]
    simp

theorem lex_ident_run (items : List Item) (toks : List Tok) (acc w : List Char)
    (h : ∀ c ∈ w, isAlphaNumeric c = true) :
    w.foldl lexStep (.ident items toks acc) = .ident items toks (acc ++ w) := by
  induction w generalizing acc with
  | nil => simp
  | cons c w ih =>
    simp only [List.foldl_cons, lexStep, h c (List.mem_cons_self _ _), if_true]
    rw [ih _ (fun x hx => h x (List.mem_cons_of_mem _ hx))]
    simp

theorem lex_field_run (items : List Item) (toks : List Tok) (acc w : List Char)
    (h : ∀ c ∈ w, isAlphaNumeric c = true) :
    w.foldl lexStep (.field items toks acc) = .field items toks (acc ++ w) := by
  induction w generalizing acc with
  | nil => simp
  | cons c w ih =>
    simp only [List.foldl_cons, lexStep, h c (List.mem_cons_self _ _), if_true]
    rw [ih _ (fun x hx => h x (List.mem_cons_of_mem _ hx))]
    simp

theorem lex_quote_run (items : List Item) (toks : List Tok) (acc w : List Char)
    (h : ∀ c ∈ w, c ≠ '"' ∧ c ≠ '\\' ∧ c ≠ '\n') :
    w.foldl lexStep (.quote items toks acc) = .quote items toks (acc ++ w) := by
  induction w generalizing acc with
  | nil => simp
  | cons c w ih =>
    obtain ⟨h1, h2, h3⟩ := h c (List.mem_cons_self _ _)
    simp only [List.foldl_cons, lexStep, beq_iff_eq, h1, h2, h3, if_false]
    rw [ih _ (fun x hx => h x (List.mem_cons_of_mem _ hx))]
    simp

theorem lex_open (items : List Item) (acc : List Char) :
    ['{', '{', ' '].foldl lexStep (.text items acc) = .spaces (items ++ [.text acc]) [] := by
  simp [lexStep, lexStart]

theorem lex_word (fn : List Char) (hfn : fn = "default".toList ∨ fn = "join".toList)
    (items : List Item) (toks : List Tok) :
    (fn ++ [' ', '.']).foldl lexStep (.spaces items toks) =
      .dot items (toks ++ [.space, .ident fn, .space]) := by
  rcases hfn with rfl | rfl
  · have e : "default".toList = 'd' :: "efault".toList := rfl
    rw [e, List.cons_append, List.foldl_cons, List.foldl_append]
    have h0 : lexStep (.spaces items toks) 'd' = .ident items (toks ++ [.space]) ['d'] := by
      simp [lexStep, lexStart, isLetter]
    rw [h0, lex_ident_run _ _ _ _ (by decide)]
    have hk : (['d', 'e', 'f', 'a', 'u', 'l', 't'] : List Char) ∉ lexKeywords := by decide
    have ha : isAlphaNumeric ' ' = false := by decide
    simp [lexStep, lexStart, lexTerm, hk, ha]
  · have e : "join".toList = 'j' :: "oin".toList := rfl
    rw [e, List.cons_append, List.foldl_cons, List.foldl_append]
    have h0 : lexStep (.spaces items toks) 'j' = .ident items (toks ++ [.space]) ['j'] := by
      simp [lexStep, lexStart, isLetter]
    rw [h0, lex_ident_run _ _ _ _ (by decide)]
    have hk : (['j', 'o', 'i', 'n'] : List Char) ∉ lexKeywords := by decide
    have ha : isAlphaNumeric ' ' = false := by decide
    simp [lexStep, lexStart, lexTerm, hk, ha]

theorem lex_name (v : List Char) (hv : goodName v = true) (items : List Item)
    (toks : List Tok) :
    (v ++ [' ', '"']).foldl lexStep (.dot items toks) =
      .quote items (toks ++ [.field v, .space]) [] := by
  obtain ⟨-, hva⟩ := goodName_alnum v hv
  cases v with
  | nil => simp [goodName] at hv
  | cons c1 v =>
    have hc1 : (c1 == '_' || isLetter c1) = true := by
      simp only [goodName, Bool.and_eq_true] at hv
      exact hv.1
    rw [List.cons_append, List.foldl_cons, List.foldl_append]
    have h0 : lexStep (.dot items toks) c1 = .field items toks [c1] := by
      simp only [lexStep, hc1, if_true]
    rw [h0, lex_field_run _ _ _ _ (fun c hc => hva c (List.mem_cons_of_mem _ hc))]
    have ha : isAlphaNumeric ' ' = false := by decide
    simp [lexStep, lexStart, lexTerm, ha]

theorem lex_str (f : List Char) (hf : ∀ c ∈ f, c ≠ '"' ∧ c ≠ '\\' ∧ c ≠ '\n')
    (items : List Item) (toks : List Tok) :
    (f ++ ['"', ' ', '}', '}']).foldl lexStep (.quote items toks []) =
      .text (items ++ [.action (toks ++ [.str f, .space])]) [] := by
  rw [List.foldl_append, lex_quote_run _ _ _ _ hf]
  simp [lexStep, lexStart]

/-- The tokens of `{{ fn .v "f" }}` between plain texts. -/
theorem lex_call (fn pre v f suf : List Char)
    (hfn : fn = "default".toList ∨ fn = "join".toList)
    (hpre : ∀ c ∈ pre, c ≠ '{') (hsuf : ∀ c ∈ suf, c ≠ '{') (hv : goodName v = true)
    (hf : ∀ c ∈ f, c ≠ '"' ∧ c ≠ '\\' ∧ c ≠ '\n') :
    lex (pre ++ (callNorm fn v f ++ suf)) =
      .ok [.text pre, .action [.space, .ident fn, .space, .field v, .space, .str f, .space],
        .text suf] := by
  have e : pre ++ (callNorm fn v f ++ suf) =
      pre ++ (['{', '{', ' '] ++ ((fn ++ [' ', '.']) ++ ((v ++ [' ', '"']) ++
        ((f ++ ['"', ' ', '}', '}']) ++ suf)))) := by
    simp [callNorm]
  unfold lex
  rw [e, List.foldl_append, lex_text_run _ _ _ hpre, List.foldl_append, lex_open,
    List.foldl_append, lex_word fn hfn, List.foldl_append, lex_name v hv, List.foldl_append,
    lex_str f hf, lex_text_run _ _ _ hsuf]
  simp [lexEnd]

/-! ### The function map -/

theorem lookup_vars_fold (k : String) (es : List (String × Value)) (m0 : FuncMap)
    (h : ∀ e ∈ es, e.1 ≠ k) :
    (es.foldl (fun m kv => (kv.1, Func.var kv.2) :: m) m0).lookup k = m0.lookup k := by
  induction es generalizing m0 with
  | nil => rfl
  | cons e es ih =>
    rw [List.foldl_cons, ih _ (fun x hx => h x (List.mem_cons_of_mem _ hx))]
    have : (k == e.1) = false := by
      have := h e (List.mem_cons_self _ _)
      simpa using fun hh => this hh.symm
    simp [List.lookup, this]

theorem lookup_ids_fold (k : String) (x : Func) (ids : List (List Char)) (m0 : FuncMap)
    (h : m0.lookup k = some x) :
    (ids.foldl (fun m name =>
      if (m.lookup (String.mk name)).isSome then m else (String.mk name, Func.missing) :: m)
      m0).lookup k = some x := by
  induction ids generalizing m0 with
  | nil => exact h
  | cons name ids ih =>
    rw [List.foldl_cons]
    apply ih
    split
    · exact h
    · rename_i hn
      have : (k == String.mk name) = false := by
        rw [beq_eq_false_iff_ne]
        rintro rfl
        rw [h] at hn
        simp at hn
      simp [List.lookup, this, h]

/-- The functions `default` and `join` stay what they are unless a variable has their name. -/
theorem buildFuncs_lookup (vars : GoMap Value) (ids : List (List Char)) (k : String) (x : Func)
    (hk : ([("default", Func.default), ("join", Func.join)] : FuncMap).lookup k = some x)
    (hvars : ∀ e ∈ vars.entries, e.1 ≠ k) :
    (buildFuncs vars ids).lookup k = some x := by
  unfold buildFuncs
  apply lookup_ids_fold
  rw [lookup_vars_fold k _ _ hvars]
  exact hk

theorem buildFuncs_keys (vars : GoMap Value) (ids : List (List Char)) :
    ∀ kv ∈ buildFuncs vars ids, kv.1 = "default" ∨ kv.1 = "join" ∨
      (∃ e ∈ vars.entries, kv.1 = e.1) ∨ ∃ name ∈ ids, kv.1 = String.mk name := by
  unfold buildFuncs
  have h1 : ∀ (es : List (String × Value)) (m0 : FuncMap),
      ∀ kv ∈ es.foldl (fun m kv => (kv.1, Func.var kv.2) :: m) m0,
        kv ∈ m0 ∨ ∃ e ∈ es, kv.1 = e.1 := by
    intro es
    induction es with
    | nil => intro m0 kv h; exact Or.inl h
    | cons e es ih =>
      intro m0 kv h
      rcases ih _ kv h with h | ⟨e', he', hk⟩
      · rcases List.mem_cons.1 h with rfl | h
        · exact Or.inr ⟨e, by simp, rfl⟩
        · exact Or.inl h
      · exact Or.inr ⟨e', by simp [he'], hk⟩
  have h2 : ∀ (ids : List (List Char)) (m0 : FuncMap),
      ∀ kv ∈ ids.foldl (fun m name =>
        if (m.lookup (String.mk name)).isSome then m else (String.mk name, Func.missing) :: m) m0,
        kv ∈ m0 ∨ ∃ name ∈ ids, kv.1 = String.mk name := by
    intro ids
    induction ids with
    | nil => intro m0 kv h; exact Or.inl h
    | cons name ids ih =>
      intro m0 kv h
      rcases ih _ kv h with h | ⟨n', hn', hk⟩
      · simp only at h
        split at h
        · exact Or.inl h
        · rcases List.mem_cons.1 h with rfl | h
          · exact Or.inr ⟨name, by simp, rfl⟩
          · exact Or.inl h
      · exact Or.inr ⟨n', by simp [hn'], hk⟩
  intro kv hkv
  rcases h2 _ _ kv hkv with h | h
  · rcases h1 _ _ kv h with h | h
    · simp only [List.mem_cons, List.mem_singleton, List.not_mem_nil, or_false] at h
      rcases h with rfl | rfl
      · exact Or.inl rfl
      · exact Or.inr (Or.inl rfl)
    · exact Or.inr (Or.inr (Or.inl h))
  · exact Or.inr (Or.inr (Or.inr h))

theorem goodName_ascii (name : List Char) (h : goodName name = true) :
    name.any (fun c => decide (c.toNat ≥ 128)) = false := by
  obtain ⟨-, ha⟩ := goodName_alnum name h
  rw [List.any_eq_false]
  intro c hc
  have := alnum_toNat c (ha c hc)
  simp
  omega

/-- The function map of a normalised call: every name is an ASCII identifier. -/
theorem buildFuncs_good (vars : GoMap Value) (ids : List (List Char))
    (hvars : ∀ e ∈ vars.entries, goodName e.1.toList = true)
    (hids : ∀ name ∈ ids, goodName name = true) :
    (buildFuncs vars ids).any (fun kv => kv.1.toList.any (fun c => decide (c.toNat ≥ 128))) = false ∧
    (buildFuncs vars ids).all (fun kv => goodName kv.1.toList) = true := by
  have key : ∀ kv ∈ buildFuncs vars ids, goodName kv.1.toList = true := by
    intro kv hkv
    rcases buildFuncs_keys vars ids kv hkv with h | h | ⟨e, he, h⟩ | ⟨name, hn, h⟩
    · rw [h]; decide
    · rw [h]; decide
    · rw [h]; exact hvars e he
    · rw [h]; exact hids name hn
  constructor
  · rw [List.any_eq_false]
    intro kv hkv
    simpa using goodName_ascii _ (key kv hkv)
  · rw [List.all_eq_true]
    exact key

/-! ### Rendering one call -/

/-- Up to parsing: the normalised text, the function map and the parsed template of
a definition whose template is one `default` or `join` call between plain texts. -/
theorem render_call_parse (fn pre v f suf : List Char) (x : Func)
    (hfn : (fn = "default".toList ∧ x = .default) ∨ (fn = "join".toList ∧ x = .join))
    (vars : GoMap Value) (text : List Char)
    (htext : text = pre ++ (callSrc fn v f ++ suf))
    (hpre : ∀ c ∈ pre, c ≠ '{') (hsuf : ∀ c ∈ suf, c ≠ '{') (hv : goodName v = true)
    (hf : ∀ c ∈ f, c ≠ '"' ∧ c ≠ '\\' ∧ c ≠ '\n' ∧ c ≠ '{')
    (hvars : ∀ e ∈ vars.entries, goodName e.1.toList = true ∧ e.1 ≠ String.mk fn) :
    let funcs := buildFuncs vars (referencedIdentifiers (normalizeTemplateSyntax text))
    funcs.any (fun kv => kv.1.toList.any (fun c => decide (c.toNat ≥ 128))) = false ∧
    funcs.all (fun kv => goodName kv.1.toList) = true ∧
    funcs.lookup (String.mk fn) = some x ∧
    parseTemplate funcs (normalizeTemplateSyntax text) =
      .ok [.text pre, .action [.ident fn, .field v, .str f], .text suf] := by
  have hfn' : fn = "default".toList ∨ fn = "join".toList := by
    rcases hfn with ⟨h, -⟩ | ⟨h, -⟩
    · exact Or.inl h
    · exact Or.inr h
  have hnorm : normalizeTemplateSyntax text = pre ++ (callNorm fn v f ++ suf) := by
    rw [htext]
    rcases hfn' with rfl | rfl
    · exact normalize_default pre v f suf hpre hsuf hv
        (fun c hc => ⟨(hf c hc).1, (hf c hc).2.2.1, (hf c hc).2.2.2⟩)
    · exact normalize_join pre v f suf hpre hsuf hv
        (fun c hc => ⟨(hf c hc).1, (hf c hc).2.2.1, (hf c hc).2.2.2⟩)
  have hids := referencedIdentifiers_call fn pre v f suf hfn' hpre hsuf hv
    (fun c hc => ⟨(hf c hc).2.1, (hf c hc).2.2.2⟩)
  intro funcs
  have hgood := buildFuncs_good vars (referencedIdentifiers (normalizeTemplateSyntax text))
    (fun e he => (hvars e he).1) (by rw [hnorm]; exact hids)
  have hlook : funcs.lookup (String.mk fn) = some x := by
    apply buildFuncs_lookup
    · rcases hfn with ⟨rfl, rfl⟩ | ⟨rfl, rfl⟩ <;> decide
    · exact fun e he => (hvars e he).2
  refine ⟨hgood.1, hgood.2, hlook, ?_⟩
  unfold parseTemplate
  rw [hnorm, lex_call fn pre v f suf hfn' hpre hsuf hv
    (fun c hc => ⟨(hf c hc).1, (hf c hc).2.1, (hf c hc).2.2.1⟩)]
  simp [parseItems, parseCommand, hlook, Except.map]

/-- RenderQuery on a template that is one `default` or `join` call between plain
texts: the texts around what the function returns for the variable's value. -/
theorem render_call (fn pre v f suf : List Char) (x : Func)
    (hfn : (fn = "default".toList ∧ x = .default) ∨ (fn = "join".toList ∧ x = .join))
    (d : SearchDefinition) (templates : GoMap TemplateDefinition) (tpl : TemplateDefinition)
    (hq : d.Query = "") (ht : d.Template ≠ "") (hget : templates.get? d.Template = some tpl)
    (htpl : tpl.Query.toList = pre ++ (callSrc fn v f ++ suf))
    (hpre : ∀ c ∈ pre, c ≠ '{') (hsuf : ∀ c ∈ suf, c ≠ '{') (hv : goodName v = true)
    (hf : ∀ c ∈ f, c ≠ '"' ∧ c ≠ '\\' ∧ c ≠ '\n' ∧ c ≠ '{')
    (hvars : ∀ e ∈ d.Vars.entries, goodName e.1.toList = true ∧ e.1 ≠ String.mk fn) :
    RenderQuery d templates =
      .ok (String.mk pre ++ callOutput x (evalField d.Vars v) (String.mk f) ++ String.mk suf) := by
  obtain ⟨h1, h2, h3, h4⟩ := render_call_parse fn pre v f suf x hfn d.Vars tpl.Query.toList
    htpl hpre hsuf hv hf hvars
  unfold RenderQuery
  have hh : isSectionHeader d = false := by simp [isSectionHeader, ht]
  simp only [hq, hh, hget]
  simp only [h1, h2, h4]
  have hx : x = .default ∨ x = .join := by
    rcases hfn with ⟨-, h⟩ | ⟨-, h⟩
    · exact Or.inl h
    · exact Or.inr h
  rcases hx with rfl | rfl <;>
    simp only [execute, evalCommand, h3, evalArgAny, evalArgString] <;>
    simp [ht, printValue, sprintValue, sprintScalar, callOutput, String.append_assoc]

theorem callTemplate_toList (fn pre v arg suf : String) :
    (callTemplate fn pre v arg suf).toList =
      pre.toList ++ (callSrc fn.toList v.toList arg.toList ++ suf.toList) := by
  simp [callTemplate, callSrc, String.toList]

/-- RenderQuery on `<pre>{{ default(<v>, "<f>") }}<suf>`. -/
theorem render_default (d : SearchDefinition) (templates : GoMap TemplateDefinition)
    (pre v f suf : String) (hq : d.Query = "") (ht : d.Template ≠ "")
    (hget : templates.get? d.Template = some ⟨callTemplate "default" pre v f suf⟩)
    (hpre : ∀ c ∈ pre.toList, c ≠ '{') (hsuf : ∀ c ∈ suf.toList, c ≠ '{')
    (hv : goodName v.toList = true)
    (hf : ∀ c ∈ f.toList, c ≠ '"' ∧ c ≠ '\\' ∧ c ≠ '\n' ∧ c ≠ '{')
    (hvars : ∀ e ∈ d.Vars.entries, goodName e.1.toList = true ∧ e.1 ≠ "default") :
    RenderQuery d templates =
      .ok (pre ++ defaultFunc ((d.Vars.get? v).getD (.scalar .null)) f ++ suf) := by
  have := render_call "default".toList pre.toList v.toList f.toList suf.toList .default
    (Or.inl ⟨rfl, rfl⟩) d templates _ hq ht hget (callTemplate_toList _ _ _ _ _) hpre hsuf hv hf
    hvars
  simpa [callOutput, evalField] using this

/-- RenderQuery on `<pre>{{ join(<v>, "<sep>") }}<suf>`. -/
theorem render_join (d : SearchDefinition) (templates : GoMap TemplateDefinition)
    (pre v sep suf : String) (hq : d.Query = "") (ht : d.Template ≠ "")
    (hget : templates.get? d.Template = some ⟨callTemplate "join" pre v sep suf⟩)
    (hpre : ∀ c ∈ pre.toList, c ≠ '{') (hsuf : ∀ c ∈ suf.toList, c ≠ '{')
    (hv : goodName v.toList = true)
    (hsep : ∀ c ∈ sep.toList, c ≠ '"' ∧ c ≠ '\\' ∧ c ≠ '\n' ∧ c ≠ '{')
    (hvars : ∀ e ∈ d.Vars.entries, goodName e.1.toList = true ∧ e.1 ≠ "join") :
    RenderQuery d templates =
      .ok (pre ++ joinFunc ((d.Vars.get? v).getD (.scalar .null)) sep ++ suf) := by
  have := render_call "join".toList pre.toList v.toList sep.toList suf.toList .join
    (Or.inr ⟨rfl, rfl⟩) d templates _ hq ht hget (callTemplate_toList _ _ _ _ _) hpre hsuf hv
    hsep hvars
  simpa [callOutput, evalField] using this

/-- C3 fails as stated.  A variable named `default` replaces the `default` function
(`funcs[key] = ...`), so `{{ default(default, "y") }}` with `default: x` calls a
function without parameters with two arguments: an execution error.  A variable
whose name is not an identifier (`repo-name`) makes `Funcs` panic, whatever the
template `assignee:{{ default(user, "none") }}` says.  A fallback with a backslash
after a letter (`a\b`) panics as well: `identifierPattern` reads the name `a\`
out of the string literal and registers it as a function. -/
theorem C3_counterexample :
    RenderQuery { Template := "t", Vars := some [("default", .scalar (.str "x"))] }
      (some [("t", ⟨callTemplate "default" "" "default" "y" ""⟩)]) =
        .error (.execute "t") ∧
    RenderQuery
      { Template := "t",
        Vars := some [("user", .scalar (.str "alice")), ("repo-name", .scalar (.str "x"))] }
      (some [("t", ⟨callTemplate "default" "assignee:" "user" "none" ""⟩)]) = .panic ∧
    RenderQuery { Template := "t", Vars := some [("dir", .scalar (.str ""))] }
      (some [("t", ⟨callTemplate "default" "" "dir" "a\\b" ""⟩)]) = .panic := by
  decide

/-- C3, amended: on the template `<pre>{{ default(<v>, "<f>") }}<suf>`, with `pre`
and `suf` free of `{`, `v` an ASCII identifier, `f` free of double quote,
backslash, line break and `{`, and variables named by ASCII identifiers other than
`default`, RenderQuery returns `pre ++ s ++ suf` when `v` is bound to a non-empty
string `s`, and `pre ++ f ++ suf` when `v` is bound to the empty string or absent. -/
theorem C3_default_substitution (d : SearchDefinition) (templates : GoMap TemplateDefinition)
    (pre v f suf : String) (hq : d.Query = "") (ht : d.Template ≠ "")
    (hget : templates.get? d.Template = some ⟨callTemplate "default" pre v f suf⟩)
    (hpre : ∀ c ∈ pre.toList, c ≠ '{') (hsuf : ∀ c ∈ suf.toList, c ≠ '{')
    (hv : goodName v.toList = true)
    (hf : ∀ c ∈ f.toList, c ≠ '"' ∧ c ≠ '\\' ∧ c ≠ '\n' ∧ c ≠ '{')
    (hvars : ∀ e ∈ d.Vars.entries, goodName e.1.toList = true ∧ e.1 ≠ "default") :
    (∀ s : String, s ≠ "" → d.Vars.get? v = some (.scalar (.str s)) →
      RenderQuery d templates = .ok (pre ++ s ++ suf)) ∧
    (d.Vars.get? v = some (.scalar (.str "")) ∨ d.Vars.get? v = none →
      RenderQuery d templates = .ok (pre ++ f ++ suf)) := by
  have h := render_default d templates pre v f suf hq ht hget hpre hsuf hv hf hvars
  refine ⟨fun s hs hb => ?_, fun hb => ?_⟩
  · rw [h, hb]
    simp [defaultFunc, hs]
  · rw [h]
    rcases hb with hb | hb <;> rw [hb] <;> simp [defaultFunc]

/-- C3 at the definition of `TestRenderQueryMissingVarDefaultsToNil`. -/
theorem C3_witness :
    RenderQuery { Template := "withMissing", Vars := some [] }
      (some [("withMissing", ⟨callTemplate "default" "repo:" "additional" "fallback" ""⟩)]) =
        .ok "repo:fallback" :=
  (C3_default_substitution { Template := "withMissing", Vars := some [] }
    (some [("withMissing", ⟨callTemplate "default" "repo:" "additional" "fallback" ""⟩)])
    "repo:" "additional" "fallback" "" rfl (by decide) rfl (by decide) (by decide) (by decide)
    (by decide) (by decide)).2 (Or.inr rfl)

/-- C4 fails as stated.  A list-valued variable named `join` replaces the `join`
function, so `{{ join(join, "OR") }}` is an execution error; a variable whose name
is not an identifier (`repo-list`) makes `Funcs` panic; so does a separator with a
backslash after a letter (`a\b`), whose `a\` is registered as a function. -/
theorem C4_counterexample :
    RenderQuery { Template := "t", Vars := some [("join", .list [.str "a", .str "b"])] }
      (some [("t", ⟨callTemplate "join" "" "join" "OR" ""⟩)]) = .error (.execute "t") ∧
    RenderQuery { Template := "t", Vars := some [("repo-list", .list [.str "a", .str "b"])] }
      (some [("t", ⟨callTemplate "join" "" "repos" "OR" ""⟩)]) = .panic ∧
    RenderQuery { Template := "t", Vars := some [("repos", .list [.str "a", .str "b"])] }
      (some [("t", ⟨callTemplate "join" "" "repos" "a\\b" ""⟩)]) = .panic := by
  decide

/-- C4, amended: on the template `<pre>{{ join(<v>, "<sep>") }}<suf>`, with `pre`
and `suf` free of `{`, `v` an ASCII identifier bound to a list, `sep` free of
double quote, backslash, line break and `{`, and variables named by ASCII
identifiers other than `join`, RenderQuery returns `pre`, the elements in list
order with `" " ++ sep ++ " "` between adjacent ones, and `suf`: nothing for the
empty list, the element alone for a list of one. -/
theorem C4_join_formatting (d : SearchDefinition) (templates : GoMap TemplateDefinition)
    (pre v sep suf : String) (xs : List Scalar) (hq : d.Query = "") (ht : d.Template ≠ "")
    (hget : templates.get? d.Template = some ⟨callTemplate "join" pre v sep suf⟩)
    (hpre : ∀ c ∈ pre.toList, c ≠ '{') (hsuf : ∀ c ∈ suf.toList, c ≠ '{')
    (hv : goodName v.toList = true)
    (hsep : ∀ c ∈ sep.toList, c ≠ '"' ∧ c ≠ '\\' ∧ c ≠ '\n' ∧ c ≠ '{')
    (hvars : ∀ e ∈ d.Vars.entries, goodName e.1.toList = true ∧ e.1 ≠ "join")
    (hb : d.Vars.get? v = some (.list xs)) :
    RenderQuery d templates =
      .ok (pre ++ stringsJoin (xs.map sprintScalar) (" " ++ sep ++ " ") ++ suf) ∧
    (∀ s : String, sprintScalar (.str s) = s) ∧
    stringsJoin [] (" " ++ sep ++ " ") = "" ∧
    (∀ e : String, stringsJoin [e] (" " ++ sep ++ " ") = e) ∧
    (∀ (e e' : String) (es : List String), stringsJoin (e :: e' :: es) (" " ++ sep ++ " ") =
      e ++ (" " ++ sep ++ " ") ++ stringsJoin (e' :: es) (" " ++ sep ++ " ")) := by
  have h := render_join d templates pre v sep suf hq ht hget hpre hsuf hv hsep hvars
  refine ⟨?_, fun _ => rfl, rfl, fun _ => rfl, fun _ _ _ => rfl⟩
  rw [h, hb]
  simp [joinFunc]

/-- C4 at the definition of `TestRenderQueryWithJoin`. -/
theorem C4_witness :
    RenderQuery
      { Name := "test", Template := "repos",
        Vars := some [("repos", .list [.str "repo:a", .str "repo:b", .str "repo:c"])] }
      (some [("repos", ⟨callTemplate "join" "is:pr (" "repos" "OR" ")"⟩)]) =
        .ok "is:pr (repo:a OR repo:b OR repo:c)" :=
  (C4_join_formatting
    { Name := "test", Template := "repos",
      Vars := some [("repos", .list [.str "repo:a", .str "repo:b", .str "repo:c"])] }
    (some [("repos", ⟨callTemplate "join" "is:pr (" "repos" "OR" ")"⟩)])
    "is:pr (" "repos" "OR" ")" [.str "repo:a", .str "repo:b", .str "repo:c"] rfl (by decide) rfl
    (by decide) (by decide) (by decide) (by decide) (by decide) rfl).1

/-- C5: the code at two templates that reference a variable absent from the
variables.  `a:{{ user }}`: `referencedIdentifiers` finds `u`, `s`, `e`, `r`, not
`user`, so `user` is no function and parsing fails.  `a:{{ join(x, "OR") }}`: the
absent `x` is nil and `join` prints it with `fmt.Sprint`. -/
theorem C5_absent_variable :
    referencedIdentifiers "a:\x7b\x7b user \x7d\x7d".toList = [['u'], ['s'], ['e'], ['r']] ∧
    RenderQuery { Template := "t", Vars := some [] }
      (some [("t", ⟨"a:\x7b\x7b user \x7d\x7d"⟩)]) = .error (.parse "t") ∧
    RenderQuery { Template := "t", Vars := some [] }
      (some [("t", ⟨callTemplate "join" "a:" "x" "OR" ""⟩)]) = .ok "a:<nil>" ∧
    RenderQuery { Template := "t", Vars := some [] }
      (some [("t", ⟨callTemplate "default" "a:" "x" "none" ""⟩)]) = .ok "a:none" := by
  decide

/-- C6 fails as stated: bound to the non-empty list `[a]`, or to the number 7,
the first argument of `default` is not returned; the fallback is. -/
theorem C6_counterexample :
    defaultFunc (.list [.str "a"]) "fb" = "fb" ∧
    RenderQuery { Template := "t", Vars := some [("x", .list [.str "a"])] }
      (some [("t", ⟨callTemplate "default" "" "x" "fb" ""⟩)]) = .ok "fb" ∧
    RenderQuery { Template := "t", Vars := some [("days", .scalar (.int 7))] }
      (some [("t", ⟨callTemplate "default" "" "days" "fb" ""⟩)]) = .ok "fb" := by
  decide

/-- C6, amended: a `default` call yields its first argument's value exactly when
that value is a non-empty string, and the literal fallback for every other value:
absent or nil, the empty string, a list, a number, a boolean. -/
theorem C6_default_only_strings (d : SearchDefinition) (templates : GoMap TemplateDefinition)
    (pre v f suf : String) (hq : d.Query = "") (ht : d.Template ≠ "")
    (hget : templates.get? d.Template = some ⟨callTemplate "default" pre v f suf⟩)
    (hpre : ∀ c ∈ pre.toList, c ≠ '{') (hsuf : ∀ c ∈ suf.toList, c ≠ '{')
    (hv : goodName v.toList = true)
    (hf : ∀ c ∈ f.toList, c ≠ '"' ∧ c ≠ '\\' ∧ c ≠ '\n' ∧ c ≠ '{')
    (hvars : ∀ e ∈ d.Vars.entries, goodName e.1.toList = true ∧ e.1 ≠ "default") :
    (∀ s : String, s ≠ "" → defaultFunc (.scalar (.str s)) f = s) ∧
    (∀ value : Value, (∀ s : String, s ≠ "" → value ≠ .scalar (.str s)) →
      defaultFunc value f = f) ∧
    (∀ s : String, s ≠ "" → d.Vars.get? v = some (.scalar (.str s)) →
      RenderQuery d templates = .ok (pre ++ s ++ suf)) ∧
    (∀ value : Value, (∀ s : String, s ≠ "" → value ≠ .scalar (.str s)) →
      d.Vars.get? v = some value ∨ d.Vars.get? v = none →
      RenderQuery d templates = .ok (pre ++ f ++ suf)) := by
  have h := render_default d templates pre v f suf hq ht hget hpre hsuf hv hf hvars
  have h1 : ∀ s : String, s ≠ "" → defaultFunc (.scalar (.str s)) f = s := by
    intro s hs
    simp [defaultFunc, hs]
  have h2 : ∀ value : Value, (∀ s : String, s ≠ "" → value ≠ .scalar (.str s)) →
      defaultFunc value f = f := by
    intro value hval
    unfold defaultFunc
    split
    · rename_i s
      by_cases hs : s = ""
      · simp [hs]
      · exact absurd rfl (hval s hs)
    · rfl
  refine ⟨h1, h2, fun s hs hb => ?_, fun value hval hb => ?_⟩
  · rw [h, hb]
    simp [h1 s hs]
  · rw [h]
    rcases hb with hb | hb
    · rw [hb]; simp [h2 value hval]
    · rw [hb]; simp [defaultFunc]

/-- C6 at a variable bound to a list of one element. -/
theorem C6_witness :
    RenderQuery { Template := "t", Vars := some [("x", .list [.str "a"])] }
      (some [("t", ⟨callTemplate "default" "q:" "x" "fb" ""⟩)]) = .ok "q:fb" :=
  (C6_default_only_strings { Template := "t", Vars := some [("x", .list [.str "a"])] }
    (some [("t", ⟨callTemplate "default" "q:" "x" "fb" ""⟩)]) "q:" "x" "fb" "" rfl (by decide)
    rfl (by decide) (by decide) (by decide) (by decide) (by decide)).2.2.2
    (.list [.str "a"]) (fun _ _ h => by cases h) (Or.inl rfl)

/-! ### The identifiers `referencedIdentifiers` returns -/

theorem foldl_nodup {α : Type} (f : List (List Char) → α → List (List Char))
    (hf : ∀ ids x, ids.Nodup → (f ids x).Nodup) :
    ∀ (xs : List α) (ids : List (List Char)), ids.Nodup → (xs.foldl f ids).Nodup := by
  intro xs
  induction xs with
  | nil => intro ids h; exact h
  | cons x xs ih => intro ids h; exact ih _ (hf ids x h)

theorem nodup_snoc (ids : List (List Char)) (name : List Char) (h : ids.Nodup)
    (hn : ids.contains name = false) : (ids ++ [name]).Nodup := by
  have hn : name ∉ ids := by simpa using hn
  rw [List.nodup_append]
  refine ⟨h, by simp, ?_⟩
  intro a ha hb
  simp at hb
  subst hb
  exact hn ha

theorem referencedIdentifiers_nodup (text : List Char) :
    (referencedIdentifiers text).Nodup := by
  unfold referencedIdentifiers
  apply foldl_nodup
  · intro ids name h
    by_cases h1 : (name.isEmpty || ids.contains name) = true
    · simp only [h1, if_true]; exact h
    · simp only [h1]
      simp only [Bool.or_eq_true, not_or, Bool.not_eq_true] at h1
      exact nodup_snoc ids name h h1.2
  · apply foldl_nodup
    · intro ids name h
      by_cases h1 : controlKeywords.contains name = true
      · simp only [h1, if_true]; exact h
      · by_cases h2 : ids.contains name = true
        · simp only [h1, h2, if_true]; exact h
        · simp only [h1, h2]
          exact nodup_snoc ids name h (by simpa using h2)
    · exact List.nodup_nil

/-- C14: the code at the text `{{ user }}`.  `identifierPattern` is the raw string
`([a-zA-Z_][\\w]*)`, whose second class holds the backslash and the letter `w`, so
a name ends after its first character unless a `w` or a backslash follows:
`referencedIdentifiers` returns `u`, `s`, `e`, `r`, not `user`; RenderQuery binds no
function `user`, and parsing fails.  The keyword `if` is returned as `i` and `f`.
What holds for every text: the result has no duplicates. -/
theorem C14_identifier_fragments :
    referencedIdentifiers "\x7b\x7b user \x7d\x7d".toList = [['u'], ['s'], ['e'], ['r']] ∧
    (buildFuncs (some []) (referencedIdentifiers "\x7b\x7b user \x7d\x7d".toList)).lookup "user" =
      none ∧
    RenderQuery { Template := "t", Vars := some [] }
      (some [("t", ⟨"\x7b\x7b user \x7d\x7d"⟩)]) = .error (.parse "t") ∧
    referencedIdentifiers "\x7b\x7b www user_name if \x7d\x7d".toList =
      [['w', 'w', 'w'], ['u'], ['s'], ['e'], ['r'], ['_'], ['n'], ['a'], ['m'], ['i'], ['f']] ∧
    ∀ text : List Char, (referencedIdentifiers text).Nodup := by
  refine ⟨by decide, by decide, by decide, by decide, referencedIdentifiers_nodup⟩

end SavedSearches
